import Mathlib

/-!
# vinxi: middleware layer, priority stack, pattern matcher and router

A shallow embedding of the Go packages `layer` (stack.go, layer.go) and
`router` (match.go, route.go, router.go), followed by theorems about them.

Conventions of the embedding:

* a Go `string` is a list of bytes (`GoString`); bytes are natural numbers;
* a slice is a list; for the slices of a `Stack`, which are only ever built by
  `append` from the zero value, "nil" and "empty" coincide;
* an `http.Handler` acts on the pair (response writer, request) and on the
  variables its closure captured; all of that is the connection state `Conn`,
  and a handler is a function from `Conn` to an `Outcome`, which is either a
  normal return or a panic, each with the state reached;
* pointers to layers and routes are replaced by the values they point to, as
  they stand when a request is served.
-/

set_option autoImplicit false
set_option linter.dupNamespace false

namespace Vinxi

/-! ## layer/stack.go -/

/-- Go `type Priority int`. -/
abbrev Priority := Int

namespace Priority

/-- First element of the stack head (`iota` = 0). -/
def TopHead : Priority := 0
/-- Head of the stack. -/
def Head : Priority := 1
/-- Normal priority. -/
def Normal : Priority := 2
/-- First element of the stack tail. -/
def TopTail : Priority := 3
/-- Tail of the stack. -/
def Tail : Priority := 4

end Priority

/-- Go `type Stack struct`: the memoized merged slice and the three bands.
`memo = none` is the nil slice. -/
structure Stack (α : Type) where
  memo : Option (List α) := none
  Head : List α := []
  Stack : List α := []
  Tail : List α := []

namespace Stack

variable {α : Type}

/-- Go `func (s *Stack) Push(order Priority, h MiddlewareFunc)`: the memo is
flushed, then the five `if` statements run in the order of the source, each
acting on one band. -/
def Push (s : Vinxi.Stack α) (order : Priority) (h : α) : Vinxi.Stack α :=
  match s with
  | ⟨_, head, stack, tail⟩ =>
    let head1 : List α := if order = Priority.TopHead then [h] ++ head else head
    let head2 : List α := if order = Priority.Head then head1 ++ [h] else head1
    let tail1 : List α := if order = Priority.Tail then tail ++ [h] else tail
    let tail2 : List α := if order = Priority.TopTail then [h] ++ tail1 else tail1
    let stack1 : List α := if order = Priority.Normal then stack ++ [h] else stack
    ⟨none, head2, stack1, tail2⟩

/-- The slice `append(append(s.Head, s.Stack...), s.Tail...)` as a nilable value:
appending nothing to nil slices gives nil. -/
def merged (s : Vinxi.Stack α) : Option (List α) :=
  match (s.Head ++ s.Stack) ++ s.Tail with
  | [] => none
  | q => some q

/-- Go `func (s *Stack) Join() []MiddlewareFunc`: the returned slice and the
stack with its memo updated. -/
def Join (s : Vinxi.Stack α) : List α × Vinxi.Stack α :=
  match s.memo with
  | some m => (m, s)
  | none => ((s.Head ++ s.Stack) ++ s.Tail, { s with memo := s.merged })

/-- Go `func (s *Stack) Len() int`. -/
def Len (s : Vinxi.Stack α) : Nat :=
  s.Stack.length + s.Tail.length + s.Head.length

/-- A sequence of `Push` calls, in order, on the stack `s`. -/
def pushAll (s : Vinxi.Stack α) (ps : List (Priority × α)) : Vinxi.Stack α :=
  ps.foldl (fun acc p => acc.Push p.1 p.2) s

end Stack

/-- The items pushed with priority `b`, in push order. -/
def band {α : Type} (b : Priority) (ps : List (Priority × α)) : List α :=
  (ps.filter (fun p => decide (p.1 = b))).map Prod.snd

/-! ## net/http: the connection state and handlers -/

/-- A Go `string`: a sequence of bytes. -/
abbrev GoString := List Nat

/-- The bytes of an ASCII literal. -/
def str (s : String) : GoString := s.toList.map Char.toNat

/-- Everything a handler can read or write while serving one request: the
request (`*http.Request`, with its per-request context store), the recording
response writer (`http.ResponseWriter`), and the variables captured by the
closures of the handlers (`Events`). -/
structure Conn where
  Method : String := ""
  Path : GoString := []
  RawQuery : GoString := []
  Context : List (String × String) := []
  Code : Nat := 0
  Body : String := ""
  Header : List (String × String) := []
  Events : List Nat := []

namespace Conn

/-- `w.WriteHeader(code)` on the recording writer. -/
def WriteHeader (c : Conn) (code : Nat) : Conn := { c with Code := code }

/-- `w.Write(b)` on the recording writer: the body grows by `b`. -/
def Write (c : Conn) (b : String) : Conn := { c with Body := c.Body ++ b }

/-- `w.Header().Set(k, v)`. -/
def HeaderSet (c : Conn) (k v : String) : Conn :=
  { c with Header := (c.Header.filter (fun e => decide (e.1 ≠ k))) ++ [(k, v)] }

/-- `w.Header().Get(k)`. -/
def HeaderGet (c : Conn) (k : String) : String := (c.Header.lookup k).getD ""

/-- `w.Header().Values(k)`: all values stored under `k`, in the order in which
they were added. -/
def HeaderValues (c : Conn) (k : String) : List String :=
  (c.Header.filter (fun e => decide (e.1 = k))).map Prod.snd

/-- Modelled from the spec: `context.Set(r, key, value)` of the package
`gopkg.in/vinxi/context.v0`, a per-request key-value bag. -/
def ctxSet (c : Conn) (k v : String) : Conn :=
  { c with Context := (c.Context.filter (fun e => decide (e.1 ≠ k))) ++ [(k, v)] }

/-- A closure appends `e` to its captured slice. -/
def record (c : Conn) (e : Nat) : Conn := { c with Events := c.Events ++ [e] }

/-- The events `es` appended one after the other. -/
def recordAll (c : Conn) (es : List Nat) : Conn := { c with Events := c.Events ++ es }

end Conn

/-- How a call of `ServeHTTP` ends: it returns, or it panics with a (non-nil)
value; either way the connection state reached is kept. -/
inductive Outcome where
  | ok (c : Conn)
  | panic (c : Conn) (v : String)

/-- Go `http.Handler` (non-nil). -/
abbrev Handler := Conn → Outcome

/-- Calling `ServeHTTP` on a nil `http.Handler`: a run-time panic. -/
def nilHandler : Handler :=
  fun c => Outcome.panic c "runtime error: invalid memory address or nil pointer dereference"

/-- A possibly nil `http.Handler` as the handler it behaves as when served. -/
def serve : Option Handler → Handler
  | some h => h
  | none => nilHandler

/-- Go `type MiddlewareFunc func(http.Handler) http.Handler`. -/
abbrev MiddlewareFunc := Handler → Handler

/-! ## layer/layer.go -/

/-- Go `ErrorPhase`. -/
def ErrorPhase : String := "error"
/-- Go `RequestPhase`. -/
def RequestPhase : String := "request"

/-- Go `FinalHandler`: replies 502 "Bad Gateway". -/
def FinalHandler : Handler := fun c => Outcome.ok ((c.WriteHeader 502).Write "Bad Gateway")

/-- Go `FinalErrorHandler`: replies 500 "Proxy Error". -/
def FinalErrorHandler : Handler := fun c => Outcome.ok ((c.WriteHeader 500).Write "Proxy Error")

/-- Go `type Pool map[string]*Stack`, as an association list with unique keys. -/
abbrev Pool := List (String × Stack MiddlewareFunc)

/-- The map read `pool[phase]`. -/
def poolGet (pool : Pool) (phase : String) : Option (Stack MiddlewareFunc) :=
  List.lookup phase pool

/-- The map write `pool[phase] = st`. -/
def poolSet (pool : Pool) (phase : String) (st : Stack MiddlewareFunc) : Pool :=
  match poolGet pool phase with
  | some _ => pool.map (fun e => if e.1 = phase then (e.1, st) else e)
  | none => pool ++ [(phase, st)]

/-- Go `type Layer struct`: final handler, parent layer, pool of stacks. -/
inductive Layer where
  | mk (finalHandler : Option Handler) (parent : Option Layer) (Pool : Pool) : Layer

namespace Layer

/-- Field `finalHandler`. -/
def finalHandler : Layer → Option Handler
  | mk f _ _ => f

/-- Field `parent`. -/
def parent : Layer → Option Layer
  | mk _ p _ => p

/-- Field `Pool`. -/
def Pool : Layer → Vinxi.Pool
  | mk _ _ p => p

/-- Go `func (s *Layer) run(phase, w, r, h)`: the handler that the chain built
for `phase` amounts to. The loop `for i := len(queue)-1; i >= 0; i--` visits
the queue from its last entry to its first. -/
def run (s : Layer) (phase : String) (h : Option Handler) : Handler :=
  let h0 : Handler :=
    match h with
    | some h => h
    | none => serve s.finalHandler
  match poolGet s.Pool phase with
  | none => h0
  | some stack => (stack.Join.1).reverse.foldl (fun acc m => m acc) h0

/-- Go `func (s *Layer) Run(phase, w, r, h)`, with the deferred recovery and
the body of `runRecoverError` written out (see `Run_eq`). -/
def Run : Layer → String → Option Handler → Handler
  | mk fh par pool, phase, h => fun c =>
    let next : Handler := (mk fh par pool).run phase h
    let body : Outcome :=
      if phase ≠ RequestPhase then
        match par with
        | some p => p.Run phase (some next) c
        | none => next c
      else next c
    match body with
    | Outcome.ok c1 => Outcome.ok c1
    | Outcome.panic c1 re =>
      if phase = "error" then Outcome.panic c1 re
      else
        let enext : Handler := fun c2 =>
          match par with
          | none => FinalErrorHandler c2
          | some p => p.Run "error" (some FinalErrorHandler) c2
        (mk fh par pool).run "error" (some enext) (c1.ctxSet "vinxi.error" re)
termination_by structural s => s

/-- Go `func (s *Layer) runRecoverError(rerr, w, r)`. -/
def runRecoverError (s : Layer) (rerr : String) : Handler := fun c =>
  let next : Handler := fun c2 =>
    match s.parent with
    | none => FinalErrorHandler c2
    | some p => p.Run "error" (some FinalErrorHandler) c2
  s.run "error" (some next) (c.ctxSet "vinxi.error" rerr)

/-- The body of `Run` before the deferred function: the parent's `Run` for a
phase other than "request" when there is a parent, the layer's own chain
otherwise. -/
def runBody (s : Layer) (phase : String) (h : Option Handler) : Handler := fun c =>
  if phase ≠ RequestPhase then
    match s.parent with
    | some p => p.Run phase (some (s.run phase h)) c
    | none => s.run phase h c
  else s.run phase h c

/-- The deferred function of `Run`, applied to the outcome of the body. -/
def recovered (s : Layer) (phase : String) : Outcome → Outcome
  | Outcome.ok c1 => Outcome.ok c1
  | Outcome.panic c1 re =>
    if phase = "error" then Outcome.panic c1 re else s.runRecoverError re c1

/-- Go `func New() *Layer`. -/
def New : Layer := mk (some FinalHandler) none []

/-- Go `func (s *Layer) Flush()`. -/
def Flush (s : Layer) : Layer := mk s.finalHandler s.parent []

/-- Go `func (s *Layer) UseFinalHandler(fn http.Handler)`. -/
def UseFinalHandler (s : Layer) (fn : Option Handler) : Layer := mk fn s.parent s.Pool

/-- Go `func (s *Layer) SetParent(parent Middleware)`. -/
def SetParent (s : Layer) (parent : Option Layer) : Layer := mk s.finalHandler parent s.Pool

end Layer

/-- A function value of one of the four signatures that `AdaptFunc` asserts:
`func(http.Handler) http.Handler`,
`func(http.Handler) func(http.ResponseWriter, *http.Request)`,
`func(http.ResponseWriter, *http.Request, http.Handler)` and
`func(http.ResponseWriter, *http.Request)`. A function that receives the
downstream handler is a function of that handler. -/
inductive FuncValue where
  | middlewareFunc (mw : Handler → Handler)
  | middlewareHandlerFunc (mw : Handler → Handler)
  | handlerFuncNext (fn : Handler → Handler)
  | handlerFunc (fn : Handler)

/-- The method `HandleHTTP` of a type, by its signature: that of the interface
`Handler`, `HandleHTTP(w, r, h)`, or that of the interface `PartialHandler`,
`HandleHTTP(h) func(w, r)`. A type has one method of a name at most. -/
inductive HandleHTTPMethod where
  | handler (fn : Handler → Handler)
  | partialHandler (fn : Handler → Handler)

/-- The methods of a defined type that the interfaces `Registrable`,
`http.Handler`, `Handler` and `PartialHandler` ask for; `none` is a missing
method. -/
structure MethodSet where
  Register : Option (Layer → Layer) := none
  ServeHTTP : Option Handler := none
  HandleHTTP : Option HandleHTTPMethod := none

/-- A value passed as `interface{}`, with what the type assertions of
`register` and `AdaptFunc` look at, its dynamic type:

* `func f`: the dynamic type is one of the four unnamed function types, as for
  a function literal or a declared function; an unnamed type has no methods;
* `defined underlying methods`: the dynamic type is a defined (named) type or
  a pointer to one, with its method set; `underlying` is the function when it
  is a function type of one of the four signatures, such as
  `layer.HandlerFunc` or `http.HandlerFunc`. The nil interface value is
  `defined none {}`.

The assertion of an unnamed function type holds for `func` only: a defined
type is not identical to its underlying type. -/
inductive AnyHandler where
  | func (f : FuncValue)
  | defined (underlying : Option FuncValue) (methods : MethodSet)

namespace AnyHandler

/-- A function of the unnamed type `func(http.Handler) http.Handler`. -/
abbrev middleware (mw : Handler → Handler) : AnyHandler := func (FuncValue.middlewareFunc mw)

/-- A function of the unnamed type
`func(http.Handler) func(http.ResponseWriter, *http.Request)`. -/
abbrev middlewareHandlerFunc (mw : Handler → Handler) : AnyHandler :=
  func (FuncValue.middlewareHandlerFunc mw)

/-- A function of the unnamed type
`func(http.ResponseWriter, *http.Request, http.Handler)`. -/
abbrev handlerFuncNext (fn : Handler → Handler) : AnyHandler := func (FuncValue.handlerFuncNext fn)

/-- A function of the unnamed type `func(http.ResponseWriter, *http.Request)`. -/
abbrev handlerFunc (fn : Handler) : AnyHandler := func (FuncValue.handlerFunc fn)

/-- A value of a type that is not a function type and whose only method is
`Register(Middleware)`. -/
abbrev registrable (register : Layer → Layer) : AnyHandler :=
  defined none { Register := some register }

/-- A value of a type that is not a function type and whose only method is
`ServeHTTP(w, r)`. -/
abbrev nativeHandler (fn : Handler) : AnyHandler := defined none { ServeHTTP := some fn }

/-- A value of a type, such as `vinxiHandler` of the tests, whose only method
is `HandleHTTP(w, r, h)`. -/
abbrev handler (fn : Handler → Handler) : AnyHandler :=
  defined none { HandleHTTP := some (HandleHTTPMethod.handler fn) }

/-- A value of a type whose only method is `HandleHTTP(h) func(w, r)`. -/
abbrev partialHandler (fn : Handler → Handler) : AnyHandler :=
  defined none { HandleHTTP := some (HandleHTTPMethod.partialHandler fn) }

/-- Go `http.HandlerFunc(fn)`: the defined type of net/http whose method
`ServeHTTP(w, r)` calls `fn(w, r)`. -/
abbrev httpHandlerFunc (fn : Handler) : AnyHandler :=
  defined (some (FuncValue.handlerFunc fn)) { ServeHTTP := some fn }

/-- Go `layer.HandlerFunc(fn)`: a value of the defined type
`type HandlerFunc func(http.ResponseWriter, *http.Request)`, which has no
methods. -/
abbrev ofHandlerFunc (fn : Handler) : AnyHandler := defined (some (FuncValue.handlerFunc fn)) {}

/-- Go `layer.HandlerFuncNext(fn)`: a value of the defined type
`type HandlerFuncNext func(http.ResponseWriter, *http.Request, http.Handler)`,
which has no methods. -/
abbrev ofHandlerFuncNext (fn : Handler → Handler) : AnyHandler :=
  defined (some (FuncValue.handlerFuncNext fn)) {}

/-- Go `layer.MiddlewareFunc(mw)`: a value of the defined type
`type MiddlewareFunc func(http.Handler) http.Handler`, which has no methods;
it is the type of what `AdaptFunc` returns. -/
abbrev ofMiddlewareFunc (mw : Handler → Handler) : AnyHandler :=
  defined (some (FuncValue.middlewareFunc mw)) {}

/-- Go `layer.MiddlewareHandlerFunc(mw)`: a value of the defined type
`type MiddlewareHandlerFunc func(http.Handler) func(http.ResponseWriter, *http.Request)`,
which has no methods. -/
abbrev ofMiddlewareHandlerFunc (mw : Handler → Handler) : AnyHandler :=
  defined (some (FuncValue.middlewareHandlerFunc mw)) {}

/-- The nil interface value, or a value of a type with none of the methods and
of no function type that `AdaptFunc` asserts. -/
abbrev unsupported : AnyHandler := defined none {}

/-- The type assertion `h.(T)` for the unnamed function types `T`: it holds
when the dynamic type of `h` is `T` itself. -/
def assertFunc : AnyHandler → Option FuncValue
  | func f => some f
  | defined _ _ => none

/-- The method set of the dynamic type of `h`: empty for an unnamed function
type. -/
def methods : AnyHandler → MethodSet
  | func _ => {}
  | defined _ ms => ms

end AnyHandler

/-- Go `func adaptHandlerFunc(fn HandlerFunc) MiddlewareFunc`. -/
def adaptHandlerFunc (fn : Handler) : MiddlewareFunc := fun _ => fn

/-- Go `func adaptMiddlewareHandlerFunc(fn MiddlewareHandlerFunc) MiddlewareFunc`. -/
def adaptMiddlewareHandlerFunc (fn : Handler → Handler) : MiddlewareFunc := fun h => fn h

/-- Go `func adaptHandlerFuncNext(fn HandlerFuncNext) MiddlewareFunc`. -/
def adaptHandlerFuncNext (fn : Handler → Handler) : MiddlewareFunc := fun h => fun c => fn h c

/-- Go `func adaptHandler(fn Handler) MiddlewareFunc`. -/
def adaptHandler (fn : Handler → Handler) : MiddlewareFunc := fun h => fun c => fn h c

/-- Go `func adaptPartialHandler(fn PartialHandler) MiddlewareFunc`. -/
def adaptPartialHandler (fn : Handler → Handler) : MiddlewareFunc := fun h => fun c => fn h c

/-- Go `func adaptNativeHandler(fn http.Handler) MiddlewareFunc`. -/
def adaptNativeHandler (fn : Handler) : MiddlewareFunc := fun _ => fn

/-- Go `func AdaptFunc(h interface{}) MiddlewareFunc` (`none` is nil): the
type assertions in the order of the source, first the four unnamed function
types, then the interfaces `http.Handler`, `Handler` and `PartialHandler`. -/
def AdaptFunc (h : AnyHandler) : Option MiddlewareFunc :=
  match h.assertFunc with
  | some (FuncValue.middlewareFunc mw) => some mw
  | some (FuncValue.middlewareHandlerFunc mw) => some (adaptMiddlewareHandlerFunc mw)
  | some (FuncValue.handlerFuncNext mw) => some (adaptHandlerFuncNext mw)
  | some (FuncValue.handlerFunc mw) => some (adaptHandlerFunc mw)
  | none =>
    match h.methods.ServeHTTP with
    | some mw => some (adaptNativeHandler mw)
    | none =>
      match h.methods.HandleHTTP with
      | some (HandleHTTPMethod.handler mw) => some (adaptHandler mw)
      | some (HandleHTTPMethod.partialHandler mw) => some (adaptPartialHandler mw)
      | none => none

/-- Go `func register(layer, stack, priority, handler)`; `stack` is the stack
that the pool of `layer` holds for `phase` (a push to a stack that the pool no
longer holds changes nothing in the layer). The source reads `stack` once,
before the loop of `use`; here it is found by its phase at each registration,
which differs only after a plugin whose `Register` flushes the layer and then
registers under the same phase again. A panic is an `Except.error`. -/
def register (layer : Layer) (phase : String) (priority : Priority) (handler : AnyHandler) :
    Except String Layer :=
  match handler.methods.Register with
  | some r => Except.ok (r layer)
  | none =>
    match AdaptFunc handler with
    | none => Except.error "vinxi: unsupported middleware interface"
    | some mw =>
      match layer with
      | Layer.mk fh par pool =>
        match poolGet pool phase with
        | some stack => Except.ok (Layer.mk fh par (poolSet pool phase (stack.Push priority mw)))
        | none => Except.ok (Layer.mk fh par pool)

namespace Layer

/-- The loop `for _, h := range handler { register(s, stack, priority, h) }`. -/
def registerAll (s : Layer) (phase : String) (priority : Priority) :
    List AnyHandler → Except String Layer
  | [] => Except.ok s
  | h :: hs =>
    match register s phase priority h with
    | Except.error e => Except.error e
    | Except.ok s1 => registerAll s1 phase priority hs

/-- Go `func (s *Layer) use(phase, priority, handler...)`. -/
def use (s : Layer) (phase : String) (priority : Priority) (handler : List AnyHandler) :
    Except String Layer :=
  match s with
  | mk fh par pool =>
    match poolGet pool phase with
    | none => registerAll (mk fh par (poolSet pool phase {})) phase priority handler
    | some _ => registerAll (mk fh par pool) phase priority handler

/-- Go `func (s *Layer) Use(phase, handler...)`. -/
def Use (s : Layer) (phase : String) (handler : List AnyHandler) : Except String Layer :=
  s.use phase Priority.Normal handler

/-- Go `func (s *Layer) UsePriority(phase, priority, handler...)`. -/
def UsePriority (s : Layer) (phase : String) (priority : Priority) (handler : List AnyHandler) :
    Except String Layer :=
  s.use phase priority handler

end Layer

/-- The handler that the queue `q` wraps around `h`: the first entry is the
outermost wrapper. -/
def chain (q : List MiddlewareFunc) (h : Handler) : Handler :=
  q.foldr (fun m acc => m acc) h

namespace Layer

/-- The flattened stack of `phase`, empty when the pool has no such stack. -/
def queue (s : Layer) (phase : String) : List MiddlewareFunc :=
  match poolGet s.Pool phase with
  | none => []
  | some stack => stack.Join.1

/-- The handler that ends the chain of `run`: the downstream argument, or the
final handler of the layer when that argument is nil. -/
def terminal (s : Layer) (h : Option Handler) : Handler :=
  match h with
  | some h => h
  | none => serve s.finalHandler

end Layer

/-- A middleware that does not call its downstream: the handler it returns
does not depend on the downstream it is given. -/
def IgnoresDownstream (m : MiddlewareFunc) : Prop := ∀ h1 h2 : Handler, m h1 = m h2

/-- The middleware of `buildAppendingMiddleware(before, after)`: it appends
`before`, serves its downstream, then appends `after`. -/
def recording (before after : Nat) : MiddlewareFunc := fun h c =>
  match h (c.record before) with
  | Outcome.ok c1 => Outcome.ok (c1.record after)
  | Outcome.panic c1 v => Outcome.panic c1 v

/-- The registrations of `TestUsePriority`, in order, on a new layer whose
final handler replies 503. -/
def testUsePriorityLayer : Except String Layer := do
  let mw := Layer.New.UseFinalHandler
    (some (fun c => Outcome.ok ((c.WriteHeader 503).Write "vinxi: service unavailable")))
  let mw ← mw.UsePriority "request" Priority.Normal [AnyHandler.middleware (recording 3 10)]
  let mw ← mw.UsePriority "request" Priority.Tail [AnyHandler.middleware (recording 5 8)]
  let mw ← mw.UsePriority "request" Priority.Head [AnyHandler.middleware (recording 1 12)]
  let mw ← mw.UsePriority "request" Priority.Tail [AnyHandler.middleware (recording 6 7)]
  let mw ← mw.UsePriority "request" Priority.Head [AnyHandler.middleware (recording 2 11)]
  mw.UsePriority "request" Priority.Normal [AnyHandler.middleware (recording 4 9)]

/-- The events recorded by serving `c` with the layer `l`, when registration
succeeded and the run returned. -/
def eventsOfRun (l : Except String Layer) (phase : String) (c : Conn) : Option (List Nat) :=
  match l with
  | Except.error _ => none
  | Except.ok mw =>
    match mw.Run phase none c with
    | Outcome.ok c1 => some c1.Events
    | Outcome.panic _ _ => none

/-- The response written by serving `c` with the layer `l` for `phase`: status,
body and headers, when registration succeeded and the run returned. -/
def responseOfRun (l : Except String Layer) (phase : String) (c : Conn) :
    Option (Nat × String × List (String × String)) :=
  match l with
  | Except.error _ => none
  | Except.ok mw =>
    match mw.Run phase none c with
    | Outcome.ok c1 => some (c1.Code, c1.Body, c1.Header)
    | Outcome.panic _ _ => none

/-- A middleware that sets a header and serves its downstream. -/
def setHeaderThenNext (k v : String) : MiddlewareFunc := fun h c => h (c.HeaderSet k v)

/-- A middleware that replies with a status and a body and does not serve its
downstream. -/
def reply (code : Nat) (body : String) : MiddlewareFunc :=
  fun _ c => Outcome.ok ((c.WriteHeader code).Write body)

/-- A middleware whose handler panics with `v`. -/
def panicking (v : String) : MiddlewareFunc := fun _ c => Outcome.panic c v

/-- The layers of `TestParentLayer`: the child, with its parent as it stands
when the request is served. -/
def testParentLayer : Except String Layer := do
  let parent ← Layer.New.Use "foo" [AnyHandler.middleware (setHeaderThenNext "foo" "foo")]
  let mw := Layer.New.SetParent (some parent)
  let mw ← mw.Use "foo" [AnyHandler.middleware (setHeaderThenNext "bar" "bar")]
  mw.Use "foo" [AnyHandler.middleware (reply 200 "hello world")]

/-- The layers of `TestParentLayerStopChain`. -/
def testParentLayerStopChain : Except String Layer := do
  let parent ← Layer.New.Use "foo" [AnyHandler.middleware (setHeaderThenNext "foo" "foo")]
  let parent ← parent.Use "foo" [AnyHandler.middleware (reply 200 "hello world")]
  let mw := Layer.New.SetParent (some parent)
  mw.Use "foo" [AnyHandler.middleware (reply 500 "oops")]

/-- The layer of `TestFinalErrorHandling`. -/
def testFinalErrorHandling : Except String Layer :=
  Layer.New.Use "request" [AnyHandler.middleware (panicking "something went wrong")]

/-! ## router/match.go -/

/-- Go `url.Values` (`map[string][]string`) as an association list with unique
keys, in the order in which the keys were first added. -/
abbrev Values := List (GoString × List GoString)

/-- Go `func (v Values) Add(key, value string)`: `v[key] = append(v[key], value)`. -/
def valuesAdd : Values → GoString → GoString → Values
  | [], key, value => [(key, [value])]
  | (k, vs) :: rest, key, value =>
    if k = key then (k, vs ++ [value]) :: rest else (k, vs) :: valuesAdd rest key value

/-- Go `func isAlpha(ch byte) bool`. -/
def isAlpha (ch : Nat) : Bool :=
  (97 ≤ ch && ch ≤ 122) || (65 ≤ ch && ch ≤ 90) || ch == 95

/-- Go `func isDigit(ch byte) bool`. -/
def isDigit (ch : Nat) : Bool := 48 ≤ ch && ch ≤ 57

/-- Go `func isAlnum(ch byte) bool`. -/
def isAlnum (ch : Nat) : Bool := isAlpha ch || isDigit ch

/-- Go `func matchPart(b byte) func(byte) bool`. -/
def matchPart (b : Nat) : Nat → Bool := fun c => c != b && c != 47

/-- The loop `for j < len(s) && f(s[j]) { j++ }` of `match`; the list is the
rest of `s` from index `j` on. -/
def matchLoop (f : Nat → Bool) : List Nat → Nat → Nat
  | [], j => j
  | c :: rest, j => if f c then matchLoop f rest (j + 1) else j

/-- Go `func match(s string, f matcher, i int) (matched string, next byte, j int)`. -/
def match' (s : GoString) (f : Nat → Bool) (i : Nat) : GoString × Nat × Nat :=
  let j := matchLoop f (s.drop i) i
  let next : Nat := if h : j < s.length then s[j] else 0
  ((s.drop i).take (j - i), next, j)

/-- The test `pat != "/" && len(pat) > 0 && pat[len(pat)-1] == '/'` of `Match`. -/
def trailingSlash (pat : GoString) : Bool :=
  if pat ≠ [47] then
    if h : 0 < pat.length then
      if pat[pat.length - 1] = 47 then true else false
    else false
  else false

/-- The loop `for i < len(path)` of `Match` and the statements after it, from
the state `i`, `j`, `p`. Every iteration that does not return moves `j`
forward, so the first argument bounds the number of iterations; the result is
`none` when that bound is used up, `some none` for `(nil, false)` and
`some (some p)` for `(p, true)`. -/
def MatchLoop (pat path : GoString) : Nat → Nat → Nat → Values → Option (Option Values)
  | 0, _, _, _ => none
  | fuel + 1, i, j, p =>
    if hi : i < path.length then
      if hj : j < pat.length then
        if pat[j] = 58 then
          let r1 := match' pat isAlnum (j + 1)
          let r2 := match' path (matchPart r1.2.1) i
          MatchLoop pat path fuel r2.2.2 r1.2.2 (valuesAdd p (58 :: r1.1) r2.1)
        else if path[i] = pat[j] then
          MatchLoop pat path fuel (i + 1) (j + 1) p
        else some none
      else
        if trailingSlash pat then some (some p) else some none
    else
      if j ≠ pat.length then some none else some (some p)

/-- Go `func Match(pat, path string) (url.Values, bool)`: `some p` for
`(p, true)`, `none` for `(nil, false)`. -/
def Match (pat path : GoString) : Option Values :=
  match MatchLoop pat path (pat.length + 1) 0 0 [] with
  | some r => r
  | none => none

/-- The loop of `Match` seen from the rests of the path (from `i`) and of
the pattern (from `j`); `slash` is the value of `trailingSlash pat`. It is
equal to `MatchLoop` (`MatchLoop_eq_matchRest`). -/
def matchRest (slash : Bool) : Nat → GoString → GoString → Values → Option (Option Values)
  | 0, _, _, _ => none
  | _ + 1, [], patR, p => if patR ≠ [] then some none else some (some p)
  | _ + 1, _ :: _, [], p => if slash then some (some p) else some none
  | fuel + 1, c :: pathR, d :: patR, p =>
    if d = 58 then
      matchRest slash fuel
        ((c :: pathR).dropWhile (matchPart (((patR.dropWhile isAlnum).head?).getD 0)))
        (patR.dropWhile isAlnum)
        (valuesAdd p (58 :: patR.takeWhile isAlnum)
          ((c :: pathR).takeWhile (matchPart (((patR.dropWhile isAlnum).head?).getD 0))))
    else if c = d then matchRest slash fuel pathR patR p
    else some none

/-- One capture made by `Match`: the index `j` of its ':' in the pattern, the
index `i` of the path at which its value starts, its name and its value. -/
structure Capture where
  j : Nat
  i : Nat
  name : GoString
  val : GoString

/-- The captures of a trace added, in order, to the values `p`. -/
def capturesFrom (p : Values) (trace : List Capture) : Values :=
  trace.foldl (fun acc e => valuesAdd acc (58 :: e.name) e.val) p

/-- The pattern byte right after the name of the capture, if there is one. -/
def followingByte (pat : GoString) (e : Capture) : Option Nat :=
  pat[e.j + 1 + e.name.length]?

/-- The capture `e` of `pat` on `path` is the longest run without '/' and
without the byte following the capture name: `e.j` is the place of a ':' in
the pattern, the name is the run of letters, digits and '_' after it, the
value is the part of the path that starts at `e.i`, it holds no '/' and no
occurrence of the following byte, and the path byte after it, if any, is '/'
or the following byte. -/
def LongestRun (pat path : GoString) (e : Capture) : Prop :=
  pat[e.j]? = some 58 ∧
  e.name = (pat.drop (e.j + 1)).takeWhile isAlnum ∧
  (path.drop e.i).take e.val.length = e.val ∧
  (∀ c ∈ e.val, c ≠ 47 ∧ followingByte pat e ≠ some c) ∧
  (∀ b, path[e.i + e.val.length]? = some b → b = 47 ∨ followingByte pat e = some b)

/-! ## router/route.go and router/router.go -/

/-- The value of the field `Handler` of a route (an `http.Handler`): nil, a
handler function, or a pointer to a route, which is what `add` stores in the
implicit non-slash twin of a pattern ending in '/'. -/
inductive RouteHandler where
  | unset
  | fn (h : Handler)
  | route (ref : Nat)

/-- Go `type Route struct`. -/
structure Route where
  Pattern : GoString
  Layer : Layer
  Handler : RouteHandler

/-- Go `func NewRoute(pattern string) *Route`. -/
def NewRoute (pattern : GoString) : Route :=
  { Pattern := pattern, Layer := Layer.New, Handler := RouteHandler.unset }

/-- Go `func (r *Route) Match(path string) (url.Values, bool)`. -/
def Route.Match (r : Route) (path : GoString) : Option Values := Vinxi.Match r.Pattern path

/-- Go `type Router struct`. A `*Route` is an index into `heap`, the routes
allocated so far; `Routes` maps a method to its routes in the order of the
slice. The parent of a route's layer is the router's layer as it stood when
the route was added. -/
structure Router where
  ForceMethodNotAllowed : Bool := false
  NotFound : Option Handler := none
  Layer : Layer := Layer.New
  Routes : List (String × List Nat) := []
  heap : List Route := []

/-- Go `ErrNoRouteMatch`. -/
def ErrNoRouteMatch : String := "router: cannot match any route"

/-- Go `func (r *Route) ServeHTTP(w, req)` for the route at `ref`:
`r.Layer.Run(layer.RequestPhase, w, req, r.Handler)`. A handler that is itself
a route is served the same way; the first argument bounds the length of such a
chain of routes. -/
def serveRoute (heap : List Route) : Nat → Nat → Handler
  | 0, _ => nilHandler
  | fuel + 1, ref =>
    match heap[ref]? with
    | none => nilHandler
    | some rt =>
      match rt.Handler with
      | RouteHandler.unset => rt.Layer.Run RequestPhase none
      | RouteHandler.fn h => rt.Layer.Run RequestPhase (some h)
      | RouteHandler.route ref1 => rt.Layer.Run RequestPhase (some (serveRoute heap fuel ref1))

/-- Go `func doMatch(routes []*Route, path string) (url.Values, *Route)`. -/
def doMatch (heap : List Route) : List Nat → GoString → Option (Values × Nat)
  | [], _ => none
  | ref :: rest, path =>
    match heap[ref]? with
    | none => doMatch heap rest path
    | some route =>
      match route.Match path with
      | some params => some (params, ref)
      | none => doMatch heap rest path

namespace Router

/-- The map read `r.Routes[method]` (nil, that is empty, for a missing key). -/
def routesOf (r : Router) (method : String) : List Nat :=
  (r.Routes.lookup method).getD []

/-- Go `func (r *Router) match(method, path string) (url.Values, *Route)`. -/
def match' (r : Router) (method : String) (path : GoString) : Option (Values × Nat) :=
  match doMatch r.heap (r.routesOf method) path with
  | some res => some res
  | none => doMatch r.heap (r.routesOf "*") path

/-- Go `func (r *Router) FindRoute(method, path string) (*Route, error)`. -/
def FindRoute (r : Router) (method : String) (path : GoString) : Except String Nat :=
  match r.match' method path with
  | some res => Except.ok res.2
  | none => Except.error ErrNoRouteMatch

/-- Go `func (r *Router) isMethodNotAllowed(w, req) bool`: the slice `allowed`
after the two loops, with one entry for each matching route of each method
other than the request's. `visited` holds the entries of the map `r.Routes` in
the order in which `for meth, handlers := range r.Routes` visits them. Go
leaves the order of a map iteration open and it changes from run to run, so
the order is an input here: a run of the program is the value at some
permutation `visited` of `r.Routes`. -/
def allowedMethodsIn (r : Router) (visited : List (String × List Nat)) (c : Conn) :
    List String :=
  visited.flatMap (fun e =>
    if e.1 = c.Method then []
    else (e.2.filter (fun ref =>
      match r.heap[ref]? with
      | none => false
      | some route => (route.Match c.Path).isSome)).map (fun _ => e.1))

/-- The slice `allowed` of `isMethodNotAllowed` in the run that visits the
methods in the order in which they were first registered, one of the orders
that the map iteration can take. Whether the slice is empty, and which
methods are in it, is the same in every order. -/
def allowedMethods (r : Router) (c : Conn) : List String :=
  r.allowedMethodsIn r.Routes c

/-- Go `func (r *Router) HandleHTTP(w, req, h)`. `encode` is
`url.Values.Encode` of the standard library, and `visited` is the order in
which `isMethodNotAllowed` visits the entries of `r.Routes` (see
`allowedMethodsIn`); `http.Error` sets the two headers, writes the status and
the message followed by a newline. -/
def HandleHTTPIn (encode : Values → GoString) (visited : List (String × List Nat))
    (r : Router) (h : Option Handler) : Handler :=
  fun c =>
    match r.match' c.Method c.Path with
    | some (params, route) =>
      let c1 : Conn :=
        if params.length > 0 then
          { c with RawQuery := encode params ++ str "&" ++ c.RawQuery }
        else c
      r.Layer.Run RequestPhase (some (serveRoute r.heap (r.heap.length + 1) route)) c1
    | none =>
      match r.NotFound with
      | some nf => nf c
      | none =>
        let allowed := r.allowedMethodsIn visited c
        if r.ForceMethodNotAllowed && decide (allowed.length > 0) then
          Outcome.ok
            (((((({ c with Header := c.Header ++ [("Allow", ", ".intercalate allowed)] } : Conn).HeaderSet
              "Content-Type" "text/plain; charset=utf-8").HeaderSet
              "X-Content-Type-Options" "nosniff").WriteHeader 405).Write "Method Not Allowed\n"))
        else serve h c

/-- Go `func (r *Router) HandleHTTP(w, req, h)` in the run in which
`isMethodNotAllowed` visits the methods in the order in which they were first
registered. Only the order of the methods inside the Allow header of a 405
response depends on the order of the visit. -/
def HandleHTTP (encode : Values → GoString) (r : Router) (h : Option Handler) : Handler :=
  r.HandleHTTPIn encode r.Routes h

end Router

/-- The map write `routes[method] = list`. -/
def routesSet (routes : List (String × List Nat)) (method : String) (list : List Nat) :
    List (String × List Nat) :=
  match routes.lookup method with
  | some _ => routes.map (fun e => if e.1 = method then (e.1, list) else e)
  | none => routes ++ [(method, list)]

/-- Go `func (r *Route) Handle(handler http.HandlerFunc)`. -/
def Route.Handle (r : Route) (handler : Vinxi.Handler) : Route :=
  { r with Handler := RouteHandler.fn handler }

namespace Router

/-- Go `func New() *Router`. -/
def New : Router := {}

/-- A method call on the route that `ref` points to. -/
def onRoute (r : Router) (ref : Nat) (f : Route → Route) : Router :=
  match r.heap[ref]? with
  | some rt => { r with heap := r.heap.set ref (f rt) }
  | none => r

/-- The loop `for _, p1 := range routes { if p1.Pattern == pat { return p1 } }`
of `add`: the first route of `method` registered with the pattern `pat`. -/
def findPattern (r : Router) (method : String) (pat : GoString) : Option Nat :=
  (r.routesOf method).find? (fun ref =>
    match r.heap[ref]? with
    | some p1 => decide (p1.Pattern = pat)
    | none => false)

/-- Go `func (r *Router) add(method, pat string, handler http.Handler) *Route`,
with the router after the call. The call on `pat[:n-1]` shortens the pattern,
so the first argument bounds the depth of the recursion. The parent of the new
route's layer is the layer of the router as it stands at the call; the source
stores the pointer `r.Layer`, so there a route also sees the middleware that
is registered on the router after the route was added. -/
def addLoop (method : String) : Nat → Router → GoString → RouteHandler → Router × Nat
  | 0, r, _, _ => (r, 0)
  | fuel + 1, r, pat, handler =>
    let routes := r.routesOf method
    match r.findPattern method pat with
    | some p1 => (r, p1)
    | none =>
      let route : Route :=
        { Pattern := pat, Layer := Layer.New.SetParent (some r.Layer), Handler := handler }
      let ref := r.heap.length
      let r1 : Router :=
        { r with heap := r.heap ++ [route], Routes := routesSet r.Routes method (routes ++ [ref]) }
      if pat.length > 0 ∧ pat.getLast? = some 47 then
        ((addLoop method fuel r1 pat.dropLast (RouteHandler.route ref)).1, ref)
      else (r1, ref)

/-- Go `func (r *Router) add(method, pat string, handler http.Handler) *Route`. -/
def add (r : Router) (method : String) (pat : GoString) (handler : RouteHandler) : Router × Nat :=
  addLoop method (pat.length + 1) r pat handler

/-- Go `func (r *Router) Get(path string) *Route`. -/
def Get (r : Router) (path : GoString) : Router × Nat := r.add "GET" path RouteHandler.unset

/-- Go `func (r *Router) Post(path string) *Route`. -/
def Post (r : Router) (path : GoString) : Router × Nat := r.add "POST" path RouteHandler.unset

/-- Go `func (r *Router) Put(path string) *Route`. -/
def Put (r : Router) (path : GoString) : Router × Nat := r.add "PUT" path RouteHandler.unset

/-- Go `func (r *Router) All(path string) *Route`. -/
def All (r : Router) (path : GoString) : Router × Nat := r.add "*" path RouteHandler.unset

/-- The statement `p.Get(path).Handle(h)` of the tests. -/
def GetHandle (r : Router) (path : GoString) (h : Handler) : Router :=
  let res := r.Get path
  res.1.onRoute res.2 (fun rt => rt.Handle h)

/-- Go `func (r *Router) Route(method, path string) *Route`. -/
def Route (r : Router) (method : String) (path : GoString) : Router × Nat :=
  r.add method path RouteHandler.unset

end Router

/-! ## net/url: `Values.Encode` and `URL.Query` of the Go standard library -/

/-- Go `shouldEscape(c, encodeQueryComponent)`: everything is escaped but
letters, digits, '-', '_', '.' and '~'. -/
def shouldEscape (c : Nat) : Bool :=
  !(isAlpha c || isDigit c || c == 45 || c == 46 || c == 126)

/-- The upper-case hexadecimal digit of `n` (`"0123456789ABCDEF"[n]`). -/
def hexDigit (n : Nat) : Nat := if n < 10 then 48 + n else 55 + n

/-- Go `url.QueryEscape`. -/
def QueryEscape : GoString → GoString
  | [] => []
  | c :: rest =>
    if shouldEscape c then
      if c = 32 then 43 :: QueryEscape rest
      else 37 :: hexDigit (c / 16) :: hexDigit (c % 16) :: QueryEscape rest
    else c :: QueryEscape rest

/-- The order of Go strings: lexicographic on bytes. -/
def strLe : GoString → GoString → Bool
  | [], _ => true
  | _ :: _, [] => false
  | a :: as, b :: bs => if a < b then true else if b < a then false else strLe as bs

/-- Insertion of an entry into a list of entries sorted by key. -/
def insertByKey (e : GoString × List GoString) : Values → Values
  | [] => [e]
  | x :: xs => if strLe e.1 x.1 then e :: x :: xs else x :: insertByKey e xs

/-- The entries sorted by key (`sort.Strings(keys)`). -/
def sortByKey : Values → Values
  | [] => []
  | x :: xs => insertByKey x (sortByKey xs)

/-- Go `func (v Values) Encode() string`: `key=value` pairs, escaped, joined
by '&', sorted by key. -/
def urlEncode (v : Values) : GoString :=
  (str "&").intercalate
    ((sortByKey v).flatMap (fun e =>
      e.2.map (fun value => QueryEscape e.1 ++ str "=" ++ QueryEscape value)))

/-- The value of a hexadecimal digit, if it is one. -/
def unhex (c : Nat) : Option Nat :=
  if 48 ≤ c ∧ c ≤ 57 then some (c - 48)
  else if 97 ≤ c ∧ c ≤ 102 then some (c - 97 + 10)
  else if 65 ≤ c ∧ c ≤ 70 then some (c - 65 + 10)
  else none

/-- Go `url.QueryUnescape` (`none` is an error). -/
def QueryUnescape : GoString → Option GoString
  | [] => some []
  | 37 :: a :: b :: rest =>
    match unhex a, unhex b, QueryUnescape rest with
    | some x, some y, some r => some ((x * 16 + y) :: r)
    | _, _, _ => none
  | 37 :: _ => none
  | 43 :: rest => (QueryUnescape rest).map (fun r => 32 :: r)
  | c :: rest => (QueryUnescape rest).map (fun r => c :: r)

/-- Go `url.ParseQuery` on a raw query whose pairs are separated by '&', as
`URL.Query()` calls it: pairs that do not unescape are dropped. -/
def parseQuery (query : GoString) : Values :=
  (query.splitOn 38).foldl (fun m pair =>
    if pair = [] then m
    else
      let key := pair.takeWhile (fun c => c != 61)
      let value := (pair.dropWhile (fun c => c != 61)).drop 1
      match QueryUnescape key, QueryUnescape value with
      | some k, some v => valuesAdd m k v
      | _, _ => m) []

/-- The raw query seen by the handler of the matched route: the router `r`
serves a request of `method` for `path` with raw query `q`; the result is the
raw query of the request when the run returned. -/
def rawQuerySeen (r : Router) (method : String) (path q : GoString) : Option GoString :=
  match r.HandleHTTP urlEncode none { Method := method, Path := path, RawQuery := q } with
  | Outcome.ok c => some c.RawQuery
  | Outcome.panic _ _ => none

/-- The route at `ref` exists and its pattern matches `path`. -/
def routeMatches (heap : List Route) (path : GoString) (ref : Nat) : Bool :=
  match heap[ref]? with
  | none => false
  | some route => (route.Match path).isSome

/-- The route `ref` is the first of `routes`, in the order of the list, whose
pattern matches `path`. -/
def IsFirstMatch (heap : List Route) (routes : List Nat) (path : GoString) (ref : Nat) : Prop :=
  ∃ before after : List Nat, routes = before ++ ref :: after ∧
    routeMatches heap path ref = true ∧ ∀ x ∈ before, routeMatches heap path x = false

/-- No route of `routes` matches `path`. -/
def NoMatch (heap : List Route) (routes : List Nat) (path : GoString) : Prop :=
  ∀ x ∈ routes, routeMatches heap path x = false

/-- A handler that returns at once. -/
def noop : Handler := fun c => Outcome.ok c

/-- The router of the examples of `FindRoute`: GET "/foo/:a", GET "/foo/bar",
then "/foo/bar" and "/x" for any method, registered in this order. -/
def findRouteExample : Router :=
  ((((Router.New.Get (str "/foo/:a")).1.Get (str "/foo/bar")).1.All (str "/foo/bar")).1.All
    (str "/x")).1

/-! ## router/match.go: `Tail` -/

/-- The run-time panic of an index expression outside the string. -/
def ErrIndexOutOfRange : String := "runtime error: index out of range"

/-- The loop `for i < len(path)` of `Tail` and the `return ""` after it, from
the state `i`, `j`. Every iteration that does not return moves `j` forward, so
the first argument bounds the number of iterations; the result is `none` when
that bound is used up, `Except.error` for the run-time panic of
`pat[len(pat)-1]` on an empty pattern, and `Except.ok s` for the returned
string. -/
def TailLoop (pat path : GoString) : Nat → Nat → Nat → Option (Except String GoString)
  | 0, _, _ => none
  | fuel + 1, i, j =>
    if hi : i < path.length then
      if hj : j < pat.length then
        if pat[j] = 58 then
          let r1 := match' pat isAlnum (j + 1)
          let r2 := match' path (matchPart r1.2.1) i
          TailLoop pat path fuel r2.2.2 r1.2.2
        else if path[i] = pat[j] then
          TailLoop pat path fuel (i + 1) (j + 1)
        else some (Except.ok [])
      else
        match pat[pat.length - 1]? with
        | none => some (Except.error ErrIndexOutOfRange)
        | some b => if b = 47 then some (Except.ok (path.drop i)) else some (Except.ok [])
    else some (Except.ok [])

/-- Go `func Tail(pat, path string) string`; `Except.error` is a panic. The
bound `len(pat) + 1` on the iterations is never used up
(`tailRest_fuel`). -/
def Tail (pat path : GoString) : Except String GoString :=
  match TailLoop pat path (pat.length + 1) 0 0 with
  | some r => r
  | none => Except.error "vinxi: iteration bound used up"

/-- The loop of `Tail` seen from the rests of the path (from `i`) and of the
pattern (from `j`); `last` is the byte `pat[len(pat)-1]`, if there is one. It
is equal to `TailLoop` (`TailLoop_eq_tailRest`). -/
def tailRest (last : Option Nat) : Nat → GoString → GoString → Option (Except String GoString)
  | 0, _, _ => none
  | _ + 1, [], _ => some (Except.ok [])
  | _ + 1, c :: pathR, [] =>
    match last with
    | none => some (Except.error ErrIndexOutOfRange)
    | some b => if b = 47 then some (Except.ok (c :: pathR)) else some (Except.ok [])
  | fuel + 1, c :: pathR, d :: patR =>
    if d = 58 then
      tailRest last fuel
        ((c :: pathR).dropWhile (matchPart (((patR.dropWhile isAlnum).head?).getD 0)))
        (patR.dropWhile isAlnum)
    else if c = d then tailRest last fuel pathR patR
    else some (Except.ok [])

/-! ## Definitions for the claims on phases and recovery -/

/-- The pool without the stacks stored under `phase`. -/
def poolErase (pool : Pool) (phase : String) : Pool :=
  pool.filter (fun e => e.1 != phase)

/-- The layer `s` with no stack for `phase`, in `s` itself and in each of its
ancestors: what `s` would be had nothing been registered under `phase`. -/
def Layer.erasePhase : Layer → String → Layer
  | Layer.mk fh none pool, phase => Layer.mk fh none (poolErase pool phase)
  | Layer.mk fh (some p) pool, phase =>
    Layer.mk fh (some (p.erasePhase phase)) (poolErase pool phase)

/-- The registrations and the run of `TestSimpleMiddlewareCallChain`: three
times the middleware that counts a call and serves its downstream, and a
downstream handler that counts a call. A call is counted as an event. -/
def testSimpleMiddlewareCallChain : Option (List Nat) := do
  let fn : AnyHandler := AnyHandler.handlerFuncNext (fun h c => h (c.record 1))
  let final : Handler := fun c => Outcome.ok (c.record 1)
  let mw ← (Layer.New.Use RequestPhase [fn]).toOption
  let mw ← (mw.Use RequestPhase [fn]).toOption
  let mw ← (mw.Use RequestPhase [fn]).toOption
  match mw.Run "request" (some final) {} with
  | Outcome.ok c => some c.Events
  | Outcome.panic _ _ => none

/-- The layer of `TestUseFinalHandler`. -/
def testUseFinalHandler : Except String Layer :=
  Except.ok (Layer.New.UseFinalHandler
    (some (fun c => Outcome.ok ((c.WriteHeader 503).Write "vinxi: service unavailable"))))

/-- The layers of `TestParentLayerChildPanicHandler`: the child, with its
parent as it stands when the request is served. -/
def testParentLayerChildPanicHandler : Except String Layer := do
  let parent ← Layer.New.Use "error" [AnyHandler.middleware (setHeaderThenNext "error" "parent")]
  let parent ← parent.Use "foo" [AnyHandler.middleware (setHeaderThenNext "foo" "foo")]
  let mw := Layer.New.SetParent (some parent)
  let mw ← mw.Use "error" [AnyHandler.middleware (setHeaderThenNext "error" "child")]
  mw.Use "foo" [AnyHandler.middleware (panicking "oops")]

/-- A child layer whose middleware for "foo" panics and whose error middleware
replies 502 "child", under a parent whose error middleware panics. -/
def childOfPanickingParent : Layer :=
  Layer.mk (some FinalHandler)
    (some (Layer.mk (some FinalHandler) none [("error", { Stack := [panicking "again"] })]))
    [("foo", { Stack := [panicking "oops"] }), ("error", { Stack := [reply 502 "child"] })]

/-- A layer whose request middleware panics and whose error middleware records
the events 7 and 8 around its downstream. -/
def panicWithErrorMiddleware : Layer :=
  Layer.mk (some FinalHandler) none
    [("request", { Stack := [panicking "oops"] }), ("error", { Stack := [recording 7 8] })]

/-- A child layer and its parent, each with one middleware for "request" and
one for "foo" that sets a header of its own. -/
def requestLocalExample : Layer :=
  Layer.mk (some (fun c => Outcome.ok (c.WriteHeader 200)))
    (some (Layer.mk (some FinalHandler) none
      [("request", { Stack := [setHeaderThenNext "parent" "request"] }),
       ("foo", { Stack := [setHeaderThenNext "parent" "foo"] })]))
    [("request", { Stack := [setHeaderThenNext "child" "request"] }),
     ("foo", { Stack := [setHeaderThenNext "child" "foo"] })]

/-! ## Definitions for the claim on the memo of a Stack -/

/-- A call on a Stack: `Push(order, h)` or `Join()`. -/
inductive StackOp (α : Type) where
  | push (order : Priority) (h : α)
  | join

namespace Stack

variable {α : Type}

/-- The Stack after one call. -/
def step (s : Vinxi.Stack α) : StackOp α → Vinxi.Stack α
  | StackOp.push order h => s.Push order h
  | StackOp.join => s.Join.2

/-- The Stack after the calls `ops`, in order. -/
def after (s : Vinxi.Stack α) (ops : List (StackOp α)) : Vinxi.Stack α :=
  ops.foldl step s

/-- The current contents of the three bands, in the order in which `Join`
merges them. -/
def contents (s : Vinxi.Stack α) : List α := (s.Head ++ s.Stack) ++ s.Tail

/-- The memo is nil or holds the current contents. -/
def MemoFresh (s : Vinxi.Stack α) : Prop := s.memo = none ∨ s.memo = some s.contents

end Stack

/-! ## Definitions for the claims on missed requests -/

/-- What a served request left behind: status, body, headers and the calls
counted by the handlers, when the handler returned. -/
def responseOf : Outcome → Option (Nat × String × List (String × String) × List Nat)
  | Outcome.ok c => some (c.Code, c.Body, c.Header, c.Events)
  | Outcome.panic _ _ => none

/-- Some route registered under the method `m` matches `path`. -/
def MethodMatches (r : Router) (m : String) (path : GoString) : Prop :=
  ∃ e ∈ r.Routes, e.1 = m ∧ ∃ ref ∈ e.2, routeMatches r.heap path ref = true

/-- The number of the routes registered under the method `m` that match
`path`. -/
def Router.matchingRoutes (r : Router) (m : String) (path : GoString) : Nat :=
  ((r.Routes.filter (fun e => decide (e.1 = m))).flatMap
    (fun e => e.2.filter (routeMatches r.heap path))).length

/-- The response of the 405 branch of `HandleHTTP`: the Allow header added,
then `http.Error(w, "Method Not Allowed", 405)`. -/
def methodNotAllowedResponse (c : Conn) (allowed : List String) : Conn :=
  ((((({ c with Header := c.Header ++ [("Allow", ", ".intercalate allowed)] } : Conn).HeaderSet
    "Content-Type" "text/plain; charset=utf-8").HeaderSet
    "X-Content-Type-Options" "nosniff").WriteHeader 405).Write "Method Not Allowed\n")

/-- The statement `p.Route(method, path).Handle(h)`. -/
def Router.RouteHandle (r : Router) (method : String) (path : GoString) (h : Handler) : Router :=
  let res := r.Route method path
  res.1.onRoute res.2 (fun rt => rt.Handle h)

/-- The router of `TestRoutingMethodNotAllowed`; each route handler counts a
call as the event 1. -/
def testRoutingMethodNotAllowed : Router :=
  (({ Router.New with ForceMethodNotAllowed := true }.RouteHandle "POST" (str "/foo/:name")
    (fun c => Outcome.ok (c.record 1))).RouteHandle "PUT" (str "/foo/:name")
    (fun c => Outcome.ok (c.record 1)))

/-- A router with two POST routes that both match "/foo/keith". -/
def twoPostRoutes : Router :=
  (({ Router.New with ForceMethodNotAllowed := true }.RouteHandle "POST" (str "/foo/:name")
    (fun c => Outcome.ok (c.record 1))).RouteHandle "POST" (str "/foo/:id")
    (fun c => Outcome.ok (c.record 1)))

/-- The router of `TestNotFound`, with `ForceMethodNotAllowed` as given. -/
def testNotFound (force : Bool) : Router :=
  { Router.New with
      ForceMethodNotAllowed := force,
      NotFound := some (fun c => Outcome.ok (c.WriteHeader 123)) }.RouteHandle
    "POST" (str "/bar") noop

/-- The router of `TestMethodPatch`. -/
def testMethodPatch : Router :=
  Router.New.RouteHandle "PATCH" (str "/foo/bar") noop

/-! ## Definitions for the claim on the implicit non-slash route -/

/-- Every `*Route` in the list of `method` points to an allocated route. -/
def Router.RefsValid (r : Router) (method : String) : Prop :=
  ∀ x ∈ r.routesOf method, x < r.heap.length

/-- The layer that `add` gives to a new route of the router `r`: a new layer
whose parent is the layer of the router. -/
def Router.routeLayer (r : Router) : Vinxi.Layer := Layer.New.SetParent (some r.Layer)

/-- The router after `r.Routes[method] = append(routes, route)` for a newly
allocated route. -/
def Router.withRoute (r : Router) (method : String) (route : Vinxi.Route) : Router :=
  { r with
    heap := r.heap ++ [route],
    Routes := routesSet r.Routes method (r.routesOf method ++ [r.heap.length]) }

/-- The test `p1.Pattern == pat` of `add` on the route that `ref` points to. -/
def patternAt (heap : List Route) (pat : GoString) (ref : Nat) : Bool :=
  match heap[ref]? with
  | some p1 => decide (p1.Pattern = pat)
  | none => false

/-- A handler that counts a call as the event `e`. -/
def counting (e : Nat) : Handler := fun c => Outcome.ok (c.record e)

/-- The first router of `TestImplicitRedirect`: `Get("/foo/")` with a handler. -/
def testImplicitRedirect : Router := Router.New.GetHandle (str "/foo/") (counting 1)

/-- The second router of `TestImplicitRedirect`: `Get("/foo")` with a handler,
then `Get("/foo/")` with another. -/
def testImplicitRedirectExplicit : Router :=
  (Router.New.GetHandle (str "/foo") (counting 1)).GetHandle (str "/foo/") (counting 2)

/-- The third router of `TestImplicitRedirect`: `Get("/hello/:name/")`. -/
def testImplicitRedirectCapture : Router :=
  Router.New.GetHandle (str "/hello/:name/") (counting 1)

/-- A router with `Get("/:x")` registered before `Get("/foo/")`. -/
def captureBeforeSlash : Router :=
  (Router.New.GetHandle (str "/:x") (counting 1)).GetHandle (str "/foo/") (counting 2)

/-! ## Definitions for the claims on captures, substitution and totality -/

/-- A piece of a pattern as `Match` and `Tail` read it: a literal byte, or a
capture token ':' ++ name. -/
inductive Token where
  | lit (c : Nat)
  | capture (name : GoString)

/-- The pieces of a pattern from left to right. A ':' starts a capture whose
name is the run of letters, digits and '_' after it; the flag tells that the
bytes read are still part of such a name. -/
def tokensFrom : Bool → GoString → List Token
  | _, [] => []
  | inName, d :: r =>
    if inName && isAlnum d then tokensFrom true r
    else if d = 58 then Token.capture (r.takeWhile isAlnum) :: tokensFrom true r
    else Token.lit d :: tokensFrom false r

/-- The pieces of the pattern `pat`. -/
def tokens (pat : GoString) : List Token := tokensFrom false pat

/-- The names of the capture tokens, from left to right. -/
def captureNames : List Token → List GoString
  | [] => []
  | Token.lit _ :: ts => captureNames ts
  | Token.capture name :: ts => name :: captureNames ts

/-- The pieces with the capture tokens replaced, from left to right, by the
values `vals`. -/
def substitute : List Token → List GoString → GoString
  | [], _ => []
  | Token.lit c :: ts, vals => c :: substitute ts vals
  | Token.capture _ :: ts, v :: vals => v ++ substitute ts vals
  | Token.capture _ :: ts, [] => substitute ts []

/-- The list stored under `key` (`v[key]`, nil for a missing key). -/
def valuesOf (p : Values) (key : GoString) : List GoString := (p.lookup key).getD []

/-- The captures `(name, value)` added in order: `p.Add(":"+name, val)`. -/
def addCaptures (p : Values) (l : List (GoString × GoString)) : Values :=
  l.foldl (fun acc e => valuesAdd acc (58 :: e.1) e.2) p

/-- The values for the capture names `names`, from left to right, each taken
from the front of the list that `look` holds for its name, in the order in
which the values were recorded there. -/
def popValues : List GoString → (GoString → List GoString) → List GoString
  | [], _ => []
  | n :: ns, look =>
    (look n).headD [] :: popValues ns (fun k => if k = n then (look k).tail else look k)

/-- The pattern with its capture tokens replaced, from left to right, by the
values that `caps` holds for them in the order in which they were recorded. -/
def fill (pat : GoString) (caps : Values) : GoString :=
  substitute (tokens pat) (popValues (captureNames (tokens pat)) (fun k => valuesOf caps (58 :: k)))

/-! ## Definitions for the claims on Remove, Flush, the final handler, the
adapter and Route.Forward -/

/-- The loop of `Remove` over the routes of the method: the list without the
first route whose pattern matches `path` (`append(routes[:i], routes[i+1:]...)`),
or `none` when no route matches. -/
def removeFirst (heap : List Route) (path : GoString) : List Nat → Option (List Nat)
  | [] => none
  | ref :: rest =>
    if routeMatches heap path ref then some rest
    else (removeFirst heap path rest).map (fun l => ref :: l)

/-- Go `func (r *Router) Remove(method, path string) bool`, with the router
after the call. -/
def Router.Remove (r : Router) (method : String) (path : GoString) : Bool × Router :=
  match removeFirst r.heap path (r.routesOf method) with
  | some l => (true, { r with Routes := routesSet r.Routes method l })
  | none => (false, r)

/-- The router of `TestRouterRemoveRoute`: `Get("/foo")`, then `All("/bar")`. -/
def testRouterRemoveRoute : Router := ((Router.New.Get (str "/foo")).1.All (str "/bar")).1

/-- A router with `Get("/foo/:name")`, then `Get("/foo/bar")`. -/
def captureThenLiteral : Router :=
  ((Router.New.Get (str "/foo/:name")).1.Get (str "/foo/bar")).1

/-- A call on a layer: `Use`, `UsePriority`, `UseFinalHandler`, `SetParent` or
`Flush`, with its arguments. -/
inductive LayerOp where
  | use (phase : String) (handler : List AnyHandler)
  | usePriority (phase : String) (priority : Priority) (handler : List AnyHandler)
  | useFinalHandler (fn : Option Handler)
  | setParent (parent : Option Layer)
  | flush

/-- The layer after one call; `Except.error` is a panic of the call. -/
def Layer.step (s : Layer) : LayerOp → Except String Layer
  | LayerOp.use phase handler => s.Use phase handler
  | LayerOp.usePriority phase priority handler => s.UsePriority phase priority handler
  | LayerOp.useFinalHandler fn => Except.ok (s.UseFinalHandler fn)
  | LayerOp.setParent parent => Except.ok (s.SetParent parent)
  | LayerOp.flush => Except.ok s.Flush

/-- The layer after the calls `ops`, in order, when none of them panics. -/
def Layer.steps (s : Layer) : List LayerOp → Except String Layer
  | [] => Except.ok s
  | op :: ops =>
    match s.step op with
    | Except.error e => Except.error e
    | Except.ok s1 => Layer.steps s1 ops

/-- The handler `h`, when it is a `Registrable`, keeps the property `Q` of the
final handler of the layer it is registered on: its `Register` method makes no
`UseFinalHandler` call that breaks `Q`. -/
def AnyHandler.Preserves (Q : Option Handler → Prop) (h : AnyHandler) : Prop :=
  match h.methods.Register with
  | some f => ∀ l : Layer, Q l.finalHandler → Q (f l).finalHandler
  | none => True

/-- The call keeps the final handler non-nil: a `UseFinalHandler` call passes
a non-nil handler, and so do the calls made by registered plugins. -/
def LayerOp.KeepsFinalHandler : LayerOp → Prop
  | LayerOp.use _ handler => ∀ h ∈ handler, h.Preserves (fun fh => fh ≠ none)
  | LayerOp.usePriority _ _ handler => ∀ h ∈ handler, h.Preserves (fun fh => fh ≠ none)
  | LayerOp.useFinalHandler fn => fn ≠ none
  | LayerOp.setParent _ => True
  | LayerOp.flush => True

/-- The response after serving a new request with the handler that
`AdaptFunc(h)` returns for the downstream `d`. -/
def responseOfAdapted (h : AnyHandler) (d : Handler) :
    Option (Nat × String × List (String × String)) :=
  match AdaptFunc h with
  | none => none
  | some m =>
    match m d {} with
    | Outcome.ok c => some (c.Code, c.Body, c.Header)
    | Outcome.panic _ _ => none

/-- Go `func (r *Route) Use(handler interface{}) *Route`; `defaultForwarder` is
the package variable `DefaultForwarder`. -/
def Route.Use (defaultForwarder : Vinxi.Handler) (r : Route) (handler : AnyHandler) :
    Except String Route :=
  match r with
  | ⟨pat, l, hd⟩ =>
    let hd1 : RouteHandler :=
      match hd with
      | RouteHandler.unset => RouteHandler.fn defaultForwarder
      | other => other
    match l.Use RequestPhase [handler] with
    | Except.error e => Except.error e
    | Except.ok l1 => Except.ok ⟨pat, l1, hd1⟩

/-- Go `func (r *Route) UsePhase(phase string, handler interface{}) *Route`. -/
def Route.UsePhase (r : Route) (phase : String) (handler : AnyHandler) : Except String Route :=
  match r with
  | ⟨pat, l, hd⟩ =>
    match l.Use phase [handler] with
    | Except.error e => Except.error e
    | Except.ok l1 => Except.ok ⟨pat, l1, hd⟩

/-- Go `func (r *Route) Forward(uri string)`; `fwdTo uri` is the handler that
`forward.To(uri)` returns. -/
def Route.Forward (fwdTo : GoString → Vinxi.Handler) (r : Route) (uri : GoString) : Route :=
  match r with
  | ⟨pat, l, hd⟩ => ⟨pat, l.UseFinalHandler (some (fwdTo uri)), hd⟩

/-- Go `func (r *Route) ServeHTTP(w, req)`:
`r.Layer.Run(layer.RequestPhase, w, req, r.Handler)`; a handler that is a route
is served from `heap`. -/
def Route.ServeHTTP (heap : List Route) (r : Route) : Vinxi.Handler :=
  match r.Handler with
  | RouteHandler.unset => r.Layer.Run RequestPhase none
  | RouteHandler.fn h => r.Layer.Run RequestPhase (some h)
  | RouteHandler.route ref => r.Layer.Run RequestPhase (some (serveRoute heap (heap.length + 1) ref))

/-- A sequence of `UsePhase` calls on a route, in order. -/
def Route.usePhases (r : Route) : List (String × AnyHandler) → Except String Route
  | [] => Except.ok r
  | (phase, handler) :: ops =>
    match r.UsePhase phase handler with
    | Except.error e => Except.error e
    | Except.ok r1 => Route.usePhases r1 ops

/-- The events counted when the route is served, when serving returns. -/
def eventsOfRoute (r : Except String Route) : Option (List Nat) :=
  match r with
  | Except.error _ => none
  | Except.ok rt =>
    match rt.ServeHTTP [] {} with
    | Outcome.ok c => some c.Events
    | Outcome.panic _ _ => none

/-- A route on which `Use` is called with a forwarding middleware (event 1)
and then `Forward`; the forwarder bound to a uri counts the event 7 and the
default forwarder the event 9. -/
def useThenForward : Except String Route :=
  match (NewRoute (str "/x")).Use (counting 9) (AnyHandler.middleware (recording 1 2)) with
  | Except.error e => Except.error e
  | Except.ok rt => Except.ok (rt.Forward (fun _ => counting 7) (str "http://127.0.0.1:3200"))

/-- The same route with `UsePhase("request", ...)` in place of `Use`. -/
def usePhaseThenForward : Except String Route :=
  match (NewRoute (str "/x")).UsePhase "request" (AnyHandler.middleware (recording 1 2)) with
  | Except.error e => Except.error e
  | Except.ok rt => Except.ok (rt.Forward (fun _ => counting 7) (str "http://127.0.0.1:3200"))

/-! ## forward.go and http.go: the forwarding core -/

/-- Go `http.Header` (`map[string][]string`), keys in canonical form. -/
abbrev HttpHeader := List (String × List GoString)

/-- Go `func (h Header) Get(key string) string`: the first value stored under
the key, "" when there is none. -/
def headerGet (h : HttpHeader) (key : String) : GoString :=
  match h.lookup key with
  | some (v :: _) => v
  | _ => []

/-- Go `url.URL`, the fields that the forwarder reads or writes. -/
structure URL where
  Scheme : GoString := []
  Opaque : GoString := []
  Host : GoString := []
  Path : GoString := []
  RawQuery : GoString := []

/-- The objects that requests point to: the `*url.URL` values and the
`http.Header` maps, each named by its index. -/
structure Store where
  urls : List URL := []
  headers : List HttpHeader := []

/-- Go `http.Request`, the fields that the forwarder reads or writes. `URL` is
a pointer and `Header` a map: both are indices into the store. -/
structure Request where
  Method : GoString := []
  URL : Nat := 0
  Proto : GoString := []
  ProtoMajor : Nat := 0
  ProtoMinor : Nat := 0
  Header : Nat := 0
  Host : GoString := []
  Close : Bool := false
  RequestURI : GoString := []

/-- The loop `for _, item := range items` of `containsHeader`, which returns
true at the first item equal to `value` once trimmed and lower-cased.
`toLower` and `trimSpace` are `strings.ToLower` and `strings.TrimSpace`. -/
def containsItem (toLower trimSpace : GoString → GoString) (value : GoString) :
    List GoString → Bool
  | [] => false
  | item :: rest =>
    if value = toLower (trimSpace item) then true
    else containsItem toLower trimSpace value rest

/-- The closure `containsHeader` of `isWebsocketRequest`:
`strings.Split(req.Header.Get(name), ",")`, then the loop. -/
def containsHeader (toLower trimSpace : GoString → GoString) (h : HttpHeader) (name : String)
    (value : GoString) : Bool :=
  containsItem toLower trimSpace value ((headerGet h name).splitOn 44)

/-- Go `func isWebsocketRequest(req *http.Request) bool`. -/
def isWebsocketRequest (toLower trimSpace : GoString → GoString) (st : Store) (req : Request) :
    Bool :=
  containsHeader toLower trimSpace ((st.headers[req.Header]?).getD []) "Connection"
      (str "upgrade") &&
    containsHeader toLower trimSpace ((st.headers[req.Header]?).getD []) "Upgrade"
      (str "websocket")

/-- Go `strings.ToLower` on a string of ASCII bytes. -/
def asciiToLower (s : GoString) : GoString :=
  s.map (fun c => if 65 ≤ c ∧ c ≤ 90 then c + 32 else c)

/-- An ASCII white space byte: space, '\t', '\n', '\v', '\f' or '\r'. -/
def isAsciiSpace (c : Nat) : Bool := c == 32 || (9 ≤ c && c ≤ 13)

/-- Go `strings.TrimSpace` on a string of ASCII bytes. -/
def asciiTrimSpace (s : GoString) : GoString :=
  ((s.dropWhile isAsciiSpace).reverse.dropWhile isAsciiSpace).reverse

/-- A request with the given values of the Connection and Upgrade headers
(`none` for an absent header), classified by `isWebsocketRequest`. -/
def classify (connection upgrade : Option String) : Bool :=
  isWebsocketRequest asciiToLower asciiTrimSpace
    { headers := [(match connection with
                    | some v => [("Connection", [str v])]
                    | none => []) ++
                  (match upgrade with
                    | some v => [("Upgrade", [str v])]
                    | none => [])] }
    { Header := 0 }

/-- The statements of `copyRequest` before the rewriter is called, on the
store `st`: the outbound request and the store with the two objects it
allocates. `utils.CopyURL` allocates a URL with the fields of its argument and
`utils.CopyHeaders` adds every value of the source to the new map. The result
is `none` when `req.URL` or `u` is nil (a nil dereference). -/
def copyRequestBody (passHost : Bool) (st : Store) (req : Request) (u : Nat) :
    Option (Store × Request) :=
  match st.urls[req.URL]?, st.urls[u]? with
  | some reqURL, some target =>
    let outURL : URL :=
      { reqURL with
        Host := target.Host,
        Opaque := req.RequestURI,
        Scheme := if target.Scheme = [] then str "http" else target.Scheme,
        RawQuery := [] }
    let outReq : Request :=
      { req with
        URL := st.urls.length,
        Host := if passHost then req.Host else target.Host,
        Proto := str "HTTP/1.1",
        ProtoMajor := 1,
        ProtoMinor := 1,
        Close := false,
        Header := st.headers.length }
    some ({ urls := st.urls ++ [outURL],
            headers := st.headers ++ [(st.headers[req.Header]?).getD []] }, outReq)
  | _, _ => none

/-- Go `func (f *httpForwarder) copyRequest(req *http.Request, u *url.URL)
*http.Request`; `rewriter` is `f.rewriter` (`none` for nil), which may change
what the outbound request points to. -/
def copyRequest (passHost : Bool) (rewriter : Option (Store → Request → Store)) (st : Store)
    (req : Request) (u : Nat) : Option (Store × Request) :=
  match copyRequestBody passHost st req u with
  | none => none
  | some (st1, outReq) =>
    match rewriter with
    | none => some (st1, outReq)
    | some rw => some (rw st1 outReq, outReq)

/-! ## Theorems: layer/stack.go -/

section StackLemmas

variable {α : Type}

theorem band_nil (b : Priority) : band b ([] : List (Priority × α)) = [] := rfl

theorem band_cons (b : Priority) (p : Priority × α) (ps : List (Priority × α)) :
    band b (p :: ps) = if p.1 = b then p.2 :: band b ps else band b ps := by
  unfold band
  by_cases h : p.1 = b <;> simp [List.filter_cons, h]

theorem pushAll_cons (s : Stack α) (p : Priority × α) (ps : List (Priority × α)) :
    s.pushAll (p :: ps) = (s.Push p.1 p.2).pushAll ps := rfl

theorem Push_memo (s : Stack α) (o : Priority) (h : α) : (s.Push o h).memo = none := by
  cases s; rfl

theorem Push_Head (s : Stack α) (o : Priority) (h : α) :
    (s.Push o h).Head =
      if o = Priority.TopHead then h :: s.Head
      else if o = Priority.Head then s.Head ++ [h] else s.Head := by
  cases s
  by_cases h0 : o = Priority.TopHead
  · subst h0; simp [Stack.Push, Priority.TopHead, Priority.Head]
  · simp [Stack.Push, h0]

theorem Push_Stack (s : Stack α) (o : Priority) (h : α) :
    (s.Push o h).Stack = if o = Priority.Normal then s.Stack ++ [h] else s.Stack := by
  cases s; rfl

theorem Push_Tail (s : Stack α) (o : Priority) (h : α) :
    (s.Push o h).Tail =
      if o = Priority.TopTail then h :: s.Tail
      else if o = Priority.Tail then s.Tail ++ [h] else s.Tail := by
  cases s
  by_cases h3 : o = Priority.TopTail
  · subst h3; simp [Stack.Push, Priority.TopTail, Priority.Tail]
  · simp [Stack.Push, h3]

theorem pushAll_Head (ps : List (Priority × α)) (s : Stack α) :
    (s.pushAll ps).Head =
      (band Priority.TopHead ps).reverse ++ s.Head ++ band Priority.Head ps := by
  induction ps generalizing s with
  | nil => simp [Stack.pushAll, band_nil]
  | cons p ps ih =>
    rw [pushAll_cons, ih, Push_Head, band_cons, band_cons]
    by_cases h0 : p.1 = Priority.TopHead
    · have h1 : ¬ Priority.TopHead = Priority.Head := by decide
      simp [h0, h1]
    · by_cases h1 : p.1 = Priority.Head
      · have h2 : ¬ Priority.Head = Priority.TopHead := by decide
        simp [h1, h2]
      · simp [h0, h1]

theorem pushAll_Stack (ps : List (Priority × α)) (s : Stack α) :
    (s.pushAll ps).Stack = s.Stack ++ band Priority.Normal ps := by
  induction ps generalizing s with
  | nil => simp [Stack.pushAll, band_nil]
  | cons p ps ih =>
    rw [pushAll_cons, ih, Push_Stack, band_cons]
    by_cases h2 : p.1 = Priority.Normal <;> simp [h2]

theorem pushAll_Tail (ps : List (Priority × α)) (s : Stack α) :
    (s.pushAll ps).Tail =
      (band Priority.TopTail ps).reverse ++ s.Tail ++ band Priority.Tail ps := by
  induction ps generalizing s with
  | nil => simp [Stack.pushAll, band_nil]
  | cons p ps ih =>
    rw [pushAll_cons, ih, Push_Tail, band_cons, band_cons]
    by_cases h3 : p.1 = Priority.TopTail
    · have h4 : ¬ Priority.TopTail = Priority.Tail := by decide
      simp [h3, h4]
    · by_cases h4 : p.1 = Priority.Tail
      · have h5 : ¬ Priority.Tail = Priority.TopTail := by decide
        simp [h4, h5]
      · simp [h3, h4]

theorem pushAll_memo (ps : List (Priority × α)) (s : Stack α) (hs : s.memo = none) :
    (s.pushAll ps).memo = none := by
  induction ps generalizing s with
  | nil => simpa [Stack.pushAll] using hs
  | cons p ps ih => rw [pushAll_cons]; exact ih _ (Push_memo s p.1 p.2)

theorem Join_of_memo_none (s : Stack α) (hs : s.memo = none) :
    s.Join.1 = (s.Head ++ s.Stack) ++ s.Tail := by
  unfold Stack.Join
  rw [hs]

end StackLemmas

/-- C1: after any sequence of Push calls on the empty Stack, Join returns the
TopHead items in reverse push order, then the Head items in push order, then
the Normal items in push order, then the TopTail items in reverse push order,
then the Tail items in push order; pushing Normal(A), Head(B), Tail(C) gives
[B, A, C]. -/
theorem Stack_Join_band_order :
    (∀ (α : Type) (ps : List (Priority × α)),
      ((({} : Stack α).pushAll ps).Join).1 =
        (band Priority.TopHead ps).reverse ++ band Priority.Head ps ++
          band Priority.Normal ps ++
          (band Priority.TopTail ps).reverse ++ band Priority.Tail ps) ∧
    (∀ (α : Type) (A B C : α),
      ((({} : Stack α).pushAll
        [(Priority.Normal, A), (Priority.Head, B), (Priority.Tail, C)]).Join).1 = [B, A, C]) := by
  refine ⟨?_, ?_⟩
  · intro α ps
    rw [Join_of_memo_none _ (pushAll_memo ps _ rfl), pushAll_Head, pushAll_Stack, pushAll_Tail]
    simp
  · intro α A B C
    rfl

/-! ## Theorems: layer/layer.go -/

section LayerLemmas

theorem chain_nil (h : Handler) : chain [] h = h := rfl

theorem chain_cons (m : MiddlewareFunc) (q : List MiddlewareFunc) (h : Handler) :
    chain (m :: q) h = m (chain q h) := rfl

theorem chain_append (q1 q2 : List MiddlewareFunc) (h : Handler) :
    chain (q1 ++ q2) h = chain q1 (chain q2 h) := by
  simp [chain, List.foldr_append]

theorem run_eq_chain (s : Layer) (phase : String) (h : Option Handler) :
    s.run phase h = chain (s.queue phase) (s.terminal h) := by
  unfold Layer.run Layer.queue Layer.terminal chain
  cases hq : poolGet s.Pool phase with
  | none => cases h <;> rfl
  | some stack => cases h <;> simp [List.foldl_reverse]

theorem Run_eq (s : Layer) (phase : String) (h : Option Handler) (c : Conn) :
    s.Run phase h c = s.recovered phase (s.runBody phase h c) := by
  cases s with
  | mk fh par pool =>
    rw [Layer.Run]
    simp only [Layer.runBody, Layer.parent]
    generalize (if phase ≠ RequestPhase then
        match par with
        | some p => p.Run phase (some ((Layer.mk fh par pool).run phase h)) c
        | none => (Layer.mk fh par pool).run phase h c
      else (Layer.mk fh par pool).run phase h c) = body
    cases body with
    | ok c1 => rfl
    | panic c1 re => rfl

theorem runBody_of_no_parent (s : Layer) (phase : String) (h : Option Handler) (c : Conn)
    (hp : s.parent = none) : s.runBody phase h c = s.run phase h c := by
  unfold Layer.runBody
  rw [hp]
  split <;> rfl

theorem runBody_request (s : Layer) (h : Option Handler) (c : Conn) :
    s.runBody "request" h c = s.run "request" h c := by
  unfold Layer.runBody
  simp [RequestPhase]

theorem runBody_of_parent (s p : Layer) (phase : String) (h : Option Handler) (c : Conn)
    (hp : s.parent = some p) (hph : phase ≠ "request") :
    s.runBody phase h c = p.Run phase (some (s.run phase h)) c := by
  unfold Layer.runBody
  rw [hp]
  simp [RequestPhase, hph]

theorem recording_apply (before after : Nat) (h : Handler) (c : Conn) :
    recording before after h c =
      match h (c.record before) with
      | Outcome.ok c1 => Outcome.ok (c1.record after)
      | Outcome.panic c1 v => Outcome.panic c1 v := rfl

theorem chain_recording (pairs : List (Nat × Nat)) (f : Handler) (c : Conn) :
    chain (pairs.map (fun p => recording p.1 p.2)) f c =
      match f (c.recordAll (pairs.map Prod.fst)) with
      | Outcome.ok c1 => Outcome.ok (c1.recordAll ((pairs.map Prod.snd).reverse))
      | Outcome.panic c1 v => Outcome.panic c1 v := by
  induction pairs generalizing c with
  | nil =>
    have h0 : c.recordAll [] = c := by simp [Conn.recordAll]
    simp only [List.map_nil, chain_nil, List.reverse_nil, h0]
    cases f c with
    | ok c1 => simp [Conn.recordAll]
    | panic c1 v => rfl
  | cons p ps ih =>
    simp only [List.map_cons, chain_cons, List.reverse_cons]
    rw [recording_apply, ih]
    have h1 : (c.record p.1).recordAll (ps.map Prod.fst) = c.recordAll (p.1 :: ps.map Prod.fst) := by
      simp [Conn.record, Conn.recordAll]
    rw [h1]
    cases f (c.recordAll (p.1 :: ps.map Prod.fst)) with
    | ok c1 => simp [Conn.record, Conn.recordAll]
    | panic c1 v => rfl

theorem chain_ignores (q : List MiddlewareFunc) (m : MiddlewareFunc) (hm : m ∈ q)
    (hi : IgnoresDownstream m) (d1 d2 : Handler) : chain q d1 = chain q d2 := by
  induction q with
  | nil => cases hm
  | cons m0 q ih =>
    rw [chain_cons, chain_cons]
    rcases List.mem_cons.mp hm with h0 | h0
    · subst h0; exact hi _ _
    · rw [ih h0]

end LayerLemmas

/-- C2: for a layer without a parent whose stack for the phase flattens to
middleware m1..mn, each recording before_i, serving its downstream, then
recording after_i, Run with a nil downstream records before_1..before_n, runs
the final handler, then records after_n..after_1; with the registrations of
TestUsePriority the recorded sequence is 1..12. -/
theorem Run_recording_order :
    (∀ (s : Layer) (phase : String) (stack : Stack MiddlewareFunc) (pairs : List (Nat × Nat))
      (f : Handler) (c c1 : Conn),
      s.parent = none →
      poolGet s.Pool phase = some stack →
      stack.Join.1 = pairs.map (fun p => recording p.1 p.2) →
      s.finalHandler = some f →
      f (c.recordAll (pairs.map Prod.fst)) = Outcome.ok c1 →
      s.Run phase none c = Outcome.ok (c1.recordAll ((pairs.map Prod.snd).reverse))) ∧
    eventsOfRun testUsePriorityLayer "request" {} = some [1, 2, 3, 4, 5, 6, 7, 8, 9, 10, 11, 12] := by
  refine ⟨?_, by rfl⟩
  intro s phase stack pairs f c c1 hp hs hq hf hret
  rw [Run_eq, runBody_of_no_parent _ _ _ _ hp, run_eq_chain]
  have hqueue : s.queue phase = pairs.map (fun p => recording p.1 p.2) := by
    unfold Layer.queue; rw [hs]; exact hq
  have hterm : s.terminal none = f := by
    unfold Layer.terminal; rw [hf]; rfl
  rw [hqueue, hterm, chain_recording, hret]
  rfl

/-- Witness for C2: a new layer with the single middleware recording 1 and 2,
whose final handler is the 502 responder. -/
theorem Run_recording_order_witness :
    (Layer.mk (some FinalHandler) none
        [("request", { Stack := [recording 1 2] })]).Run "request" none {} =
      Outcome.ok ((((({} : Conn).recordAll [1]).WriteHeader 502).Write "Bad Gateway").recordAll [2]) :=
  Run_recording_order.1
    (Layer.mk (some FinalHandler) none [("request", { Stack := [recording 1 2] })])
    "request" { Stack := [recording 1 2] } [(1, 2)] FinalHandler {}
    (((({} : Conn).recordAll [1]).WriteHeader 502).Write "Bad Gateway")
    rfl rfl rfl rfl rfl

/-- C3: for a layer with no parent and no error-phase middleware, when the
request-phase chain panics before anything was written to the response, Run
returns normally, its result is one execution of the error-phase chain on the
state reached at the panic, and the response is 500 "Proxy Error"; the layer
of TestFinalErrorHandling answers 500 "Proxy Error". -/
theorem Run_request_panic_recovered :
    (∀ (s : Layer) (h : Option Handler) (c c1 : Conn) (re : String),
      s.parent = none →
      s.queue "error" = [] →
      s.run "request" h c = Outcome.panic c1 re →
      (c1.Code = 0 ∧ c1.Body = "") →
      s.Run "request" h c =
          s.run "error" (some FinalErrorHandler) (c1.ctxSet "vinxi.error" re) ∧
        ∃ c2, s.Run "request" h c = Outcome.ok c2 ∧ c2.Code = 500 ∧ c2.Body = "Proxy Error") ∧
    responseOfRun testFinalErrorHandling "request" {} = some (500, "Proxy Error", []) := by
  refine ⟨?_, by rfl⟩
  intro s h c c1 re hp he hpanic hfresh
  have hRun : s.Run "request" h c =
      s.run "error" (some FinalErrorHandler) (c1.ctxSet "vinxi.error" re) := by
    rw [Run_eq, runBody_request, hpanic]
    simp only [Layer.recovered, Layer.runRecoverError, hp]
    rfl
  refine ⟨hRun, ((c1.ctxSet "vinxi.error" re).WriteHeader 500).Write "Proxy Error", ?_, rfl, ?_⟩
  · rw [hRun, run_eq_chain, he]
    rfl
  · simp [Conn.Write, Conn.WriteHeader, Conn.ctxSet, hfresh.2]

/-- Witness for C3: the layer of TestFinalErrorHandling, built directly. -/
theorem Run_request_panic_recovered_witness :
    ∃ c2, (Layer.mk (some FinalHandler) none
        [("request", { Stack := [panicking "something went wrong"] })]).Run "request" none {} =
          Outcome.ok c2 ∧ c2.Code = 500 ∧ c2.Body = "Proxy Error" :=
  (Run_request_panic_recovered.1
    (Layer.mk (some FinalHandler) none
      [("request", { Stack := [panicking "something went wrong"] })])
    none {} {} "something went wrong" rfl rfl rfl ⟨rfl, rfl⟩).2

/-- C4: for a child layer C with parent P and a phase p other than "request",
C.Run(p, nil) serves P.Run for p with C's own chain for p as the downstream;
when P has no parent this is P's flattened middleware, then C's, then C's
final handler; and when a middleware of P does not call its downstream the
outcome is the same whatever chain the child has for p. TestParentLayer gives
200 "hello world" with both headers, TestParentLayerStopChain gives 200
"hello world" with the parent's header only. -/
theorem Run_parent_then_child :
    (∀ (C P : Layer) (p : String) (c : Conn),
      C.parent = some P →
      p ≠ "request" →
      C.Run p none c = C.recovered p (P.Run p (some (C.run p none)) c) ∧
      (P.parent = none →
        C.Run p none c =
          C.recovered p (P.recovered p
            (chain (P.queue p ++ C.queue p) (serve C.finalHandler) c))) ∧
      (∀ m, m ∈ P.queue p → IgnoresDownstream m →
        ∀ d : Handler, C.Run p none c = C.recovered p (P.Run p (some d) c))) ∧
    responseOfRun testParentLayer "foo" {} =
      some (200, "hello world", [("foo", "foo"), ("bar", "bar")]) ∧
    responseOfRun testParentLayerStopChain "foo" {} =
      some (200, "hello world", [("foo", "foo")]) := by
  refine ⟨?_, by rfl, by rfl⟩
  intro C P p c hpar hp
  have h1 : C.Run p none c = C.recovered p (P.Run p (some (C.run p none)) c) := by
    rw [Run_eq, runBody_of_parent C P p none c hpar hp]
  refine ⟨h1, ?_, ?_⟩
  · intro hP
    rw [h1, Run_eq P, runBody_of_no_parent _ _ _ _ hP, run_eq_chain, run_eq_chain, chain_append]
    rfl
  · intro m hm hi d
    rw [h1]
    have hrun : P.run p (some (C.run p none)) = P.run p (some d) := by
      rw [run_eq_chain P p (some (C.run p none)), run_eq_chain P p (some d)]
      exact chain_ignores _ m hm hi _ _
    have hRun : P.Run p (some (C.run p none)) c = P.Run p (some d) c := by
      rw [Run_eq, Run_eq]
      unfold Layer.runBody
      rw [hrun]
    rw [hRun]

/-- Witness for C4: the layers of TestParentLayerStopChain, built directly, in
the phase "foo". -/
theorem Run_parent_then_child_witness :
    (Layer.mk (some FinalHandler)
        (some (Layer.mk (some FinalHandler) none
          [("foo", { Stack := [setHeaderThenNext "foo" "foo", reply 200 "hello world"] })]))
        [("foo", { Stack := [reply 500 "oops"] })]).Run "foo" none {} =
      (Layer.mk (some FinalHandler)
        (some (Layer.mk (some FinalHandler) none
          [("foo", { Stack := [setHeaderThenNext "foo" "foo", reply 200 "hello world"] })]))
        [("foo", { Stack := [reply 500 "oops"] })]).recovered "foo"
        ((Layer.mk (some FinalHandler) none
          [("foo", { Stack := [setHeaderThenNext "foo" "foo", reply 200 "hello world"] })]).Run
            "foo" (some FinalHandler) {}) :=
  (Run_parent_then_child.1
    (Layer.mk (some FinalHandler)
      (some (Layer.mk (some FinalHandler) none
        [("foo", { Stack := [setHeaderThenNext "foo" "foo", reply 200 "hello world"] })]))
      [("foo", { Stack := [reply 500 "oops"] })])
    (Layer.mk (some FinalHandler) none
      [("foo", { Stack := [setHeaderThenNext "foo" "foo", reply 200 "hello world"] })])
    "foo" {} rfl (by decide)).2.2
    (reply 200 "hello world") (by simp [Layer.queue, poolGet, Stack.Join, Layer.Pool])
    (fun _ _ => rfl) FinalHandler

/-! ## Theorems: router/match.go -/

section MatchLemmas

theorem take_length_takeWhile (f : Nat → Bool) (l : List Nat) :
    l.take (l.takeWhile f).length = l.takeWhile f := by
  induction l with
  | nil => rfl
  | cons a l ih =>
    by_cases h : f a = true
    · simp [List.takeWhile_cons, h, ih]
    · simp [List.takeWhile_cons, h]

theorem drop_length_takeWhile (f : Nat → Bool) (l : List Nat) :
    l.drop (l.takeWhile f).length = l.dropWhile f := by
  induction l with
  | nil => rfl
  | cons a l ih =>
    by_cases h : f a = true
    · simp [List.takeWhile_cons, List.dropWhile_cons, h, ih]
    · simp [List.takeWhile_cons, List.dropWhile_cons, h]

theorem length_takeWhile_le_length (f : Nat → Bool) (l : List Nat) :
    (l.takeWhile f).length ≤ l.length := by
  induction l with
  | nil => simp
  | cons a l ih =>
    by_cases h : f a = true
    · simp [List.takeWhile_cons, h, ih]
    · simp [List.takeWhile_cons, h]

theorem matchLoop_eq (f : Nat → Bool) (l : List Nat) (j : Nat) :
    matchLoop f l j = j + (l.takeWhile f).length := by
  induction l generalizing j with
  | nil => simp [matchLoop]
  | cons a l ih =>
    by_cases h : f a = true
    · simp [matchLoop, List.takeWhile_cons, h, ih]; omega
    · simp [matchLoop, List.takeWhile_cons, h]

theorem match'_matched (s : GoString) (f : Nat → Bool) (i : Nat) :
    (match' s f i).1 = (s.drop i).takeWhile f := by
  simp only [match', matchLoop_eq]
  rw [Nat.add_sub_cancel_left, take_length_takeWhile]

theorem match'_index (s : GoString) (f : Nat → Bool) (i : Nat) :
    (match' s f i).2.2 = i + ((s.drop i).takeWhile f).length := by
  simp only [match', matchLoop_eq]

theorem match'_index_le (s : GoString) (f : Nat → Bool) (i : Nat) (hi : i ≤ s.length) :
    (match' s f i).2.2 ≤ s.length := by
  rw [match'_index]
  have h := length_takeWhile_le_length f (s.drop i)
  rw [List.length_drop] at h
  omega

theorem drop_match'_index (s : GoString) (f : Nat → Bool) (i : Nat) :
    s.drop (match' s f i).2.2 = (s.drop i).dropWhile f := by
  rw [match'_index, ← List.drop_drop, drop_length_takeWhile]

theorem match'_next (s : GoString) (f : Nat → Bool) (i : Nat) :
    (match' s f i).2.1 = (((s.drop i).dropWhile f).head?).getD 0 := by
  rw [← drop_match'_index, List.head?_drop]
  simp only [match']
  split
  · rename_i h; simp [List.getElem?_eq_getElem h]
  · rename_i h; simp [List.getElem?_eq_none (Nat.le_of_not_lt h)]

theorem MatchLoop_eq_matchRest (pat path : GoString) (fuel : Nat) :
    ∀ (i j : Nat) (p : Values), i ≤ path.length → j ≤ pat.length →
      MatchLoop pat path fuel i j p =
        matchRest (trailingSlash pat) fuel (path.drop i) (pat.drop j) p := by
  induction fuel with
  | zero => intro i j p _ _; simp [MatchLoop, matchRest]
  | succ fuel ih =>
    intro i j p hi hj
    rw [MatchLoop]
    by_cases h1 : i < path.length
    · rw [dif_pos h1, List.drop_eq_getElem_cons h1]
      by_cases h2 : j < pat.length
      · rw [dif_pos h2, List.drop_eq_getElem_cons h2]
        by_cases h3 : pat[j] = 58
        · rw [if_pos h3]
          simp only [matchRest, h3, if_true]
          rw [ih _ _ _ (match'_index_le _ _ _ (Nat.le_of_lt h1))
            (match'_index_le _ _ _ h2)]
          rw [drop_match'_index, drop_match'_index, match'_matched, match'_matched, match'_next,
            List.drop_eq_getElem_cons h1]
        · rw [if_neg h3]
          simp only [matchRest, h3, if_false]
          by_cases h4 : path[i] = pat[j]
          · rw [if_pos h4, if_pos h4]
            exact ih _ _ _ h1 h2
          · rw [if_neg h4, if_neg h4]
      · rw [dif_neg h2, List.drop_eq_nil_of_le (Nat.le_of_not_lt h2)]
        simp only [matchRest]
    · rw [dif_neg h1, List.drop_eq_nil_of_le (Nat.le_of_not_lt h1)]
      have hne : (j ≠ pat.length) ↔ (pat.drop j ≠ []) := by
        rw [Ne, Ne, List.drop_eq_nil_iff]
        omega
      cases hd : pat.drop j with
      | nil =>
        have : ¬ (j ≠ pat.length) := by rw [hne, hd]; simp
        simp [matchRest, this]
      | cons d r =>
        have : j ≠ pat.length := by rw [hne, hd]; simp
        simp [matchRest, this]

theorem Match_eq_matchRest (pat path : GoString) :
    Match pat path =
      match matchRest (trailingSlash pat) (pat.length + 1) path pat [] with
      | some r => r
      | none => none := by
  unfold Match
  rw [MatchLoop_eq_matchRest pat path _ 0 0 [] (Nat.zero_le _) (Nat.zero_le _)]
  simp

end MatchLemmas

section MatchLiteral

theorem matchRest_literal_step (sl : Bool) (fuel : Nat) (c : Nat) (pathR patR : GoString)
    (p : Values) (hc : c ≠ 58) :
    matchRest sl (fuel + 1) (c :: pathR) (c :: patR) p = matchRest sl fuel pathR patR p := by
  simp [matchRest, hc]

theorem matchRest_skip_literal (sl : Bool) (pre : GoString) (hpre : ∀ c ∈ pre, c ≠ 58) :
    ∀ (fuel : Nat) (pathR patR : GoString) (p : Values),
      matchRest sl (pre.length + fuel) (pre ++ pathR) (pre ++ patR) p =
        matchRest sl fuel pathR patR p := by
  induction pre with
  | nil => intro fuel pathR patR p; simp
  | cons c pre ih =>
    intro fuel pathR patR p
    have hlen : (c :: pre).length + fuel = (pre.length + fuel) + 1 := by
      simp only [List.length_cons]; omega
    rw [hlen, List.cons_append, List.cons_append,
      matchRest_literal_step _ _ _ _ _ _ (hpre c (List.mem_cons_self _ _))]
    exact ih (fun d hd => hpre d (List.mem_cons_of_mem _ hd)) fuel pathR patR p

theorem matchRest_literal_same (sl : Bool) (lit : GoString) (hlit : ∀ c ∈ lit, c ≠ 58)
    (fuel : Nat) (p : Values) :
    matchRest sl (lit.length + (fuel + 1)) lit lit p = some (some p) := by
  have h := matchRest_skip_literal sl lit hlit (fuel + 1) [] [] p
  simp only [List.append_nil] at h
  rw [h]
  simp [matchRest]

theorem matchRest_literal_noslash (patR : GoString) (hpat : ∀ c ∈ patR, c ≠ 58) :
    ∀ (fuel : Nat) (pathR : GoString) (p : Values), patR.length + 1 ≤ fuel →
      matchRest false fuel pathR patR p = some (if pathR = patR then some p else none) := by
  induction patR with
  | nil =>
    intro fuel pathR p hf
    obtain ⟨f, rfl⟩ : ∃ f, fuel = f + 1 := ⟨fuel - 1, by simp at hf; omega⟩
    cases pathR with
    | nil => simp [matchRest]
    | cons c pr => simp [matchRest]
  | cons d r ih =>
    intro fuel pathR p hf
    obtain ⟨f, rfl⟩ : ∃ f, fuel = f + 1 := ⟨fuel - 1, by simp at hf; omega⟩
    have hd : d ≠ 58 := hpat d (List.mem_cons_self _ _)
    cases pathR with
    | nil => simp [matchRest]
    | cons c pr =>
      by_cases hcd : c = d
      · subst hcd
        rw [matchRest_literal_step _ _ _ _ _ _ hd,
          ih (fun x hx => hpat x (List.mem_cons_of_mem _ hx)) f pr p
            (by simp at hf; omega)]
        simp
      · simp [matchRest, hd, hcd]

theorem matchRest_literal_slash (patR : GoString) (hpat : ∀ c ∈ patR, c ≠ 58)
    (rest : GoString) (fuel : Nat) (p : Values) :
    matchRest true (patR.length + (fuel + 1)) (patR ++ rest) patR p = some (some p) := by
  have h := matchRest_skip_literal true patR hpat (fuel + 1) rest [] p
  simp only [List.append_nil] at h
  rw [h]
  cases rest with
  | nil => simp [matchRest]
  | cons c r => simp [matchRest]

theorem trailingSlash_eq_true_iff (pat : GoString) :
    trailingSlash pat = true ↔ pat ≠ [47] ∧ pat.getLast? = some 47 := by
  unfold trailingSlash
  by_cases h1 : pat = [47]
  · simp [h1]
  · rw [if_pos h1]
    by_cases h2 : 0 < pat.length
    · rw [dif_pos h2, List.getLast?_eq_getElem?,
        List.getElem?_eq_getElem (by omega : pat.length - 1 < pat.length)]
      by_cases h3 : pat[pat.length - 1] = 47 <;> simp [h1, h3]
    · rw [dif_neg h2]
      have : pat = [] := by
        cases pat with
        | nil => rfl
        | cons a l => simp at h2
      simp [this]

theorem trailingSlash_eq_false_of (pat : GoString)
    (h : pat.getLast? ≠ some 47 ∨ pat = [47]) : trailingSlash pat = false := by
  cases hts : trailingSlash pat with
  | false => rfl
  | true =>
    have := (trailingSlash_eq_true_iff pat).mp hts
    rcases h with h | h
    · exact absurd this.2 h
    · exact absurd h this.1

theorem Match_of_literal_noslash (pat path : GoString) (hpat : ∀ c ∈ pat, c ≠ 58)
    (hend : pat.getLast? ≠ some 47 ∨ pat = [47]) :
    Match pat path = (if path = pat then some [] else none) := by
  have hs : trailingSlash pat = false := trailingSlash_eq_false_of pat hend
  rw [Match_eq_matchRest, hs, matchRest_literal_noslash pat hpat _ path [] (Nat.le_refl _)]

end MatchLiteral

/-- C8: for a pattern without ':' that does not end in '/' or is exactly "/",
Match succeeds exactly when the path equals the pattern, and then returns no
captures; "/" matches "/" and does not match "/wrong_url". -/
theorem Match_literal_exact :
    (∀ (pat path : GoString),
      (∀ c ∈ pat, c ≠ 58) →
      (pat.getLast? ≠ some 47 ∨ pat = str "/") →
      Match pat path = (if path = pat then some [] else none)) ∧
    Match (str "/") (str "/") = some [] ∧
    Match (str "/") (str "/wrong_url") = none := by
  refine ⟨?_, by decide, by decide⟩
  intro pat path hpat hend
  exact Match_of_literal_noslash pat path hpat hend

/-- Witness for C8: the pattern "/foo" against the path "/foo". -/
theorem Match_literal_exact_witness :
    Match (str "/foo") (str "/foo") = (if str "/foo" = str "/foo" then some [] else none) :=
  Match_literal_exact.1 (str "/foo") (str "/foo") (by decide) (Or.inl (by decide))

/-- Counterexample to C7 as stated: the pattern "/" ends in '/', contains no
':' and is a prefix of "/wrong_url", yet Match fails. -/
theorem Match_root_slash_rejects_tail :
    (str "/").getLast? = some 47 ∧ (∀ c ∈ str "/", c ≠ 58) ∧
      str "/" <+: str "/wrong_url" ∧ Match (str "/") (str "/wrong_url") = none := by
  refine ⟨by decide, by decide, ?_, by decide⟩
  exact ⟨str "wrong_url", by decide⟩

/-- C7, amended: for a pattern that ends in '/', contains no ':' and is not
exactly "/", Match succeeds, with no captures, on every path that has the
pattern as a prefix, whatever follows; the pattern "/" matches the path "/"
only. -/
theorem Match_trailing_slash_accepts_tail :
    (∀ (pat path : GoString),
      pat.getLast? = some 47 →
      (∀ c ∈ pat, c ≠ 58) →
      pat ≠ str "/" →
      pat <+: path →
      Match pat path = some []) ∧
    (∀ path : GoString, Match (str "/") path = some [] ↔ path = str "/") := by
  refine ⟨?_, ?_⟩
  · intro pat path hlast hpat hne hpre
    obtain ⟨rest, rfl⟩ := hpre
    have hs : trailingSlash pat = true := (trailingSlash_eq_true_iff pat).mpr ⟨hne, hlast⟩
    rw [Match_eq_matchRest, hs]
    have h := matchRest_literal_slash pat hpat rest 0 []
    rw [h]
  · intro path
    have h := Match_of_literal_noslash (str "/") path (by decide) (Or.inr rfl)
    rw [h]
    by_cases hp : path = str "/" <;> simp [hp]

/-- Witness for C7 amended: the pattern "/foo/" against the path "/foo/bar/baz". -/
theorem Match_trailing_slash_accepts_tail_witness :
    Match (str "/foo/") (str "/foo/bar/baz") = some [] :=
  Match_trailing_slash_accepts_tail.1 (str "/foo/") (str "/foo/bar/baz") (by decide) (by decide)
    (by decide) ⟨str "bar/baz", by decide⟩

section MatchCapture

theorem takeWhile_append_stop (f : Nat → Bool) (l rest : List Nat) (hl : ∀ c ∈ l, f c = true)
    (hrest : ∀ b, rest.head? = some b → f b = false) :
    (l ++ rest).takeWhile f = l := by
  induction l with
  | nil =>
    cases rest with
    | nil => rfl
    | cons b r => simp [List.takeWhile_cons, hrest b rfl]
  | cons a l ih =>
    simp only [List.cons_append, List.takeWhile_cons, hl a (List.mem_cons_self _ _), if_true]
    rw [ih (fun c hc => hl c (List.mem_cons_of_mem _ hc))]

theorem dropWhile_append_stop (f : Nat → Bool) (l rest : List Nat) (hl : ∀ c ∈ l, f c = true)
    (hrest : ∀ b, rest.head? = some b → f b = false) :
    (l ++ rest).dropWhile f = rest := by
  induction l with
  | nil =>
    cases rest with
    | nil => rfl
    | cons b r => simp [List.dropWhile_cons, hrest b rfl]
  | cons a l ih =>
    simp only [List.cons_append, List.dropWhile_cons, hl a (List.mem_cons_self _ _), if_true]
    exact ih (fun c hc => hl c (List.mem_cons_of_mem _ hc))

theorem matchRest_capture_step (sl : Bool) (fuel : Nat) (name suf v : GoString) (p : Values)
    (hname : ∀ c ∈ name, isAlnum c = true)
    (hsuf : ∀ b, suf.head? = some b → isAlnum b = false)
    (hv : ∀ c ∈ v, matchPart ((suf.head?).getD 0) c = true)
    (hne : v ++ suf ≠ []) :
    matchRest sl (fuel + 1) (v ++ suf) (58 :: (name ++ suf)) p =
      matchRest sl fuel suf suf (valuesAdd p (58 :: name) v) := by
  have hstop : ∀ b, suf.head? = some b → matchPart ((suf.head?).getD 0) b = false := by
    intro b hb
    simp [hb, matchPart]
  have h1 : (name ++ suf).takeWhile isAlnum = name := takeWhile_append_stop _ _ _ hname hsuf
  have h2 : (name ++ suf).dropWhile isAlnum = suf := dropWhile_append_stop _ _ _ hname hsuf
  cases hvs : v ++ suf with
  | nil => exact absurd hvs hne
  | cons c r =>
    simp only [matchRest, if_true, h1, h2]
    rw [← hvs, takeWhile_append_stop _ _ _ hv hstop, dropWhile_append_stop _ _ _ hv hstop]

end MatchCapture

/-- C5: for a literal prefix pre without ':', a name of letters, digits and
'_', a literal suffix suf without ':' that does not end in '/' and whose first
byte is not a letter, digit or '_', and a value v without '/' and without the
first byte of suf (non-empty and without a zero byte when suf is empty),
Match(pre ++ ":" ++ name ++ suf, pre ++ v ++ suf) succeeds with exactly the
capture ":" ++ name -> [v]; the three examples of TestMatch follow. -/
theorem Match_single_capture :
    (∀ (pre name suf v : GoString),
      (∀ c ∈ pre, c ≠ 58) →
      (∀ c ∈ name, isAlnum c = true) →
      ((∀ c ∈ suf, c ≠ 58) ∧ suf.getLast? ≠ some 47 ∧
        ∀ b, suf.head? = some b → isAlnum b = false) →
      ((∀ c ∈ v, c ≠ 47) ∧ (∀ b, suf.head? = some b → ∀ c ∈ v, c ≠ b) ∧
        (suf = [] → v ≠ [] ∧ ∀ c ∈ v, c ≠ 0)) →
      Match (pre ++ str ":" ++ name ++ suf) (pre ++ v ++ suf) =
        some [(str ":" ++ name, [v])]) ∧
    Match (str "/foo/:name") (str "/foo/bar") = some [(str ":name", [str "bar"])] ∧
    Match (str "/foo/:name.txt") (str "/foo/bar.txt") = some [(str ":name", [str "bar"])] ∧
    Match (str "/foo/x:name") (str "/foo/xbar") = some [(str ":name", [str "bar"])] := by
  refine ⟨?_, by decide, by decide, by decide⟩
  intro pre name suf v hpre hname hsuf hv
  obtain ⟨hsuf1, _, hsuf3⟩ := hsuf
  obtain ⟨hv1, hv2, hv3⟩ := hv
  have hvm : ∀ c ∈ v, matchPart ((suf.head?).getD 0) c = true := by
    intro c hc
    cases hh : suf.head? with
    | none =>
      have hsnil : suf = [] := by
        cases suf with
        | nil => rfl
        | cons a l => simp at hh
      simp [matchPart, hv1 c hc, (hv3 hsnil).2 c hc]
    | some b => simp [matchPart, hv1 c hc, hv2 b hh c hc]
  have hne : v ++ suf ≠ [] := by
    intro h
    have hs : suf = [] := (List.append_eq_nil.mp h).2
    exact (hv3 hs).1 (List.append_eq_nil.mp h).1
  have hpat : pre ++ str ":" ++ name ++ suf = pre ++ (58 :: (name ++ suf)) := by
    simp [str]
  have hfuel : (pre ++ (58 :: (name ++ suf))).length + 1 =
      pre.length + ((suf.length + (name.length + 1)) + 1) := by
    simp only [List.length_append, List.length_cons]; omega
  rw [Match_eq_matchRest, hpat, hfuel, List.append_assoc,
    matchRest_skip_literal _ pre hpre,
    matchRest_capture_step _ _ name suf v [] hname hsuf3 hvm hne,
    matchRest_literal_same _ suf hsuf1]
  simp [valuesAdd, str]

/-- Witness for C5: the pattern "/foo/:name.txt" against "/foo/bar.txt". -/
theorem Match_single_capture_witness :
    Match (str "/foo/" ++ str ":" ++ str "name" ++ str ".txt")
        (str "/foo/" ++ str "bar" ++ str ".txt") =
      some [(str ":" ++ str "name", [str "bar"])] :=
  Match_single_capture.1 (str "/foo/") (str "name") (str ".txt") (str "bar")
    (by decide) (by decide) ⟨by decide, by decide, by decide⟩
    ⟨by decide, by decide, by decide⟩

section MatchTrace

theorem getElem?_eq_head?_drop (l : List Nat) (n : Nat) : l[n]? = (l.drop n).head? :=
  (List.head?_drop l n).symm

theorem all_of_dropWhile_eq_nil (f : Nat → Bool) (l : List Nat) (h : l.dropWhile f = []) :
    ∀ x ∈ l, f x = true := by
  induction l with
  | nil => intro x hx; cases hx
  | cons a l ih =>
    by_cases ha : f a = true
    · rw [List.dropWhile_cons, if_pos ha] at h
      intro x hx
      rcases List.mem_cons.mp hx with rfl | hx
      · exact ha
      · exact ih h x hx
    · rw [List.dropWhile_cons, if_neg ha] at h
      cases h

theorem head?_dropWhile_false (f : Nat → Bool) (l : List Nat) (b : Nat)
    (h : (l.dropWhile f).head? = some b) : f b = false := by
  have := List.head?_dropWhile_not f l
  rw [h] at this
  exact this

theorem trailingSlash_capture_last (done r : GoString) (hr : ∀ x ∈ r, isAlnum x = true) :
    trailingSlash (done ++ 58 :: r) = false := by
  apply trailingSlash_eq_false_of
  left
  intro h
  have h2 : (58 :: r).getLast? = some 47 := by
    rw [List.getLast?_append] at h
    cases hl : (58 :: r).getLast? with
    | none => simp at hl
    | some x => rw [hl] at h; simpa using h
  have hm := List.mem_of_getLast?_eq_some h2
  rcases List.mem_cons.mp hm with h3 | h3
  · exact absurd h3 (by decide)
  · have := hr 47 h3
    exact absurd this (by decide)

theorem matchPart_true (b c : Nat) (h : matchPart b c = true) : c ≠ b ∧ c ≠ 47 := by
  simpa [matchPart] using h

theorem matchPart_false (b c : Nat) (h : matchPart b c = false) : c = b ∨ c = 47 := by
  by_cases h1 : c = b
  · exact Or.inl h1
  · by_cases h2 : c = 47
    · exact Or.inr h2
    · simp [matchPart, h1, h2] at h

theorem capturesFrom_cons (p : Values) (e : Capture) (t : List Capture) :
    capturesFrom p (e :: t) = capturesFrom (valuesAdd p (58 :: e.name) e.val) t := rfl

theorem matchRest_trace (pat path : GoString) (fuel : Nat) :
    ∀ (done patR consumed pathR : GoString) (p caps : Values),
      pat = done ++ patR → path = consumed ++ pathR →
      matchRest (trailingSlash pat) fuel pathR patR p = some (some caps) →
      ∃ trace : List Capture, caps = capturesFrom p trace ∧
        ∀ e ∈ trace, LongestRun pat path e := by
  induction fuel with
  | zero => intro done patR consumed pathR p caps _ _ h; simp [matchRest] at h
  | succ fuel ih =>
    intro done patR consumed pathR p caps hpat hpath h
    cases pathR with
    | nil =>
      refine ⟨[], ?_, fun e he => by cases he⟩
      by_cases hp : patR = []
      · simp [matchRest, hp] at h; simp [capturesFrom, h]
      · simp [matchRest, hp] at h
    | cons c pr =>
      cases patR with
      | nil =>
        refine ⟨[], ?_, fun e he => by cases he⟩
        cases hs : trailingSlash pat with
        | false => rw [hs] at h; simp [matchRest] at h
        | true => rw [hs] at h; simp [matchRest] at h; simp [capturesFrom, h]
      | cons d r =>
        by_cases hd : d = 58
        · subst hd
          simp only [matchRest, if_true] at h
          have hsplitR : r.takeWhile isAlnum ++ r.dropWhile isAlnum = r :=
            List.takeWhile_append_dropWhile isAlnum r
          have hsplitP : (c :: pr).takeWhile
                (matchPart (((r.dropWhile isAlnum).head?).getD 0)) ++
              (c :: pr).dropWhile (matchPart (((r.dropWhile isAlnum).head?).getD 0)) = c :: pr :=
            List.takeWhile_append_dropWhile _ _
          generalize hnext : ((r.dropWhile isAlnum).head?).getD 0 = nextc at h hsplitP
          generalize hname : r.takeWhile isAlnum = name at h hsplitR
          generalize hr' : r.dropWhile isAlnum = r' at h hsplitR hnext
          generalize hval : (c :: pr).takeWhile (matchPart nextc) = val at h hsplitP
          generalize hpr' : (c :: pr).dropWhile (matchPart nextc) = pr' at h hsplitP
          have hpat' : pat = (done ++ 58 :: name) ++ r' := by
            rw [hpat, ← hsplitR]; simp
          have hpath' : path = (consumed ++ val) ++ pr' := by
            rw [hpath, ← hsplitP]; simp
          obtain ⟨trace, hcaps, hall⟩ := ih _ _ _ _ _ _ hpat' hpath' h
          refine ⟨⟨done.length, consumed.length, name, val⟩ :: trace, ?_, ?_⟩
          · rw [capturesFrom_cons]; exact hcaps
          · intro e he
            rcases List.mem_cons.mp he with rfl | he
            · have hfb : followingByte pat ⟨done.length, consumed.length, name, val⟩ = r'.head? := by
                simp only [followingByte]
                rw [getElem?_eq_head?_drop, hpat']
                have : done.length + 1 + name.length = (done ++ 58 :: name).length + 0 := by
                  simp only [List.length_append, List.length_cons]; omega
                rw [this, List.drop_append]
                rfl
              have hterm : path[consumed.length + val.length]? = pr'.head? := by
                rw [getElem?_eq_head?_drop, hpath']
                have : consumed.length + val.length = (consumed ++ val).length + 0 := by
                  simp
                rw [this, List.drop_append]
                rfl
              refine ⟨?_, ?_, ?_, ?_, ?_⟩
              · show pat[done.length]? = some 58
                rw [hpat, List.getElem?_append_right (Nat.le_refl _)]
                simp
              · show name = (pat.drop (done.length + 1)).takeWhile isAlnum
                rw [hpat]
                have : done.length + 1 = (done ++ [58]).length + 0 := by simp
                have h2 : done ++ 58 :: r = (done ++ [58]) ++ r := by simp
                rw [h2, this, List.drop_append]
                exact hname.symm
              · show (path.drop consumed.length).take val.length = val
                rw [hpath]
                have : consumed.length = consumed.length + 0 := rfl
                rw [this, List.drop_append]
                simp only [List.drop_zero]
                rw [← hval]
                exact take_length_takeWhile _ _
              · intro x hx
                have hx' : matchPart nextc x = true := by
                  rw [← hval] at hx
                  exact List.mem_takeWhile_imp hx
                have hx2 := matchPart_true _ _ hx'
                refine ⟨hx2.2, ?_⟩
                rw [hfb]
                intro hh
                rw [hh] at hnext
                simp at hnext
                exact hx2.1 hnext
              · intro b hb
                rw [hterm] at hb
                have hf : matchPart nextc b = false := by
                  rw [← hpr'] at hb
                  exact head?_dropWhile_false _ _ _ hb
                rcases matchPart_false _ _ hf with h1 | h1
                · right
                  rw [hfb]
                  cases hh : r'.head? with
                  | some x =>
                    rw [hh] at hnext
                    simp at hnext
                    rw [h1, hnext]
                  | none =>
                    exfalso
                    have hr'nil : r' = [] := by
                      cases r' with
                      | nil => rfl
                      | cons a l => simp at hh
                    have hall' : ∀ x ∈ r, isAlnum x = true :=
                      all_of_dropWhile_eq_nil isAlnum r (by rw [hr', hr'nil])
                    have hts : trailingSlash pat = false := by
                      rw [hpat]; exact trailingSlash_capture_last done r hall'
                    cases pr' with
                    | nil => simp at hb
                    | cons y ys =>
                      rw [hts, hr'nil] at h
                      cases fuel with
                      | zero => simp [matchRest] at h
                      | succ f => simp [matchRest] at h
                · left; exact h1
            · exact hall e he
        · by_cases hcd : c = d
          · subst hcd
            simp only [matchRest, hd, if_false, if_true] at h
            have hpat' : pat = (done ++ [c]) ++ r := by rw [hpat]; simp
            have hpath' : path = (consumed ++ [c]) ++ pr := by rw [hpath]; simp
            exact ih _ _ _ _ _ _ hpat' hpath' h
          · simp [matchRest, hd, hcd] at h

end MatchTrace

/-- C6: whenever Match succeeds, the returned values are those of a sequence
of captures, each of which is the longest run of the path from its starting
position that contains neither '/' nor the pattern byte following the capture
name; so "/foo/:name.txt" does not match "/foo/bar/baz.txt", and "/foo/:a:b"
on "/foo/val1:val2" binds a to "val1" and b to ":val2". -/
theorem Match_captures_longest_run :
    (∀ (pat path : GoString) (caps : Values),
      Match pat path = some caps →
      ∃ trace : List Capture, caps = capturesFrom [] trace ∧
        ∀ e ∈ trace, LongestRun pat path e) ∧
    Match (str "/foo/:name.txt") (str "/foo/bar/baz.txt") = none ∧
    Match (str "/foo/:a:b") (str "/foo/val1:val2") =
      some [(str ":a", [str "val1"]), (str ":b", [str ":val2"])] := by
  refine ⟨?_, by decide, by decide⟩
  intro pat path caps h
  rw [Match_eq_matchRest] at h
  cases hm : matchRest (trailingSlash pat) (pat.length + 1) path pat [] with
  | none => rw [hm] at h; cases h
  | some r =>
    rw [hm] at h
    simp only at h
    subst h
    exact matchRest_trace pat path _ [] pat [] path [] caps rfl rfl hm

/-- Witness for C6: the match of "/foo/:name.txt" on "/foo/bar.txt". -/
theorem Match_captures_longest_run_witness :
    ∃ trace : List Capture, [(str ":name", [str "bar"])] = capturesFrom [] trace ∧
      ∀ e ∈ trace, LongestRun (str "/foo/:name.txt") (str "/foo/bar.txt") e :=
  Match_captures_longest_run.1 (str "/foo/:name.txt") (str "/foo/bar.txt")
    [(str ":name", [str "bar"])] (by decide)

/-! ## Theorems: router/router.go -/

section RouterLemmas

theorem doMatch_ref (heap : List Route) (routes : List Nat) (path : GoString) :
    (doMatch heap routes path).map Prod.snd = routes.find? (routeMatches heap path) := by
  induction routes with
  | nil => rfl
  | cons ref rest ih =>
    rw [doMatch, List.find?_cons]
    have hrm : routeMatches heap path ref =
        match heap[ref]? with
        | none => false
        | some route => (route.Match path).isSome := rfl
    rw [hrm]
    cases heap[ref]? with
    | none => exact ih
    | some route =>
      simp only []
      cases hm : route.Match path with
      | none => simpa using ih
      | some params => simp

theorem find?_eq_some_iff_first (heap : List Route) (routes : List Nat) (path : GoString)
    (ref : Nat) :
    routes.find? (routeMatches heap path) = some ref ↔ IsFirstMatch heap routes path ref := by
  rw [List.find?_eq_some]
  unfold IsFirstMatch
  constructor
  · rintro ⟨hp, before, after, hl, hb⟩
    exact ⟨before, after, hl, hp, fun x hx => by simpa using hb x hx⟩
  · rintro ⟨before, after, hl, hp, hb⟩
    exact ⟨hp, before, after, hl, fun x hx => by simp [hb x hx]⟩

theorem find?_eq_none_iff_noMatch (heap : List Route) (routes : List Nat) (path : GoString) :
    routes.find? (routeMatches heap path) = none ↔ NoMatch heap routes path := by
  rw [List.find?_eq_none]
  unfold NoMatch
  constructor
  · intro h x hx; simpa using h x hx
  · intro h x hx; simp [h x hx]

theorem FindRoute_eq (r : Router) (method : String) (path : GoString) :
    r.FindRoute method path =
      match (r.routesOf method).find? (routeMatches r.heap path) with
      | some ref => Except.ok ref
      | none =>
        match (r.routesOf "*").find? (routeMatches r.heap path) with
        | some ref => Except.ok ref
        | none => Except.error ErrNoRouteMatch := by
  unfold Router.FindRoute Router.match'
  rw [← doMatch_ref, ← doMatch_ref]
  cases h1 : doMatch r.heap (r.routesOf method) path with
  | some res => rfl
  | none =>
    cases h2 : doMatch r.heap (r.routesOf "*") path with
    | some res => rfl
    | none => rfl

theorem lookup_map_set (method : String) (list : List Nat) :
    ∀ (routes : List (String × List Nat)) (old : List Nat), routes.lookup method = some old →
      (routes.map (fun e => if e.1 = method then (e.1, list) else e)).lookup method =
        some list := by
  intro routes
  induction routes with
  | nil => intro old h; simp [List.lookup] at h
  | cons e rest ih =>
    intro old h
    obtain ⟨k, v⟩ := e
    by_cases hk : k = method
    · subst hk
      rw [List.map_cons, if_pos rfl]
      exact List.lookup_cons_self
    · have hbeq : (method == k) = false := by simp [Ne.symm hk]
      have h2 : rest.lookup method = some old := by
        rw [List.lookup_cons, hbeq] at h
        exact h
      rw [List.map_cons, if_neg hk, List.lookup_cons, hbeq]
      exact ih old h2

theorem lookup_routesSet (routes : List (String × List Nat)) (method : String)
    (list : List Nat) : (routesSet routes method list).lookup method = some list := by
  unfold routesSet
  cases h : routes.lookup method with
  | none =>
    simp only
    rw [List.lookup_append, h]
    simp [List.lookup]
  | some old => exact lookup_map_set method list routes old h

end RouterLemmas

/-- C10: FindRoute returns the first route, in the order of the method's
list, whose pattern matches the path; when no route of the method matches,
the first matching route of "*"; and ErrNoRouteMatch exactly when neither list
holds a matching route. Registering a new pattern appends it to the method's
list, so the order of the list is the order of registration. -/
theorem FindRoute_first_in_registration_order :
    (∀ (r : Router) (method : String) (path : GoString),
      (∀ ref : Nat, r.FindRoute method path = Except.ok ref ↔
        (IsFirstMatch r.heap (r.routesOf method) path ref ∨
          (NoMatch r.heap (r.routesOf method) path ∧
            IsFirstMatch r.heap (r.routesOf "*") path ref))) ∧
      (r.FindRoute method path = Except.error ErrNoRouteMatch ↔
        (NoMatch r.heap (r.routesOf method) path ∧ NoMatch r.heap (r.routesOf "*") path)) ∧
      (∀ e : String, r.FindRoute method path = Except.error e → e = ErrNoRouteMatch)) ∧
    (∀ (r : Router) (method : String) (pat : GoString) (handler : RouteHandler),
      r.findPattern method pat = none →
      pat.getLast? ≠ some 47 →
      (r.add method pat handler).2 = r.heap.length ∧
        (r.add method pat handler).1.routesOf method = r.routesOf method ++ [r.heap.length]) ∧
    findRouteExample.FindRoute "GET" (str "/foo/bar") = Except.ok 0 ∧
    findRouteExample.FindRoute "POST" (str "/foo/bar") = Except.ok 2 ∧
    findRouteExample.FindRoute "GET" (str "/x") = Except.ok 3 ∧
    findRouteExample.FindRoute "GET" (str "/nope") = Except.error ErrNoRouteMatch := by
  refine ⟨?_, ?_, by rfl, by rfl, by rfl, by rfl⟩
  · intro r method path
    rw [FindRoute_eq]
    cases h1 : (r.routesOf method).find? (routeMatches r.heap path) with
    | some ref1 =>
      have hf1 := (find?_eq_some_iff_first _ _ _ _).mp h1
      have hn1 : ¬ NoMatch r.heap (r.routesOf method) path := by
        intro hn
        rw [(find?_eq_none_iff_noMatch _ _ _).mpr hn] at h1
        cases h1
      refine ⟨?_, ?_, ?_⟩
      · intro ref
        constructor
        · intro h
          have : ref1 = ref := by simpa using h
          subst this
          exact Or.inl hf1
        · rintro (h | ⟨h, _⟩)
          · have h2 := (find?_eq_some_iff_first _ _ _ _).mpr h
            rw [h1] at h2
            simpa using h2
          · exact absurd h hn1
      · constructor
        · intro h; cases h
        · rintro ⟨h, _⟩; exact absurd h hn1
      · intro e h; cases h
    | none =>
      have hno1 := (find?_eq_none_iff_noMatch _ _ _).mp h1
      cases h2 : (r.routesOf "*").find? (routeMatches r.heap path) with
      | some ref2 =>
        have hf2 := (find?_eq_some_iff_first _ _ _ _).mp h2
        have hn2 : ¬ NoMatch r.heap (r.routesOf "*") path := by
          intro hn
          rw [(find?_eq_none_iff_noMatch _ _ _).mpr hn] at h2
          cases h2
        refine ⟨?_, ?_, ?_⟩
        · intro ref
          constructor
          · intro h
            have : ref2 = ref := by simpa using h
            subst this
            exact Or.inr ⟨hno1, hf2⟩
          · rintro (h | ⟨_, h⟩)
            · have h3 := (find?_eq_some_iff_first _ _ _ _).mpr h
              rw [h1] at h3
              cases h3
            · have h3 := (find?_eq_some_iff_first _ _ _ _).mpr h
              rw [h2] at h3
              simpa using h3
        · constructor
          · intro h; cases h
          · rintro ⟨_, h⟩; exact absurd h hn2
        · intro e h; cases h
      | none =>
        have hno2 := (find?_eq_none_iff_noMatch _ _ _).mp h2
        refine ⟨?_, ?_, ?_⟩
        · intro ref
          constructor
          · intro h; cases h
          · rintro (h | ⟨_, h⟩)
            · have h3 := (find?_eq_some_iff_first _ _ _ _).mpr h
              rw [h1] at h3
              cases h3
            · have h3 := (find?_eq_some_iff_first _ _ _ _).mpr h
              rw [h2] at h3
              cases h3
        · exact ⟨fun _ => ⟨hno1, hno2⟩, fun _ => rfl⟩
        · intro e h
          have : ErrNoRouteMatch = e := by simpa using h
          exact this.symm
  · intro r method pat handler hnew hlast
    have hcond : ¬ (pat.length > 0 ∧ pat.getLast? = some 47) := fun h => hlast h.2
    unfold Router.add
    rw [Router.addLoop]
    simp only [hnew, hcond, if_false]
    refine ⟨trivial, ?_⟩
    unfold Router.routesOf
    simp only [lookup_routesSet]
    rfl

/-- Witness for C10: the first of the two GET routes that match "/foo/bar"
is found, as the first match of the GET list. -/
theorem FindRoute_first_in_registration_order_witness :
    IsFirstMatch findRouteExample.heap (findRouteExample.routesOf "GET") (str "/foo/bar") 0 ∨
      (NoMatch findRouteExample.heap (findRouteExample.routesOf "GET") (str "/foo/bar") ∧
        IsFirstMatch findRouteExample.heap (findRouteExample.routesOf "*") (str "/foo/bar") 0) :=
  ((FindRoute_first_in_registration_order.1 findRouteExample "GET" (str "/foo/bar")).1 0).mp
    (by rfl)

/-- Counterexample to C9 as stated: with GET "/hello/:name" registered, the
request GET /hello/blake?a=b reaches the handler with the raw query
"%3Aname=blake&a=b", not ":name=blake&a=b": `Encode` escapes the ':' of the
capture name. -/
theorem HandleHTTP_raw_query_escaped :
    rawQuerySeen (Router.New.GetHandle (str "/hello/:name") noop) "GET" (str "/hello/blake")
        (str "a=b") = some (str "%3Aname=blake&a=b") ∧
    rawQuerySeen (Router.New.GetHandle (str "/hello/:name") noop) "GET" (str "/hello/blake")
        (str "a=b") ≠ some (str ":name=blake&a=b") := by
  refine ⟨by decide, by decide⟩

/-- C9, amended: when HandleHTTP matches a route and the match produced at
least one capture, the router's request phase is run on the request whose raw
query is `Encode` of the captures, then '&', then the previous raw query; when
the match produced no capture the request is passed on unchanged. With the Go
`Encode`, GET "/hello/:name" against /hello/blake?a=b gives the raw query
"%3Aname=blake&a=b", from which the query parser reads :name=blake and a=b;
GET "/foo/" leaves the raw queries "" and "a=b" as they were. -/
theorem HandleHTTP_rewrites_raw_query :
    (∀ (encode : Values → GoString) (r : Router) (h : Option Handler) (c : Conn)
      (params : Values) (route : Nat),
      r.match' c.Method c.Path = some (params, route) →
      (params ≠ [] →
        r.HandleHTTP encode h c =
          r.Layer.Run RequestPhase (some (serveRoute r.heap (r.heap.length + 1) route))
            { c with RawQuery := encode params ++ str "&" ++ c.RawQuery }) ∧
      (params = [] →
        r.HandleHTTP encode h c =
          r.Layer.Run RequestPhase (some (serveRoute r.heap (r.heap.length + 1) route)) c)) ∧
    rawQuerySeen (Router.New.GetHandle (str "/hello/:name") noop) "GET" (str "/hello/blake")
        (str "a=b") = some (str "%3Aname=blake&a=b") ∧
    parseQuery (str "%3Aname=blake&a=b") =
      [(str ":name", [str "blake"]), (str "a", [str "b"])] ∧
    rawQuerySeen (Router.New.GetHandle (str "/foo/") noop) "GET" (str "/foo/") (str "") =
      some (str "") ∧
    rawQuerySeen (Router.New.GetHandle (str "/foo/") noop) "GET" (str "/foo/") (str "a=b") =
      some (str "a=b") := by
  refine ⟨?_, by decide, by decide, by decide, by decide⟩
  intro encode r h c params route hm
  constructor
  · intro hne
    have hlen : params.length > 0 := by
      cases params with
      | nil => exact absurd rfl hne
      | cons a l => simp
    simp only [Router.HandleHTTP, Router.HandleHTTPIn, hm, hlen, if_true]
  · intro he
    subst he
    simp only [Router.HandleHTTP, Router.HandleHTTPIn, hm]
    rfl

/-- Witness for C9 amended: the router with GET "/hello/:name" serving
GET /hello/blake?a=b, with the Go `Encode`. -/
theorem HandleHTTP_rewrites_raw_query_witness :
    (Router.New.GetHandle (str "/hello/:name") noop).HandleHTTP urlEncode none
        { Method := "GET", Path := str "/hello/blake", RawQuery := str "a=b" } =
      (Router.New.GetHandle (str "/hello/:name") noop).Layer.Run RequestPhase
        (some (serveRoute (Router.New.GetHandle (str "/hello/:name") noop).heap
          ((Router.New.GetHandle (str "/hello/:name") noop).heap.length + 1) 0))
        { Method := "GET", Path := str "/hello/blake",
          RawQuery := urlEncode [(str ":name", [str "blake"])] ++ str "&" ++ str "a=b" } :=
  (HandleHTTP_rewrites_raw_query.1 urlEncode (Router.New.GetHandle (str "/hello/:name") noop)
    none { Method := "GET", Path := str "/hello/blake", RawQuery := str "a=b" }
    [(str ":name", [str "blake"])] 0 (by decide)).1 (by decide)

/-! ## Theorems: terminal handler, phases and recovery -/

theorem poolGet_poolErase (pool : Pool) (X Y : String) (h : X ≠ Y) :
    poolGet (poolErase pool X) Y = poolGet pool Y := by
  induction pool with
  | nil => rfl
  | cons e rest ih =>
    unfold poolErase poolGet at *
    by_cases he : e.1 = X
    · have hY : (Y == e.1) = false := by
        simp only [beq_eq_false_iff_ne, ne_eq]
        intro hc
        exact h (he.symm.trans hc.symm)
      rw [List.filter_cons]
      simp only [he, bne_self_eq_false, Bool.false_eq_true, if_false]
      rw [ih]
      obtain ⟨k, v⟩ := e
      simp only at he hY
      rw [List.lookup_cons, hY]
    · have hne : (e.1 != X) = true := by simpa using he
      rw [List.filter_cons, if_pos hne]
      obtain ⟨k, v⟩ := e
      rw [List.lookup_cons, List.lookup_cons, ih]

theorem erasePhase_finalHandler (s : Layer) (X : String) :
    (s.erasePhase X).finalHandler = s.finalHandler := by
  cases s with
  | mk fh par pool => cases par <;> rfl

theorem erasePhase_Pool (s : Layer) (X : String) :
    (s.erasePhase X).Pool = poolErase s.Pool X := by
  cases s with
  | mk fh par pool => cases par <;> rfl

theorem run_erasePhase (s : Layer) (X Y : String) (h : Option Handler) (hXY : X ≠ Y) :
    (s.erasePhase X).run Y h = s.run Y h := by
  unfold Layer.run
  rw [erasePhase_finalHandler, erasePhase_Pool, poolGet_poolErase _ _ _ hXY]

theorem Run_erasePhase : ∀ (s : Layer) (X Y : String) (h : Option Handler) (c : Conn),
    X ≠ Y → X ≠ "error" → (s.erasePhase X).Run Y h c = s.Run Y h c
  | Layer.mk fh none pool, X, Y, h, c, hXY, hXe => by
    rw [Run_eq, Run_eq, runBody_of_no_parent ((Layer.mk fh none pool).erasePhase X) _ _ _ rfl,
      runBody_of_no_parent (Layer.mk fh none pool) _ _ _ rfl, run_erasePhase _ _ _ _ hXY]
    cases (Layer.mk fh none pool).run Y h c with
    | ok c1 => rfl
    | panic c1 re =>
      simp only [Layer.recovered, Layer.runRecoverError]
      rw [run_erasePhase _ _ _ _ hXe]
      rfl
  | Layer.mk fh (some p) pool, X, Y, h, c, hXY, hXe => by
    have ih := Run_erasePhase p X
    rw [Run_eq, Run_eq]
    have hbody : ((Layer.mk fh (some p) pool).erasePhase X).runBody Y h c =
        (Layer.mk fh (some p) pool).runBody Y h c := by
      unfold Layer.runBody
      rw [run_erasePhase _ _ _ _ hXY]
      simp only [Layer.erasePhase, Layer.parent]
      split
      · exact ih Y _ c hXY hXe
      · rfl
    rw [hbody]
    cases (Layer.mk fh (some p) pool).runBody Y h c with
    | ok c1 => rfl
    | panic c1 re =>
      simp only [Layer.recovered, Layer.runRecoverError]
      rw [run_erasePhase _ _ _ _ hXe]
      have hnext : (fun c2 => (p.erasePhase X).Run "error" (some FinalErrorHandler) c2) =
          (fun c2 => p.Run "error" (some FinalErrorHandler) c2) := by
        funext c2
        exact ih "error" _ c2 hXe hXe
      simp only [Layer.erasePhase, Layer.parent]
      rw [hnext]

theorem useFinalHandler_queue (s : Layer) (f : Option Handler) (phase : String) :
    (s.UseFinalHandler f).queue phase = s.queue phase := rfl

theorem Run_of_no_parent (s : Layer) (phase : String) (h : Option Handler) (c : Conn)
    (hp : s.parent = none) :
    s.Run phase h c = s.recovered phase (chain (s.queue phase) (s.terminal h) c) := by
  rw [Run_eq, runBody_of_no_parent _ _ _ _ hp, run_eq_chain]

theorem recovered_of_no_parent (s : Layer) (phase : String) (o : Outcome) (hp : s.parent = none) :
    s.recovered phase o =
      match o with
      | Outcome.ok c1 => Outcome.ok c1
      | Outcome.panic c1 re =>
        if phase = "error" then Outcome.panic c1 re
        else chain (s.queue "error") FinalErrorHandler (c1.ctxSet "vinxi.error" re) := by
  cases o with
  | ok c1 => rfl
  | panic c1 re =>
    simp only [Layer.recovered, Layer.runRecoverError, hp]
    rw [run_eq_chain]
    rfl

/-- C14: the chain of a run ends in the downstream argument when it is not nil
and in the final handler of the layer when it is nil. For a layer without
parent, Run with a downstream h is the guarded chain of the phase around h and
is the same whatever the final handler of the layer is; with a nil downstream
it is the guarded chain around the final handler, which is the 502 responder
for New and the argument of UseFinalHandler afterwards; without a stack for
the phase the terminal handler is served directly. The three forwarding
middleware of TestSimpleMiddlewareCallChain and the downstream handler make
four calls, a new layer answers 502 "Bad Gateway", and the layer of
TestUseFinalHandler answers 503. -/
theorem Run_terminal_handler :
    (∀ (s : Layer) (phase : String) (h : Handler) (c : Conn) (f : Option Handler),
      s.parent = none →
      s.Run phase (some h) c = s.recovered phase (chain (s.queue phase) h c) ∧
      (s.UseFinalHandler f).Run phase (some h) c = s.Run phase (some h) c) ∧
    (∀ (s : Layer) (phase : String) (c : Conn),
      s.parent = none →
      s.Run phase none c =
        s.recovered phase (chain (s.queue phase) (serve s.finalHandler) c)) ∧
    Layer.New.finalHandler = some FinalHandler ∧
    (∀ (s : Layer) (f : Option Handler), (s.UseFinalHandler f).finalHandler = f) ∧
    (∀ (s : Layer) (phase : String) (h : Option Handler) (c : Conn),
      s.parent = none →
      poolGet s.Pool phase = none →
      s.Run phase h c = s.recovered phase (s.terminal h c)) ∧
    testSimpleMiddlewareCallChain = some [1, 1, 1, 1] ∧
    responseOfRun (Except.ok Layer.New) "request" {} = some (502, "Bad Gateway", []) ∧
    responseOfRun testUseFinalHandler "request" {} =
      some (503, "vinxi: service unavailable", []) := by
  refine ⟨?_, ?_, rfl, fun _ _ => rfl, ?_, by rfl, by rfl, by rfl⟩
  · intro s phase h c f hp
    have h1 := Run_of_no_parent s phase (some h) c hp
    refine ⟨h1, ?_⟩
    have hp2 : (s.UseFinalHandler f).parent = none := hp
    rw [h1, Run_of_no_parent _ phase (some h) c hp2, recovered_of_no_parent _ _ _ hp,
      recovered_of_no_parent _ _ _ hp2]
    rfl
  · intro s phase c hp
    exact Run_of_no_parent s phase none c hp
  · intro s phase h c hp hq
    rw [Run_of_no_parent s phase h c hp]
    unfold Layer.queue
    rw [hq]
    rfl

/-- Witness for C14: a layer whose stack for "request" holds one forwarding
middleware, run with a downstream handler that replies 200. -/
theorem Run_terminal_handler_witness :
    (Layer.mk (some FinalHandler) none
        [("request", { Stack := [setHeaderThenNext "foo" "bar"] })]).Run "request"
        (some (reply 200 "done" noop)) {} =
      (Layer.mk (some FinalHandler) none
        [("request", { Stack := [setHeaderThenNext "foo" "bar"] })]).recovered "request"
        (chain ((Layer.mk (some FinalHandler) none
          [("request", { Stack := [setHeaderThenNext "foo" "bar"] })]).queue "request")
          (reply 200 "done" noop) {}) :=
  (Run_terminal_handler.1
    (Layer.mk (some FinalHandler) none
      [("request", { Stack := [setHeaderThenNext "foo" "bar"] })])
    "request" (reply 200 "done" noop) {} none rfl).1

theorem Run_request_eq (s : Layer) (h : Option Handler) (c : Conn) :
    s.Run "request" h c =
      s.recovered "request" (chain (s.queue "request") (s.terminal h) c) := by
  rw [Run_eq, runBody_request, run_eq_chain]

theorem recovered_setParent_erasePhase (C P : Layer) (phase X : String) (o : Outcome)
    (hpar : C.parent = some P) (hX : X ≠ "error") :
    (C.SetParent (some (P.erasePhase X))).recovered phase o = C.recovered phase o := by
  cases o with
  | ok c1 => rfl
  | panic c1 re =>
    simp only [Layer.recovered, Layer.runRecoverError, hpar]
    have hnext : (fun c2 => (P.erasePhase X).Run "error" (some FinalErrorHandler) c2) =
        (fun c2 => P.Run "error" (some FinalErrorHandler) c2) := by
      funext c2
      exact Run_erasePhase P X "error" _ c2 hX hX
    have hrun : ∀ n, (C.SetParent (some (P.erasePhase X))).run "error" n = C.run "error" n :=
      fun _ => rfl
    simp only [Layer.SetParent, Layer.parent] at hrun ⊢
    rw [hnext, hrun]

/-- C16: the request phase is local to a layer. For a child layer C with
parent P, C.Run("request", h) is the guarded chain of C's own request
middleware around the terminal handler (the result of that chain when it
returns), it is the same when P and the ancestors of P have no stack for
"request" at all, and for every other phase Run serves P.Run with C's chain as
the downstream. In the example the request run sets the child's header only
and the run of "foo" sets the parent's header, then the child's. -/
theorem Run_request_is_local :
    (∀ (C P : Layer) (h : Option Handler) (c : Conn),
      C.parent = some P →
      C.Run "request" h c =
          C.recovered "request" (chain (C.queue "request") (C.terminal h) c) ∧
        (∀ c1, chain (C.queue "request") (C.terminal h) c = Outcome.ok c1 →
          C.Run "request" h c = Outcome.ok c1) ∧
        (C.SetParent (some (P.erasePhase "request"))).Run "request" h c = C.Run "request" h c ∧
        (∀ p, p ≠ "request" →
          C.Run p h c = C.recovered p (P.Run p (some (C.run p h)) c))) ∧
    responseOfRun (Except.ok requestLocalExample) "request" {} =
      some (200, "", [("child", "request")]) ∧
    responseOfRun (Except.ok requestLocalExample) "foo" {} =
      some (200, "", [("parent", "foo"), ("child", "foo")]) := by
  refine ⟨?_, by rfl, by rfl⟩
  intro C P h c hpar
  have h1 := Run_request_eq C h c
  refine ⟨h1, ?_, ?_, ?_⟩
  · intro c1 hc
    rw [h1, hc]
    rfl
  · rw [h1, Run_request_eq, recovered_setParent_erasePhase C P _ _ _ hpar (by decide)]
    rfl
  · intro p hp
    rw [Run_eq, runBody_of_parent C P p h c hpar hp]

/-- Witness for C16: the child layer of the example and its parent. -/
theorem Run_request_is_local_witness :
    requestLocalExample.Run "request" none {} =
      Outcome.ok ((({} : Conn).HeaderSet "child" "request").WriteHeader 200) :=
  (Run_request_is_local.1 requestLocalExample
    (Layer.mk (some FinalHandler) none
      [("request", { Stack := [setHeaderThenNext "parent" "request"] }),
       ("foo", { Stack := [setHeaderThenNext "parent" "foo"] })])
    none {} rfl).2.1 _ rfl

/-- C18, as stated, fails for the error phase: when the request middleware of
a layer panics, the middleware registered only under "error" is invoked during
Run("request") and records its events; without that registration the same run
records nothing. -/
theorem Run_request_invokes_error_phase :
    eventsOfRun (Except.ok panicWithErrorMiddleware) "request" {} = some [7, 8] ∧
    eventsOfRun (Except.ok (panicWithErrorMiddleware.erasePhase "error")) "request" {} =
      some [] := by
  refine ⟨by rfl, by rfl⟩

/-- C18, amended: phases other than the error phase are isolated. For every
layer and every two distinct phase names X and Y with X other than "error",
Run(Y) is the same when the layer and its ancestors hold no stack for X: no
middleware registered only under X is invoked. -/
theorem Run_phase_isolated :
    ∀ (s : Layer) (X Y : String) (h : Option Handler) (c : Conn),
      X ≠ Y → X ≠ "error" → (s.erasePhase X).Run Y h c = s.Run Y h c := by
  intro s X Y h c hXY hXe
  exact Run_erasePhase s X Y h c hXY hXe

/-- Witness for C18: the request stack of the example layer does not matter to
a run of "foo". -/
theorem Run_phase_isolated_witness :
    (requestLocalExample.erasePhase "request").Run "foo" none {} =
      requestLocalExample.Run "foo" none {} :=
  Run_phase_isolated requestLocalExample "request" "foo" none {} (by decide) (by decide)

/-- C17, as stated, fails when the error chain of the parent panics too: the
recovery of the child then runs as well, and the error middleware of the child
is invoked and writes the response. -/
theorem Run_child_recovers_after_parent :
    responseOfRun (Except.ok childOfPanickingParent) "foo" {} = some (502, "child", []) := by
  rfl

/-- C17, amended: for a child layer C whose parent P has no parent, and a
phase p other than "request" and "error", when the chain of the run (P's
middleware for p, then C's) panics, P recovers by running its error chain once
around the 500 "Proxy Error" responder on the state reached at the panic, and
when that error chain returns, its result is the result of C.Run: the recovery
of C does not run and no error middleware of C is invoked.
TestParentLayerChildPanicHandler answers 500 "Proxy Error" with the headers
set by the parent. -/
theorem Run_child_panic_parent_recovers :
    (∀ (C P : Layer) (p : String) (c c1 c2 : Conn) (re : String),
      C.parent = some P →
      P.parent = none →
      p ≠ "request" →
      p ≠ "error" →
      chain (P.queue p ++ C.queue p) (serve C.finalHandler) c = Outcome.panic c1 re →
      chain (P.queue "error") FinalErrorHandler (c1.ctxSet "vinxi.error" re) = Outcome.ok c2 →
      C.Run p none c = Outcome.ok c2) ∧
    responseOfRun testParentLayerChildPanicHandler "foo" {} =
      some (500, "Proxy Error", [("foo", "foo"), ("error", "parent")]) := by
  refine ⟨?_, by rfl⟩
  intro C P p c c1 c2 re hpar hP hp hpe hpanic herr
  have hbody : P.Run p (some (C.run p none)) c =
      P.recovered p (chain (P.queue p ++ C.queue p) (serve C.finalHandler) c) := by
    rw [Run_of_no_parent P p _ c hP, run_eq_chain, chain_append]
    rfl
  rw [Run_eq, runBody_of_parent C P p none c hpar hp, hbody, hpanic,
    recovered_of_no_parent _ _ _ hP]
  simp only [hpe, if_false, herr]
  rfl

/-- Witness for C17: the layers of TestParentLayerChildPanicHandler, built
directly. -/
theorem Run_child_panic_parent_recovers_witness :
    (Layer.mk (some FinalHandler)
        (some (Layer.mk (some FinalHandler) none
          [("error", { Stack := [setHeaderThenNext "error" "parent"] }),
           ("foo", { Stack := [setHeaderThenNext "foo" "foo"] })]))
        [("error", { Stack := [setHeaderThenNext "error" "child"] }),
         ("foo", { Stack := [panicking "oops"] })]).Run "foo" none {} =
      Outcome.ok ((((((({} : Conn).HeaderSet "foo" "foo").ctxSet "vinxi.error" "oops").HeaderSet
        "error" "parent").WriteHeader 500).Write "Proxy Error")) :=
  Run_child_panic_parent_recovers.1
    (Layer.mk (some FinalHandler)
      (some (Layer.mk (some FinalHandler) none
        [("error", { Stack := [setHeaderThenNext "error" "parent"] }),
         ("foo", { Stack := [setHeaderThenNext "foo" "foo"] })]))
      [("error", { Stack := [setHeaderThenNext "error" "child"] }),
       ("foo", { Stack := [panicking "oops"] })])
    (Layer.mk (some FinalHandler) none
      [("error", { Stack := [setHeaderThenNext "error" "parent"] }),
       ("foo", { Stack := [setHeaderThenNext "foo" "foo"] })])
    "foo" {} (({} : Conn).HeaderSet "foo" "foo") _ "oops" rfl rfl (by decide) (by decide) rfl rfl

/-! ## Theorems: the memo of a Stack -/

section MemoLemmas

variable {α : Type}

theorem Join_contents (s : Stack α) : s.Join.2.contents = s.contents := by
  unfold Stack.Join
  cases s.memo <;> rfl

theorem memoFresh_Join (s : Stack α) (hs : s.MemoFresh) : s.Join.2.MemoFresh := by
  unfold Stack.MemoFresh
  rw [Join_contents]
  unfold Stack.Join
  cases hm : s.memo with
  | some m =>
    rcases hs with h | h
    · rw [hm] at h; cases h
    · right; simpa [hm] using h
  | none =>
    simp only [Stack.merged]
    cases hc : (s.Head ++ s.Stack) ++ s.Tail with
    | nil => left; rfl
    | cons a l => right; simp [Stack.contents, hc]

theorem memoFresh_step (s : Stack α) (op : StackOp α) (hs : s.MemoFresh) :
    (s.step op).MemoFresh := by
  cases op with
  | push o h => exact Or.inl (Push_memo s o h)
  | join => exact memoFresh_Join s hs

theorem memoFresh_after (ops : List (StackOp α)) (s : Stack α) (hs : s.MemoFresh) :
    (s.after ops).MemoFresh := by
  induction ops generalizing s with
  | nil => exact hs
  | cons op rest ih => exact ih (s.step op) (memoFresh_step s op hs)

theorem Join_of_memoFresh (s : Stack α) (hs : s.MemoFresh) : s.Join.1 = s.contents := by
  unfold Stack.Join
  cases hm : s.memo with
  | some m =>
    rcases hs with h | h
    · rw [hm] at h; cases h
    · rw [hm] at h; simpa using h
  | none => rfl

theorem mem_contents_Push (s : Stack α) (o : Priority) (h : α)
    (ho : o = Priority.TopHead ∨ o = Priority.Head ∨ o = Priority.Normal ∨
      o = Priority.TopTail ∨ o = Priority.Tail) :
    h ∈ (s.Push o h).contents := by
  unfold Stack.contents
  rw [Push_Head, Push_Stack, Push_Tail]
  rcases ho with rfl | rfl | rfl | rfl | rfl <;> simp [Priority.TopHead, Priority.Head,
    Priority.Normal, Priority.TopTail, Priority.Tail]

end MemoLemmas

/-- C15, as stated, fails for a Push whose priority is none of the five bands
(Priority is an int): the item is stored nowhere and the Join after the Push
does not contain it. -/
theorem Stack_Join_misses_push_outside_bands :
    ((({} : Stack Nat).Push 5 7).Join).1 = [] ∧ ¬ 7 ∈ ((({} : Stack Nat).Push 5 7).Join).1 := by
  refine ⟨by rfl, ?_⟩
  have h : ((({} : Stack Nat).Push 5 7).Join).1 = [] := by rfl
  rw [h]
  exact List.not_mem_nil 7

/-- C15, amended: the memo of a Stack is never stale. For every Stack reached
from the empty Stack by any interleaving of Push and Join calls, the memo is
nil or equal to Head ++ Stack ++ Tail of the current contents, Join returns
Head ++ Stack ++ Tail of the current contents, a second Join right after
returns the same sequence, every Push resets the memo to nil, and a Join after
a Push with one of the five bands contains the pushed item. The calls of
TestStackMemoization give the memo [1, 2, 3], then nil after the Push, then
[1, 2, 3, 4]. -/
theorem Stack_memo_fresh :
    (∀ (α : Type) (ops : List (StackOp α)),
      (({} : Stack α).after ops).MemoFresh ∧
      (({} : Stack α).after ops).Join.1 = (({} : Stack α).after ops).contents ∧
      (({} : Stack α).after ops).Join.2.Join.1 = (({} : Stack α).after ops).Join.1 ∧
      ∀ (o : Priority) (h : α),
        ((({} : Stack α).after ops).Push o h).memo = none ∧
        ((o = Priority.TopHead ∨ o = Priority.Head ∨ o = Priority.Normal ∨
            o = Priority.TopTail ∨ o = Priority.Tail) →
          h ∈ ((({} : Stack α).after ops).Push o h).Join.1)) ∧
    (({} : Stack Nat).after [StackOp.push Priority.Head 1, StackOp.push Priority.Normal 2,
      StackOp.push Priority.Tail 3, StackOp.join]).memo = some [1, 2, 3] ∧
    (({} : Stack Nat).after [StackOp.push Priority.Head 1, StackOp.push Priority.Normal 2,
      StackOp.push Priority.Tail 3, StackOp.join, StackOp.push Priority.Tail 4]).memo = none ∧
    (({} : Stack Nat).after [StackOp.push Priority.Head 1, StackOp.push Priority.Normal 2,
      StackOp.push Priority.Tail 3, StackOp.join, StackOp.push Priority.Tail 4,
      StackOp.join]).memo = some [1, 2, 3, 4] := by
  refine ⟨?_, by rfl, by rfl, by rfl⟩
  intro α ops
  have hs : (({} : Stack α).after ops).MemoFresh := memoFresh_after ops {} (Or.inl rfl)
  refine ⟨hs, Join_of_memoFresh _ hs, ?_, ?_⟩
  · rw [Join_of_memoFresh _ (memoFresh_Join _ hs), Join_contents, Join_of_memoFresh _ hs]
  · intro o h
    refine ⟨Push_memo _ o h, fun ho => ?_⟩
    rw [Join_of_memo_none _ (Push_memo _ o h)]
    exact mem_contents_Push _ o h ho

/-- Witness for C15: a Push to the tail after a Join, then a Join. -/
theorem Stack_memo_fresh_witness :
    4 ∈ (((({} : Stack Nat).after [StackOp.push Priority.Head 1, StackOp.join]).Push
      Priority.Tail 4).Join).1 :=
  ((Stack_memo_fresh.1 Nat [StackOp.push Priority.Head 1, StackOp.join]).2.2.2
    Priority.Tail 4).2 (Or.inr (Or.inr (Or.inr (Or.inr rfl))))

/-! ## Theorems: requests that match no route -/

theorem mem_allowedMethodsIn (r : Router) (visited : List (String × List Nat))
    (hv : visited.Perm r.Routes) (c : Conn) (m : String) :
    m ∈ r.allowedMethodsIn visited c ↔ m ≠ c.Method ∧ MethodMatches r m c.Path := by
  unfold Router.allowedMethodsIn MethodMatches routeMatches
  simp only [List.mem_flatMap]
  constructor
  · rintro ⟨e, he, hm⟩
    by_cases hc : e.1 = c.Method
    · simp [hc] at hm
    · rw [if_neg hc] at hm
      simp only [List.mem_map, List.mem_filter] at hm
      obtain ⟨ref, ⟨href, hmatch⟩, rfl⟩ := hm
      exact ⟨hc, e, hv.mem_iff.1 he, rfl, ref, href, hmatch⟩
  · rintro ⟨hne, e, he, rfl, ref, href, hmatch⟩
    refine ⟨e, hv.mem_iff.2 he, ?_⟩
    rw [if_neg hne]
    simp only [List.mem_map, List.mem_filter]
    exact ⟨ref, ⟨href, hmatch⟩, trivial⟩

theorem mem_allowedMethods (r : Router) (c : Conn) (m : String) :
    m ∈ r.allowedMethods c ↔ m ≠ c.Method ∧ MethodMatches r m c.Path :=
  mem_allowedMethodsIn r r.Routes (List.Perm.refl _) c m

theorem allowedMethodsIn_ne_nil_iff (r : Router) (visited : List (String × List Nat))
    (hv : visited.Perm r.Routes) (c : Conn) :
    r.allowedMethodsIn visited c ≠ [] ↔ ∃ m, m ≠ c.Method ∧ MethodMatches r m c.Path := by
  constructor
  · intro h
    obtain ⟨m, hm⟩ := List.exists_mem_of_ne_nil _ h
    exact ⟨m, (mem_allowedMethodsIn r visited hv c m).1 hm⟩
  · rintro ⟨m, hm⟩ hnil
    have := (mem_allowedMethodsIn r visited hv c m).2 hm
    rw [hnil] at this
    exact List.not_mem_nil _ this

theorem allowedMethods_ne_nil_iff (r : Router) (c : Conn) :
    r.allowedMethods c ≠ [] ↔ ∃ m, m ≠ c.Method ∧ MethodMatches r m c.Path :=
  allowedMethodsIn_ne_nil_iff r r.Routes (List.Perm.refl _) c

theorem allowedMethodsIn_perm (r : Router) (v1 v2 : List (String × List Nat))
    (hv : v1.Perm v2) (c : Conn) :
    (r.allowedMethodsIn v1 c).Perm (r.allowedMethodsIn v2 c) :=
  List.Perm.flatMap_right _ hv

theorem HandleHTTPIn_of_miss (encode : Values → GoString) (visited : List (String × List Nat))
    (r : Router) (h : Option Handler)
    (c : Conn) (hmiss : r.match' c.Method c.Path = none) :
    r.HandleHTTPIn encode visited h c =
      match r.NotFound with
      | some nf => nf c
      | none =>
        if r.ForceMethodNotAllowed = true ∧ r.allowedMethodsIn visited c ≠ [] then
          Outcome.ok (methodNotAllowedResponse c (r.allowedMethodsIn visited c))
        else serve h c := by
  unfold Router.HandleHTTPIn
  simp only [hmiss]
  cases r.NotFound with
  | some nf => rfl
  | none =>
    simp only
    by_cases hf : r.ForceMethodNotAllowed = true
    · by_cases ha : r.allowedMethodsIn visited c = []
      · simp [hf, ha]
      · have hlen : (r.allowedMethodsIn visited c).length > 0 := List.length_pos.2 ha
        simp [hf, ha, hlen, methodNotAllowedResponse]
    · simp [hf]

theorem HandleHTTP_of_miss (encode : Values → GoString) (r : Router) (h : Option Handler)
    (c : Conn) (hmiss : r.match' c.Method c.Path = none) :
    r.HandleHTTP encode h c =
      match r.NotFound with
      | some nf => nf c
      | none =>
        if r.ForceMethodNotAllowed = true ∧ r.allowedMethods c ≠ [] then
          Outcome.ok (methodNotAllowedResponse c (r.allowedMethods c))
        else serve h c :=
  HandleHTTPIn_of_miss encode r.Routes r h c hmiss

theorem HeaderValues_methodNotAllowedResponse (c : Conn) (allowed : List String) :
    (methodNotAllowedResponse c allowed).HeaderValues "Allow" =
      c.HeaderValues "Allow" ++ [", ".intercalate allowed] := by
  simp only [methodNotAllowedResponse, Conn.HeaderValues, Conn.HeaderSet, Conn.WriteHeader,
    Conn.Write, List.filter_append, List.filter_filter, List.map_append]
  have hf : ∀ l : List (String × String),
      l.filter (fun a => decide (a.1 = "Allow") && (decide (a.1 ≠ "X-Content-Type-Options") &&
        decide (a.1 ≠ "Content-Type"))) = l.filter (fun e => decide (e.1 = "Allow")) := by
    intro l
    apply List.filter_congr
    intro x _
    by_cases hx : x.1 = "Allow"
    · rw [hx]; decide
    · simp [hx]
  rw [hf]
  simp

theorem perm_pair {α : Type} {a b : α} {l : List α} (h : l.Perm [a, b]) :
    l = [a, b] ∨ l = [b, a] := by
  have hlen := h.length_eq
  match l, hlen with
  | [x, y], _ =>
    have hx : x ∈ [a, b] := h.mem_iff.1 (List.mem_cons_self _ _)
    simp only [List.mem_cons, List.mem_singleton, List.not_mem_nil, or_false] at hx
    rcases hx with rfl | rfl
    · have := List.perm_singleton.1 h.cons_inv
      left; rw [List.cons.injEq] at this; rw [this.1]
    · have h2 : List.Perm [x, y] [x, a] := h.trans (List.Perm.swap _ _ _)
      have := List.perm_singleton.1 h2.cons_inv
      right; rw [List.cons.injEq] at this; rw [this.1]

theorem count_allowedMethodsIn (r : Router) (c : Conn) (m : String) :
    ∀ visited : List (String × List Nat),
      (r.allowedMethodsIn visited c).count m =
        if m = c.Method then 0
        else ((visited.filter (fun e => decide (e.1 = m))).flatMap
          (fun e => e.2.filter (routeMatches r.heap c.Path))).length := by
  intro visited
  induction visited with
  | nil => simp [Router.allowedMethodsIn]
  | cons e rest ih =>
    have hcons : r.allowedMethodsIn (e :: rest) c =
        (if e.1 = c.Method then []
          else (e.2.filter (routeMatches r.heap c.Path)).map (fun _ => e.1)) ++
          r.allowedMethodsIn rest c := by
      simp only [Router.allowedMethodsIn, List.flatMap_cons]
      rfl
    rw [hcons, List.count_append, ih]
    by_cases hm : m = c.Method
    · subst hm
      simp only [if_true]
      by_cases he : e.1 = c.Method
      · simp [he]
      · rw [if_neg he]
        simp only [Nat.add_zero]
        rw [List.count_eq_zero]
        intro hmem
        simp only [List.mem_map] at hmem
        obtain ⟨_, _, h⟩ := hmem
        exact he h
    · simp only [if_neg hm]
      by_cases he : e.1 = m
      · have hne : ¬ e.1 = c.Method := by rw [he]; exact hm
        rw [if_neg hne, List.filter_cons_of_pos (by simpa using he), List.flatMap_cons,
          List.length_append, he]
        congr 1
        rw [List.count_eq_length.2]
        · simp
        · intro b hb
          simp only [List.mem_map] at hb
          obtain ⟨_, _, h⟩ := hb
          exact h
      · rw [List.filter_cons_of_neg (by simpa using he)]
        by_cases hc : e.1 = c.Method
        · simp [hc]
        · rw [if_neg hc]
          have : List.count m ((e.2.filter (routeMatches r.heap c.Path)).map (fun _ => e.1)) = 0 := by
            rw [List.count_eq_zero]
            intro hmem
            simp only [List.mem_map] at hmem
            obtain ⟨_, _, h⟩ := hmem
            exact he h
          rw [this, Nat.zero_add]

theorem count_allowedMethodsIn_of_perm (r : Router) (visited : List (String × List Nat))
    (hv : visited.Perm r.Routes) (c : Conn) (m : String) :
    (r.allowedMethodsIn visited c).count m =
      if m = c.Method then 0 else r.matchingRoutes m c.Path := by
  rw [(allowedMethodsIn_perm r visited r.Routes hv c).count_eq, count_allowedMethodsIn]
  rfl

theorem routes_testRoutingMethodNotAllowed :
    testRoutingMethodNotAllowed.Routes = [("POST", [0]), ("PUT", [1])] := by rfl

theorem routes_twoPostRoutes : twoPostRoutes.Routes = [("POST", [0, 1])] := by rfl

/-- C13: when HandleHTTP finds no matching route, NotFound comes first, then
405, then the downstream handler. With NotFound set, the result is that of
NotFound on the request as it came in, whatever ForceMethodNotAllowed and the
routes of other methods are (the downstream handler is not used and no Allow
header is added); without NotFound, when ForceMethodNotAllowed is true and a
route of another method matches the path, the response is 405; in every other
case the result is that of the downstream handler on the request as it came
in. In TestNotFound the answer is 123 for "/foo" and "/bar", also with
ForceMethodNotAllowed set; in TestMethodPatch the downstream handler is called
and no status is written. -/
theorem HandleHTTP_miss_precedence :
    (∀ (encode : Values → GoString) (r : Router) (h : Option Handler) (c : Conn),
      r.match' c.Method c.Path = none →
      (∀ nf, r.NotFound = some nf → r.HandleHTTP encode h c = nf c) ∧
      (r.NotFound = none → r.ForceMethodNotAllowed = true →
        (∃ m, m ≠ c.Method ∧ MethodMatches r m c.Path) →
        ∃ c1, r.HandleHTTP encode h c = Outcome.ok c1 ∧ c1.Code = 405) ∧
      (r.NotFound = none →
        (r.ForceMethodNotAllowed = false ∨ ¬ ∃ m, m ≠ c.Method ∧ MethodMatches r m c.Path) →
        r.HandleHTTP encode h c = serve h c)) ∧
    responseOf (Router.HandleHTTP urlEncode (testNotFound false)
        (some (fun c => Outcome.ok (c.record 2))) { Method := "GET", Path := str "/foo" }) =
      some (123, "", [], []) ∧
    responseOf (Router.HandleHTTP urlEncode (testNotFound false)
        (some (fun c => Outcome.ok (c.record 2))) { Method := "GET", Path := str "/bar" }) =
      some (123, "", [], []) ∧
    responseOf (Router.HandleHTTP urlEncode (testNotFound true)
        (some (fun c => Outcome.ok (c.record 2))) { Method := "GET", Path := str "/bar" }) =
      some (123, "", [], []) ∧
    responseOf (Router.HandleHTTP urlEncode testMethodPatch
        (some (fun c => Outcome.ok (c.record 2))) { Method := "GET", Path := str "/foo/bar" }) =
      some (0, "", [], [2]) := by
  refine ⟨?_, by rfl, by rfl, by rfl, by rfl⟩
  intro encode r h c hmiss
  have hH := HandleHTTP_of_miss encode r h c hmiss
  refine ⟨?_, ?_, ?_⟩
  · intro nf hnf
    rw [hH, hnf]
  · intro hnf hf hm
    have ha := (allowedMethods_ne_nil_iff r c).2 hm
    refine ⟨methodNotAllowedResponse c (r.allowedMethods c), ?_, rfl⟩
    rw [hH, hnf]
    simp [hf, ha]
  · intro hnf hcase
    rw [hH, hnf]
    rcases hcase with hf | hm
    · simp [hf]
    · have ha : r.allowedMethods c = [] := by
        by_contra hne
        exact hm ((allowedMethods_ne_nil_iff r c).1 hne)
      simp [ha]

/-- Witness for C13: the router of TestNotFound with ForceMethodNotAllowed set
and a GET request for "/bar", which only a POST route matches. -/
theorem HandleHTTP_miss_precedence_witness :
    Router.HandleHTTP urlEncode (testNotFound true) none { Method := "GET", Path := str "/bar" } =
      Outcome.ok (({ Method := "GET", Path := str "/bar" } : Conn).WriteHeader 123) :=
  (HandleHTTP_miss_precedence.1 urlEncode (testNotFound true) none
    { Method := "GET", Path := str "/bar" } (by rfl)).1 _ rfl

/-- C12 (the code lists a method once for each of its matching routes, not
once): for a router with ForceMethodNotAllowed set and NotFound unset, and a
request that no route of its method and no "*" route matches while a route of
another method does, HandleHTTP answers 405 whatever the downstream handler is
and in whatever order the map of routes is visited, no handler is invoked, and
one Allow value is added that joins by ", " the list collected; a method is in
that list exactly when it is not the request's and has a route matching the
path, and it is there as many times as it has matching routes. With POST and
PUT routes on /foo/:name, GET /foo/keith gives Allow "POST, PUT" or
"PUT, POST", by the order of the visit, and no handler is called; with two
POST routes that both match the path, Allow is "POST, POST" in every run. -/
theorem HandleHTTP_method_not_allowed :
    (∀ (encode : Values → GoString) (r : Router) (visited : List (String × List Nat))
        (h : Option Handler) (c : Conn),
      visited.Perm r.Routes →
      r.ForceMethodNotAllowed = true →
      r.NotFound = none →
      r.match' c.Method c.Path = none →
      (∃ m, m ≠ c.Method ∧ MethodMatches r m c.Path) →
      (∃ c1, r.HandleHTTPIn encode visited h c = Outcome.ok c1 ∧
        c1.Code = 405 ∧
        c1.Events = c.Events ∧
        c1.HeaderValues "Allow" =
          c.HeaderValues "Allow" ++ [", ".intercalate (r.allowedMethodsIn visited c)]) ∧
      (∀ m, m ∈ r.allowedMethodsIn visited c ↔ m ≠ c.Method ∧ MethodMatches r m c.Path) ∧
      (∀ m, (r.allowedMethodsIn visited c).count m =
        if m = c.Method then 0 else r.matchingRoutes m c.Path)) ∧
    (∀ visited : List (String × List Nat), visited.Perm testRoutingMethodNotAllowed.Routes →
      responseOf (Router.HandleHTTPIn urlEncode visited testRoutingMethodNotAllowed
          (some (fun c => Outcome.ok (c.record 2))) { Method := "GET", Path := str "/foo/keith" }) =
        some (405, "Method Not Allowed\n", [("Allow", "POST, PUT"),
          ("Content-Type", "text/plain; charset=utf-8"),
          ("X-Content-Type-Options", "nosniff")], []) ∨
      responseOf (Router.HandleHTTPIn urlEncode visited testRoutingMethodNotAllowed
          (some (fun c => Outcome.ok (c.record 2))) { Method := "GET", Path := str "/foo/keith" }) =
        some (405, "Method Not Allowed\n", [("Allow", "PUT, POST"),
          ("Content-Type", "text/plain; charset=utf-8"),
          ("X-Content-Type-Options", "nosniff")], [])) ∧
    (∀ visited : List (String × List Nat), visited.Perm twoPostRoutes.Routes →
      twoPostRoutes.matchingRoutes "POST" (str "/foo/keith") = 2 ∧
      responseOf (Router.HandleHTTPIn urlEncode visited twoPostRoutes
          (some (fun c => Outcome.ok (c.record 2))) { Method := "GET", Path := str "/foo/keith" }) =
        some (405, "Method Not Allowed\n", [("Allow", "POST, POST"),
          ("Content-Type", "text/plain; charset=utf-8"),
          ("X-Content-Type-Options", "nosniff")], [])) := by
  refine ⟨?_, ?_, ?_⟩
  · intro encode r visited h c hv hf hnf hmiss hm
    have ha := (allowedMethodsIn_ne_nil_iff r visited hv c).2 hm
    refine ⟨⟨methodNotAllowedResponse c (r.allowedMethodsIn visited c), ?_, rfl, rfl,
      HeaderValues_methodNotAllowedResponse c _⟩, mem_allowedMethodsIn r visited hv c,
      count_allowedMethodsIn_of_perm r visited hv c⟩
    rw [HandleHTTPIn_of_miss encode visited r h c hmiss, hnf]
    simp [hf, ha]
  · intro visited hv
    rw [routes_testRoutingMethodNotAllowed] at hv
    rcases perm_pair hv with rfl | rfl
    · exact Or.inl (by rfl)
    · exact Or.inr (by rfl)
  · intro visited hv
    rw [routes_twoPostRoutes] at hv
    rw [List.perm_singleton.1 hv]
    exact ⟨by rfl, by rfl⟩

/-- Witness for C12: the router of TestRoutingMethodNotAllowed and the request
GET /foo/keith, in the run that visits PUT before POST. -/
theorem HandleHTTP_method_not_allowed_witness :
    "POST" ∈ testRoutingMethodNotAllowed.allowedMethodsIn [("PUT", [1]), ("POST", [0])]
        { Method := "GET", Path := str "/foo/keith" } ∧
      (testRoutingMethodNotAllowed.allowedMethodsIn [("PUT", [1]), ("POST", [0])]
        { Method := "GET", Path := str "/foo/keith" }).count "POST" = 1 :=
  have h := HandleHTTP_method_not_allowed.1 urlEncode testRoutingMethodNotAllowed
    [("PUT", [1]), ("POST", [0])] none { Method := "GET", Path := str "/foo/keith" }
    (List.Perm.swap _ _ _) rfl rfl (by rfl)
    ⟨"POST", by decide, ("POST", [0]), by decide, rfl, 0, by decide, by rfl⟩
  ⟨(h.2.1 "POST").2 ⟨by decide, ("POST", [0]), by decide, rfl, 0, by decide, by rfl⟩,
    h.2.2 "POST"⟩

/-! ## Theorems: `Tail` and empty captures -/

section TailLemmas

theorem TailLoop_eq_tailRest (pat path : GoString) (fuel : Nat) :
    ∀ (i j : Nat), i ≤ path.length → j ≤ pat.length →
      TailLoop pat path fuel i j =
        tailRest (pat[pat.length - 1]?) fuel (path.drop i) (pat.drop j) := by
  induction fuel with
  | zero => intro i j _ _; simp [TailLoop, tailRest]
  | succ fuel ih =>
    intro i j hi hj
    rw [TailLoop]
    by_cases h1 : i < path.length
    · rw [dif_pos h1]
      by_cases h2 : j < pat.length
      · rw [dif_pos h2, List.drop_eq_getElem_cons h2, List.drop_eq_getElem_cons h1]
        by_cases h3 : pat[j] = 58
        · rw [if_pos h3]
          simp only [tailRest, h3, if_true]
          rw [ih _ _ (match'_index_le _ _ _ (Nat.le_of_lt h1)) (match'_index_le _ _ _ h2)]
          rw [drop_match'_index, drop_match'_index, match'_next,
            List.drop_eq_getElem_cons h1]
        · rw [if_neg h3]
          simp only [tailRest, h3, if_false]
          by_cases h4 : path[i] = pat[j]
          · rw [if_pos h4, if_pos h4]
            exact ih _ _ h1 h2
          · rw [if_neg h4, if_neg h4]
      · rw [dif_neg h2, List.drop_eq_nil_of_le (Nat.le_of_not_lt h2)]
        rw [List.drop_eq_getElem_cons h1]
        simp only [tailRest]
    · rw [dif_neg h1, List.drop_eq_nil_of_le (Nat.le_of_not_lt h1)]
      simp only [tailRest]

theorem Tail_eq_tailRest (pat path : GoString) :
    Tail pat path =
      match tailRest (pat[pat.length - 1]?) (pat.length + 1) path pat with
      | some r => r
      | none => Except.error "vinxi: iteration bound used up" := by
  unfold Tail
  rw [TailLoop_eq_tailRest pat path _ 0 0 (Nat.zero_le _) (Nat.zero_le _)]
  rfl

theorem length_dropWhile_le_length (f : Nat → Bool) (l : List Nat) :
    (l.dropWhile f).length ≤ l.length := by
  induction l with
  | nil => simp
  | cons a l ih =>
    by_cases h : f a = true
    · simp only [List.dropWhile_cons, h, if_true, List.length_cons]; omega
    · simp [List.dropWhile_cons, h]

theorem tailRest_fuel (last : Option Nat) (fuel : Nat) :
    ∀ (pathR patR : GoString), patR.length < fuel →
      ∃ r, tailRest last fuel pathR patR = some r := by
  induction fuel with
  | zero => intro pathR patR h; omega
  | succ fuel ih =>
    intro pathR patR h
    cases pathR with
    | nil => exact ⟨_, rfl⟩
    | cons c pr =>
      cases patR with
      | nil =>
        cases last with
        | none => exact ⟨_, rfl⟩
        | some b =>
          by_cases hb : b = 47
          · exact ⟨Except.ok (c :: pr), by simp [tailRest, hb]⟩
          · exact ⟨Except.ok [], by simp [tailRest, hb]⟩
      | cons d r =>
        simp only [List.length_cons] at h
        by_cases hd : d = 58
        · simp only [tailRest, hd, if_true]
          apply ih
          have := length_dropWhile_le_length isAlnum r
          omega
        · by_cases hcd : c = d
          · simp only [tailRest, hd, hcd, if_true, if_false]
            exact ih _ _ (by omega)
          · exact ⟨Except.ok [], by simp [tailRest, hd, hcd]⟩

theorem tailRest_noslash (b : Nat) (hb : b ≠ 47) (fuel : Nat) :
    ∀ (pathR patR : GoString) (r : Except String GoString),
      tailRest (some b) fuel pathR patR = some r → r = Except.ok [] := by
  induction fuel with
  | zero => intro pathR patR r h; simp [tailRest] at h
  | succ fuel ih =>
    intro pathR patR r h
    cases pathR with
    | nil => simp only [tailRest, Option.some.injEq] at h; exact h.symm
    | cons c pr =>
      cases patR with
      | nil => simp only [tailRest, hb, if_false, Option.some.injEq] at h; exact h.symm
      | cons d rr =>
        by_cases hd : d = 58
        · simp only [tailRest, hd, if_true] at h
          exact ih _ _ _ h
        · by_cases hcd : c = d
          · simp only [tailRest, hd, hcd, if_true, if_false] at h
            exact ih _ _ _ h
          · simp only [tailRest, hd, hcd, if_false, Option.some.injEq] at h
            exact h.symm

theorem tailRest_literal_step (last : Option Nat) (fuel : Nat) (c : Nat) (pathR patR : GoString)
    (hc : c ≠ 58) :
    tailRest last (fuel + 1) (c :: pathR) (c :: patR) = tailRest last fuel pathR patR := by
  simp [tailRest, hc]

theorem tailRest_skip_literal (last : Option Nat) (pre : GoString) (hpre : ∀ c ∈ pre, c ≠ 58) :
    ∀ (fuel : Nat) (pathR patR : GoString),
      tailRest last (pre.length + fuel) (pre ++ pathR) (pre ++ patR) =
        tailRest last fuel pathR patR := by
  induction pre with
  | nil => intro fuel pathR patR; simp
  | cons c pre ih =>
    intro fuel pathR patR
    have hlen : (c :: pre).length + fuel = (pre.length + fuel) + 1 := by
      simp only [List.length_cons]; omega
    rw [hlen, List.cons_append, List.cons_append,
      tailRest_literal_step _ _ _ _ _ (hpre c (List.mem_cons_self _ _))]
    exact ih (fun d hd => hpre d (List.mem_cons_of_mem _ hd)) fuel pathR patR

theorem tailRest_capture_slash (last : Option Nat) (fuel : Nat) (name v rest patR : GoString)
    (hname : ∀ c ∈ name, isAlnum c = true) (hv : ∀ c ∈ v, c ≠ 47) :
    tailRest last (fuel + 1) (v ++ 47 :: rest) (58 :: (name ++ 47 :: patR)) =
      tailRest last fuel (47 :: rest) (47 :: patR) := by
  have hstopA : ∀ b, (47 :: patR).head? = some b → isAlnum b = false := by
    intro b hb
    simp only [List.head?_cons, Option.some.injEq] at hb
    subst hb
    decide
  have h1 : (name ++ 47 :: patR).dropWhile isAlnum = 47 :: patR :=
    dropWhile_append_stop _ _ _ hname hstopA
  have hvm : ∀ c ∈ v, matchPart 47 c = true := by
    intro c hc
    simp [matchPart, hv c hc]
  have hstopP : ∀ b, (47 :: rest).head? = some b → matchPart 47 b = false := by
    intro b hb
    simp only [List.head?_cons, Option.some.injEq] at hb
    subst hb
    simp [matchPart]
  cases hvs : v ++ 47 :: rest with
  | nil => simp at hvs
  | cons c r =>
    simp only [tailRest, if_true, h1, List.head?_cons, Option.getD_some]
    rw [← hvs, dropWhile_append_stop _ _ _ hvm hstopP]

end TailLemmas

/-- C19: Tail returns the unmatched suffix for a pattern ending in '/' and
the empty string otherwise. For every non-empty pattern that does not end in
'/', Tail(pat, path) returns "" for every path; and for every pattern
pre ++ ":" ++ name ++ "/" with pre a literal without ':' and name the name of
the capture (a name is made of letters, digits and '_': those are the bytes
that the matcher reads after ':'), and every path pre ++ v ++ "/" ++ rest with
v without '/', Tail returns exactly rest, which may contain '/'. The cases of
TestTail follow, the three of the claim first. -/
theorem Tail_returns_suffix :
    (∀ (pat path : GoString), pat ≠ [] → pat.getLast? ≠ some 47 →
      Tail pat path = Except.ok []) ∧
    (∀ (pre name v rest : GoString),
      (∀ c ∈ pre, c ≠ 58) →
      (∀ c ∈ name, isAlnum c = true) →
      (∀ c ∈ v, c ≠ 47) →
      Tail (pre ++ str ":" ++ name ++ str "/") (pre ++ v ++ str "/" ++ rest) =
        Except.ok rest) ∧
    Tail (str "/:a/") (str "/x/y/z") = Except.ok (str "y/z") ∧
    Tail (str "/hello/:title/") (str "/hello/mr/mizerany") = Except.ok (str "mizerany") ∧
    Tail (str "/:a") (str "/x/y/z") = Except.ok (str "") ∧
    Tail (str "/:a/") (str "/x") = Except.ok (str "") ∧
    Tail (str "/:a/") (str "/x/") = Except.ok (str "") ∧
    Tail (str "/b/:a") (str "/x/y/z") = Except.ok (str "") := by
  refine ⟨?_, ?_, by rfl, by rfl, by rfl, by rfl, by rfl, by rfl⟩
  · intro pat path hne hlast
    rw [Tail_eq_tailRest]
    have hpos : 0 < pat.length := List.length_pos.2 hne
    have hidx : pat[pat.length - 1]? = some (pat[pat.length - 1]) :=
      List.getElem?_eq_getElem (by omega)
    have hb : pat[pat.length - 1] ≠ 47 := by
      intro h
      apply hlast
      rw [List.getLast?_eq_getElem?, hidx, h]
    rw [hidx]
    obtain ⟨r, hr⟩ := tailRest_fuel (some (pat[pat.length - 1])) (pat.length + 1) path pat
      (Nat.lt_succ_self _)
    rw [hr, tailRest_noslash _ hb _ _ _ _ hr]
  · intro pre name v rest hpre hname hv
    have hpat : pre ++ str ":" ++ name ++ str "/" = pre ++ (58 :: (name ++ [47])) := by
      simp [str]
    have hpath : pre ++ v ++ str "/" ++ rest = pre ++ (v ++ 47 :: rest) := by
      simp [str]
    have hlast : (pre ++ (58 :: (name ++ [47])))[(pre ++ (58 :: (name ++ [47]))).length - 1]? =
        some 47 := by
      rw [← List.getLast?_eq_getElem?]
      simp [List.getLast?_append, List.getLast?_cons]
    have hfuel : (pre ++ (58 :: (name ++ [47]))).length + 1 =
        pre.length + (((name.length + 1) + 1) + 1) := by
      simp only [List.length_append, List.length_cons, List.length_nil]; omega
    rw [Tail_eq_tailRest, hpat, hpath, hlast, hfuel, tailRest_skip_literal _ pre hpre,
      tailRest_capture_slash _ _ name v rest [] hname hv,
      tailRest_literal_step _ _ _ _ _ (by decide)]
    cases rest with
    | nil => rfl
    | cons c r => rfl

/-- Witness for C19: the pattern "/hello/:title/" against "/hello/mr/mizerany". -/
theorem Tail_returns_suffix_witness :
    Tail (str "/hello/" ++ str ":" ++ str "title" ++ str "/")
        (str "/hello/" ++ str "mr" ++ str "/" ++ str "mizerany") =
      Except.ok (str "mizerany") :=
  Tail_returns_suffix.2.1 (str "/hello/") (str "title") (str "mr") (str "mizerany")
    (by decide) (by decide) (by decide)

/-- C20, as stated, fails for a capture that ends the pattern: "/foo/:name"
does not match "/foo/", the path with the empty string in place of the
capture. -/
theorem Match_trailing_capture_rejects_empty :
    str "/foo/:name" = str "/foo/" ++ str ":" ++ str "name" ∧
    Match (str "/foo/:name") (str "/foo/") = none := by
  refine ⟨by decide, by decide⟩

/-- C20, amended: a capture may bind the empty string when literal text
follows it. For a literal prefix pre without ':', a name of letters, digits
and '_', and a non-empty literal suffix suf without ':' whose first byte is
not a letter, digit or '_', Match(pre ++ ":" ++ name ++ suf, pre ++ suf)
succeeds with the capture bound to ""; "/foo/:a." matches "/foo/." with a
bound to "". A capture that ends the pattern does not bind the empty string:
Match(pre ++ ":" ++ name, pre) fails for every pre without ':' and every
name. -/
theorem Match_empty_capture :
    (∀ (pre name suf : GoString),
      (∀ c ∈ pre, c ≠ 58) →
      (∀ c ∈ name, isAlnum c = true) →
      (suf ≠ [] ∧ (∀ c ∈ suf, c ≠ 58) ∧ ∀ b, suf.head? = some b → isAlnum b = false) →
      Match (pre ++ str ":" ++ name ++ suf) (pre ++ suf) = some [(str ":" ++ name, [[]])]) ∧
    (∀ (pre name : GoString), (∀ c ∈ pre, c ≠ 58) →
      Match (pre ++ str ":" ++ name) pre = none) ∧
    Match (str "/foo/:a.") (str "/foo/.") = some [(str ":a", [str ""])] := by
  refine ⟨?_, ?_, by decide⟩
  · intro pre name suf hpre hname hsuf
    obtain ⟨hsuf0, hsuf1, hsuf3⟩ := hsuf
    have hpat : pre ++ str ":" ++ name ++ suf = pre ++ (58 :: (name ++ suf)) := by
      simp [str]
    have hfuel : (pre ++ (58 :: (name ++ suf))).length + 1 =
        pre.length + ((suf.length + (name.length + 1)) + 1) := by
      simp only [List.length_append, List.length_cons]; omega
    have hstep := matchRest_capture_step
      (trailingSlash (pre ++ (58 :: (name ++ suf)))) (suf.length + (name.length + 1))
      name suf [] [] hname hsuf3 (by simp) (by simpa using hsuf0)
    rw [List.nil_append] at hstep
    rw [Match_eq_matchRest, hpat, hfuel, matchRest_skip_literal _ pre hpre, hstep,
      matchRest_literal_same _ suf hsuf1]
    simp [valuesAdd, str]
  · intro pre name hpre
    have hpat : pre ++ str ":" ++ name = pre ++ (58 :: name) := by
      simp [str]
    have hfuel : (pre ++ (58 :: name)).length + 1 = pre.length + ((name.length + 1) + 1) := by
      simp only [List.length_append, List.length_cons]; omega
    have h := matchRest_skip_literal (trailingSlash (pre ++ (58 :: name))) pre hpre
      ((name.length + 1) + 1) [] (58 :: name) []
    rw [List.append_nil] at h
    rw [Match_eq_matchRest, hpat, hfuel, h]
    simp [matchRest]

/-- Witness for C20: the pattern "/foo/:a." against "/foo/.". -/
theorem Match_empty_capture_witness :
    Match (str "/foo/" ++ str ":" ++ str "a" ++ str ".") (str "/foo/" ++ str ".") =
      some [(str ":" ++ str "a", [[]])] :=
  Match_empty_capture.1 (str "/foo/") (str "a") (str ".") (by decide) (by decide)
    ⟨by decide, by decide, by decide⟩

/-! ## Theorems: the implicit non-slash route -/

section AddLemmas

theorem find?_congr_on {α : Type} (f g : α → Bool) (l : List α) (h : ∀ x ∈ l, f x = g x) :
    l.find? f = l.find? g := by
  induction l with
  | nil => rfl
  | cons a l ih =>
    rw [List.find?_cons, List.find?_cons, h a (List.mem_cons_self _ _),
      ih (fun x hx => h x (List.mem_cons_of_mem _ hx))]

theorem getElem?_append_of_lt (heap extra : List Route) (x : Nat) (hx : x < heap.length) :
    (heap ++ extra)[x]? = heap[x]? := by
  rw [List.getElem?_append_left hx]

theorem routeMatches_append (heap extra : List Route) (path : GoString) (x : Nat)
    (hx : x < heap.length) :
    routeMatches (heap ++ extra) path x = routeMatches heap path x := by
  unfold routeMatches
  rw [getElem?_append_of_lt heap extra x hx]

theorem routesOf_withRoute (r : Router) (method : String) (route : Route) :
    (r.withRoute method route).routesOf method = r.routesOf method ++ [r.heap.length] := by
  unfold Router.withRoute
  generalize r.routesOf method ++ [r.heap.length] = list
  unfold Router.routesOf
  simp only [lookup_routesSet]
  rfl

theorem heap_withRoute (r : Router) (method : String) (route : Route) :
    (r.withRoute method route).heap = r.heap ++ [route] := rfl

theorem layer_withRoute (r : Router) (method : String) (route : Route) :
    (r.withRoute method route).Layer = r.Layer := rfl

theorem refsValid_withRoute (r : Router) (method : String) (route : Route)
    (h : r.RefsValid method) : (r.withRoute method route).RefsValid method := by
  intro x hx
  rw [routesOf_withRoute, List.mem_append] at hx
  rw [heap_withRoute, List.length_append, List.length_singleton]
  rcases hx with hx | hx
  · exact Nat.lt_succ_of_lt (h x hx)
  · simp only [List.mem_singleton] at hx
    omega

theorem findPattern_eq (r : Router) (method : String) (pat : GoString) :
    r.findPattern method pat = (r.routesOf method).find? (patternAt r.heap pat) := rfl

theorem findPattern_withRoute (r : Router) (method : String) (route : Route) (pat : GoString)
    (h : r.RefsValid method) :
    (r.withRoute method route).findPattern method pat =
      match r.findPattern method pat with
      | some q => some q
      | none => if route.Pattern = pat then some r.heap.length else none := by
  rw [findPattern_eq, findPattern_eq, routesOf_withRoute, heap_withRoute, List.find?_append]
  have hcongr : (r.routesOf method).find? (patternAt (r.heap ++ [route]) pat) =
      (r.routesOf method).find? (patternAt r.heap pat) := by
    apply find?_congr_on
    intro x hx
    unfold patternAt
    rw [getElem?_append_of_lt r.heap [route] x (h x hx)]
  rw [hcongr]
  cases (r.routesOf method).find? (patternAt r.heap pat) with
  | some q => rfl
  | none =>
    simp only [Option.none_or, List.find?_cons, List.find?_nil]
    have hn : patternAt (r.heap ++ [route]) pat r.heap.length = decide (route.Pattern = pat) := by
      unfold patternAt
      simp
    rw [hn]
    by_cases hp : route.Pattern = pat <;> simp [hp]

/-- The router after a new route was appended for `method`. -/
theorem addLoop_of_new (method : String) (fuel : Nat) (r : Router) (pat : GoString)
    (handler : RouteHandler) (hnew : r.findPattern method pat = none) :
    Router.addLoop method (fuel + 1) r pat handler =
      if pat.length > 0 ∧ pat.getLast? = some 47 then
        ((Router.addLoop method fuel
          (r.withRoute method { Pattern := pat, Layer := r.routeLayer, Handler := handler })
          pat.dropLast (RouteHandler.route r.heap.length)).1, r.heap.length)
      else
        (r.withRoute method { Pattern := pat, Layer := r.routeLayer, Handler := handler },
          r.heap.length) := by
  rw [Router.addLoop]
  simp only [hnew]
  rfl

theorem addLoop_of_found (method : String) (fuel : Nat) (r : Router) (pat : GoString)
    (handler : RouteHandler) (p1 : Nat) (hold : r.findPattern method pat = some p1) :
    Router.addLoop method (fuel + 1) r pat handler = (r, p1) := by
  rw [Router.addLoop]
  simp only [hold]

theorem addLoop_extends (method : String) (fuel : Nat) :
    ∀ (r : Router) (pat : GoString) (handler : RouteHandler),
      ∃ extra exrefs,
        (Router.addLoop method fuel r pat handler).1.heap = r.heap ++ extra ∧
        (Router.addLoop method fuel r pat handler).1.routesOf method =
          r.routesOf method ++ exrefs ∧
        (Router.addLoop method fuel r pat handler).1.Layer = r.Layer := by
  induction fuel with
  | zero =>
    intro r pat handler
    exact ⟨[], [], by simp [Router.addLoop], by simp [Router.addLoop], rfl⟩
  | succ fuel ih =>
    intro r pat handler
    cases hf : r.findPattern method pat with
    | some p1 =>
      rw [addLoop_of_found method fuel r pat handler p1 hf]
      exact ⟨[], [], by simp, by simp, rfl⟩
    | none =>
      rw [addLoop_of_new method fuel r pat handler hf]
      by_cases hc : pat.length > 0 ∧ pat.getLast? = some 47
      · rw [if_pos hc]
        obtain ⟨extra, exrefs, h1, h2, h3⟩ := ih
          (r.withRoute method { Pattern := pat, Layer := r.routeLayer, Handler := handler })
          pat.dropLast (RouteHandler.route r.heap.length)
        refine ⟨({ Pattern := pat, Layer := r.routeLayer, Handler := handler } : Route) :: extra,
          r.heap.length :: exrefs, ?_, ?_, ?_⟩
        · simp only [h1, heap_withRoute]; simp
        · simp only [h2, routesOf_withRoute]; simp
        · simp only [h3, layer_withRoute]
      · rw [if_neg hc]
        exact ⟨[({ Pattern := pat, Layer := r.routeLayer, Handler := handler } : Route)],
          [r.heap.length], rfl, routesOf_withRoute _ _ _, rfl⟩

theorem add_slash_of_old (r : Router) (method : String) (p : GoString) (handler : RouteHandler)
    (q : Nat) (hslash : r.findPattern method (p ++ [47]) = none)
    (hold : r.findPattern method p = some q) (hv : r.RefsValid method) :
    r.add method (p ++ [47]) handler =
      (r.withRoute method { Pattern := p ++ [47], Layer := r.routeLayer, Handler := handler },
        r.heap.length) := by
  unfold Router.add
  have hlen : (p ++ [47]).length + 1 = (p.length + 1) + 1 := by simp
  rw [hlen, addLoop_of_new method _ r _ handler hslash]
  have hc : (p ++ [47]).length > 0 ∧ (p ++ [47]).getLast? = some 47 := by simp
  rw [if_pos hc, List.dropLast_concat]
  have hf := findPattern_withRoute r method
    { Pattern := p ++ [47], Layer := r.routeLayer, Handler := handler } p hv
  rw [hold] at hf
  rw [addLoop_of_found method _ _ _ _ q hf]

theorem add_slash_of_new (r : Router) (method : String) (p : GoString) (handler : RouteHandler)
    (hslash : r.findPattern method (p ++ [47]) = none)
    (hnew : r.findPattern method p = none) (hv : r.RefsValid method) :
    ∃ extra exrefs,
      (r.add method (p ++ [47]) handler).2 = r.heap.length ∧
      (r.add method (p ++ [47]) handler).1.heap =
        r.heap ++ ({ Pattern := p ++ [47], Layer := r.routeLayer, Handler := handler } : Route) ::
          ({ Pattern := p, Layer := r.routeLayer,
             Handler := RouteHandler.route r.heap.length } : Route) :: extra ∧
      (r.add method (p ++ [47]) handler).1.routesOf method =
        r.routesOf method ++ r.heap.length :: (r.heap.length + 1) :: exrefs ∧
      (r.add method (p ++ [47]) handler).1.Layer = r.Layer := by
  unfold Router.add
  have hlen : (p ++ [47]).length + 1 = (p.length + 1) + 1 := by simp
  rw [hlen, addLoop_of_new method _ r _ handler hslash]
  have hc : (p ++ [47]).length > 0 ∧ (p ++ [47]).getLast? = some 47 := by simp
  rw [if_pos hc, List.dropLast_concat]
  have hf := findPattern_withRoute r method
    { Pattern := p ++ [47], Layer := r.routeLayer, Handler := handler } p hv
  rw [hnew] at hf
  have hne : ¬ (p ++ [47] = p) := by
    intro h
    have := congrArg List.length h
    simp at this
  simp only [hne, if_false] at hf
  rw [addLoop_of_new method _ _ _ _ hf]
  by_cases hc2 : p.length > 0 ∧ p.getLast? = some 47
  · rw [if_pos hc2]
    obtain ⟨extra, exrefs, h1, h2, h3⟩ := addLoop_extends method p.length
      ((r.withRoute method
        { Pattern := p ++ [47], Layer := r.routeLayer, Handler := handler }).withRoute method
        { Pattern := p, Layer := (r.withRoute method
            { Pattern := p ++ [47], Layer := r.routeLayer, Handler := handler }).routeLayer,
          Handler := RouteHandler.route r.heap.length })
      p.dropLast (RouteHandler.route (r.withRoute method
        { Pattern := p ++ [47], Layer := r.routeLayer, Handler := handler }).heap.length)
    refine ⟨extra, exrefs, rfl, ?_, ?_, ?_⟩
    · rw [h1]
      simp only [heap_withRoute, List.append_assoc, List.cons_append, List.nil_append]
      rfl
    · rw [h2]
      simp only [routesOf_withRoute, heap_withRoute, List.append_assoc, List.cons_append,
        List.nil_append, List.length_append, List.length_singleton]
    · rw [h3]
      rfl
  · rw [if_neg hc2]
    refine ⟨[], [], rfl, ?_, ?_, rfl⟩
    · simp only [heap_withRoute, List.append_assoc, List.cons_append, List.nil_append]
      rfl
    · simp only [routesOf_withRoute, heap_withRoute, List.append_assoc, List.cons_append,
        List.nil_append, List.length_append, List.length_singleton]

theorem getElem?_append_length (heap rest : List Route) (a : Route) :
    (heap ++ a :: rest)[heap.length]? = some a := by
  rw [List.getElem?_append_right (Nat.le_refl _), Nat.sub_self]
  simp

theorem getElem?_append_length_succ (heap rest : List Route) (a b : Route) :
    (heap ++ a :: b :: rest)[heap.length + 1]? = some b := by
  rw [List.getElem?_append_right (Nat.le_add_right _ _), Nat.add_sub_cancel_left]
  simp

theorem serveRoute_succ (heap : List Route) (fuel ref : Nat) (rt : Route)
    (h : heap[ref]? = some rt) :
    serveRoute heap (fuel + 1) ref =
      match rt.Handler with
      | RouteHandler.unset => rt.Layer.Run RequestPhase none
      | RouteHandler.fn g => rt.Layer.Run RequestPhase (some g)
      | RouteHandler.route ref1 => rt.Layer.Run RequestPhase (some (serveRoute heap fuel ref1)) := by
  rw [serveRoute, h]

theorem set_append_length (heap rest : List Route) (a b : Route) :
    (heap ++ a :: rest).set heap.length b = heap ++ b :: rest := by
  induction heap with
  | nil => rfl
  | cons x xs ih => simp [List.set, ih]

theorem onRoute_of_heap (r1 : Router) (heap rest : List Route) (a : Route) (f : Route → Route)
    (hheap : r1.heap = heap ++ a :: rest) :
    (r1.onRoute heap.length f).heap = heap ++ f a :: rest ∧
    (r1.onRoute heap.length f).Routes = r1.Routes ∧
    (r1.onRoute heap.length f).Layer = r1.Layer := by
  unfold Router.onRoute
  have hget : r1.heap[heap.length]? = some a := by
    rw [hheap]
    exact getElem?_append_length heap rest a
  rw [hget]
  refine ⟨?_, rfl, rfl⟩
  show r1.heap.set heap.length (f a) = heap ++ f a :: rest
  rw [hheap, set_append_length]

theorem routeLayer_Run_of_ok (l : Layer) (h : Handler) (c c1 : Conn) (hc : h c = Outcome.ok c1) :
    (Layer.New.SetParent (some l)).Run "request" (some h) c = Outcome.ok c1 := by
  rw [Run_eq, runBody_request]
  have hrun : (Layer.New.SetParent (some l)).run "request" (some h) = h := rfl
  rw [hrun, hc]
  rfl

theorem noMatch_append (heap extra : List Route) (routes : List Nat) (path : GoString)
    (hv : ∀ x ∈ routes, x < heap.length) (hno : NoMatch heap routes path) :
    routes.find? (routeMatches (heap ++ extra) path) = none := by
  rw [List.find?_eq_none]
  intro x hx
  rw [routeMatches_append heap extra path x (hv x hx), hno x hx]
  simp

theorem firstMatch_append (heap extra : List Route) (routes more : List Nat) (path : GoString)
    (ref : Nat) (hv : ∀ x ∈ routes, x < heap.length)
    (hfirst : IsFirstMatch heap routes path ref) :
    (routes ++ more).find? (routeMatches (heap ++ extra) path) = some ref := by
  have h1 : routes.find? (routeMatches (heap ++ extra) path) =
      routes.find? (routeMatches heap path) := by
    apply find?_congr_on
    intro x hx
    exact routeMatches_append heap extra path x (hv x hx)
  rw [List.find?_append, h1, (find?_eq_some_iff_first heap routes path ref).2 hfirst]
  rfl

end AddLemmas

/-- C11, as stated, fails when a route registered earlier under the method
matches the path too: with Get("/:x") registered before Get("/foo/"), the
pattern "/foo" is registered nowhere before, the path "/foo" matches it, and
the request GET /foo is dispatched to the route of "/:x" (index 0, whose
handler counts the event 1), not to the handler set on the route returned by
Get("/foo/") (which counts the event 2). -/
theorem Get_slash_after_overlapping_route :
    (Router.New.GetHandle (str "/:x") (counting 1)).findPattern "GET" (str "/foo") = none ∧
    Match (str "/foo") (str "/foo") = some [] ∧
    captureBeforeSlash.FindRoute "GET" (str "/foo") = Except.ok 0 ∧
    responseOf (Router.HandleHTTP urlEncode captureBeforeSlash none
      { Method := "GET", Path := str "/foo" }) = some (0, "", [], [1]) := by
  refine ⟨by rfl, by rfl, by rfl, by rfl⟩

/-- C11, amended: registering a pattern that ends in '/' under a method also
makes its non-slash form dispatch to the same route. After Get(p ++ "/") with
a handler h, on a router in which neither p ++ "/" nor p is registered under
GET and no GET route registered so far matches the path, a GET request whose
path matches p finds the new route or its non-slash twin, and serving the
route found ends in h: it is the run of the route's layer (a new layer under
the router's) around h, once or twice, and returns what h returns. The routes
of the GET list are allocated routes, as every `*Route` is in Go. If p was
registered under GET before, the slash registration adds one route only, and a
request whose first matching GET route was ref before is still dispatched to
ref, which is unchanged. In TestImplicitRedirect GET /foo reaches the handler
of "/foo/" when only "/foo/" was registered and the handler of "/foo" when
"/foo" was registered first. -/
theorem Get_slash_registers_non_slash :
    (∀ (r : Router) (p path : GoString) (h : Handler),
      r.RefsValid "GET" →
      r.findPattern "GET" (p ++ str "/") = none →
      r.findPattern "GET" p = none →
      NoMatch r.heap (r.routesOf "GET") path →
      (Match p path).isSome = true →
      ∃ ref, (r.GetHandle (p ++ str "/") h).FindRoute "GET" path = Except.ok ref ∧
        (serveRoute (r.GetHandle (p ++ str "/") h).heap
            ((r.GetHandle (p ++ str "/") h).heap.length + 1) ref =
              r.routeLayer.Run "request" (some h) ∨
          serveRoute (r.GetHandle (p ++ str "/") h).heap
            ((r.GetHandle (p ++ str "/") h).heap.length + 1) ref =
              r.routeLayer.Run "request" (some (r.routeLayer.Run "request" (some h)))) ∧
        ∀ c c1, h c = Outcome.ok c1 →
          serveRoute (r.GetHandle (p ++ str "/") h).heap
            ((r.GetHandle (p ++ str "/") h).heap.length + 1) ref c = Outcome.ok c1) ∧
    (∀ (r : Router) (p path : GoString) (h : Handler) (q ref : Nat),
      r.RefsValid "GET" →
      r.findPattern "GET" (p ++ str "/") = none →
      r.findPattern "GET" p = some q →
      IsFirstMatch r.heap (r.routesOf "GET") path ref →
      (r.GetHandle (p ++ str "/") h).routesOf "GET" = r.routesOf "GET" ++ [r.heap.length] ∧
      (r.GetHandle (p ++ str "/") h).FindRoute "GET" path = Except.ok ref ∧
      (r.GetHandle (p ++ str "/") h).heap[ref]? = r.heap[ref]?) ∧
    responseOf (Router.HandleHTTP urlEncode testImplicitRedirect none
      { Method := "GET", Path := str "/foo" }) = some (0, "", [], [1]) ∧
    responseOf (Router.HandleHTTP urlEncode testImplicitRedirectExplicit none
      { Method := "GET", Path := str "/foo" }) = some (0, "", [], [1]) ∧
    responseOf (Router.HandleHTTP urlEncode testImplicitRedirectExplicit none
      { Method := "GET", Path := str "/foo/" }) = some (0, "", [], [2]) ∧
    responseOf (Router.HandleHTTP urlEncode testImplicitRedirectCapture none
      { Method := "GET", Path := str "/hello/bob", RawQuery := str "a=b" }) =
        some (0, "", [], [1]) := by
  refine ⟨?_, ?_, by rfl, by rfl, by rfl, by rfl⟩
  · intro r p path h hv hslash hnew hno hmatch
    have hstr : p ++ str "/" = p ++ [47] := rfl
    rw [hstr] at hslash ⊢
    obtain ⟨extra, exrefs, h2, hheap, hroutes, hlayer⟩ :=
      add_slash_of_new r "GET" p RouteHandler.unset hslash hnew hv
    have hG : r.GetHandle (p ++ [47]) h =
        (r.add "GET" (p ++ [47]) RouteHandler.unset).1.onRoute r.heap.length
          (fun rt => rt.Handle h) := by
      unfold Router.GetHandle Router.Get
      simp only [h2]
    obtain ⟨hheap2, hR2, _⟩ := onRoute_of_heap _ r.heap _ _ (fun rt => rt.Handle h) hheap
    rw [← hG] at hheap2 hR2
    have hroutes2 : (r.GetHandle (p ++ [47]) h).routesOf "GET" =
        r.routesOf "GET" ++ r.heap.length :: (r.heap.length + 1) :: exrefs := by
      rw [← hroutes]
      unfold Router.routesOf
      rw [hR2]
    have hserve1 : serveRoute (r.GetHandle (p ++ [47]) h).heap
        ((r.GetHandle (p ++ [47]) h).heap.length + 1) r.heap.length =
          r.routeLayer.Run "request" (some h) := by
      rw [hheap2, serveRoute_succ _ _ _ _ (getElem?_append_length _ _ _)]
      rfl
    have hserve2 : serveRoute (r.GetHandle (p ++ [47]) h).heap
        ((r.GetHandle (p ++ [47]) h).heap.length + 1) (r.heap.length + 1) =
          r.routeLayer.Run "request" (some (r.routeLayer.Run "request" (some h))) := by
      have hlen : (r.GetHandle (p ++ [47]) h).heap.length = (r.heap.length + extra.length + 1) + 1 := by
        rw [hheap2]
        simp only [List.length_append, List.length_cons]
        omega
      rw [hlen, hheap2, serveRoute_succ _ _ _ _ (getElem?_append_length_succ _ _ _ _)]
      simp only
      rw [serveRoute_succ _ _ _ _ (getElem?_append_length _ _ _)]
      rfl
    have hfind : (r.GetHandle (p ++ [47]) h).FindRoute "GET" path = Except.ok r.heap.length ∨
        (r.GetHandle (p ++ [47]) h).FindRoute "GET" path = Except.ok (r.heap.length + 1) := by
      rw [FindRoute_eq, hroutes2, hheap2, List.find?_append,
        noMatch_append r.heap _ _ path hv hno]
      simp only [Option.none_or, List.find?_cons]
      have hm1 : routeMatches (r.heap ++
          (({ Pattern := p ++ [47], Layer := r.routeLayer, Handler := RouteHandler.unset } :
            Route).Handle h) ::
          ({ Pattern := p, Layer := r.routeLayer,
             Handler := RouteHandler.route r.heap.length } : Route) :: extra) path
          (r.heap.length + 1) = true := by
        unfold routeMatches
        rw [getElem?_append_length_succ]
        exact hmatch
      cases hm0 : routeMatches (r.heap ++
          (({ Pattern := p ++ [47], Layer := r.routeLayer, Handler := RouteHandler.unset } :
            Route).Handle h) ::
          ({ Pattern := p, Layer := r.routeLayer,
             Handler := RouteHandler.route r.heap.length } : Route) :: extra) path
          r.heap.length with
      | true => left; rfl
      | false => right; rw [hm1]
    rcases hfind with hf | hf
    · refine ⟨r.heap.length, hf, Or.inl hserve1, ?_⟩
      intro c c1 hc
      rw [hserve1]
      exact routeLayer_Run_of_ok _ h c c1 hc
    · refine ⟨r.heap.length + 1, hf, Or.inr hserve2, ?_⟩
      intro c c1 hc
      rw [hserve2]
      exact routeLayer_Run_of_ok _ _ c c1 (routeLayer_Run_of_ok _ h c c1 hc)
  · intro r p path h q ref hv hslash hold hfirst
    have hstr : p ++ str "/" = p ++ [47] := rfl
    rw [hstr] at hslash ⊢
    have hadd := add_slash_of_old r "GET" p RouteHandler.unset q hslash hold hv
    have hG : r.GetHandle (p ++ [47]) h =
        (r.withRoute "GET"
          { Pattern := p ++ [47], Layer := r.routeLayer, Handler := RouteHandler.unset }).onRoute
          r.heap.length (fun rt => rt.Handle h) := by
      unfold Router.GetHandle Router.Get
      simp only [hadd]
    obtain ⟨hheap2, hR2, _⟩ := onRoute_of_heap
      (r.withRoute "GET"
        { Pattern := p ++ [47], Layer := r.routeLayer, Handler := RouteHandler.unset })
      r.heap [] _ (fun rt => rt.Handle h) (heap_withRoute _ _ _)
    rw [← hG] at hheap2 hR2
    have hroutes2 : (r.GetHandle (p ++ [47]) h).routesOf "GET" =
        r.routesOf "GET" ++ [r.heap.length] := by
      rw [← routesOf_withRoute r "GET"
        { Pattern := p ++ [47], Layer := r.routeLayer, Handler := RouteHandler.unset }]
      unfold Router.routesOf
      rw [hR2]
    have hlt : ref < r.heap.length := by
      obtain ⟨before, after, hl, _, _⟩ := hfirst
      apply hv
      rw [hl]
      simp
    refine ⟨hroutes2, ?_, ?_⟩
    · rw [FindRoute_eq, hroutes2, hheap2,
        firstMatch_append r.heap _ _ _ path ref hv hfirst]
    · rw [hheap2, getElem?_append_of_lt _ _ _ hlt]

/-- Witness for C11: Get("/foo/") with a handler on a new router and the
request GET /foo, which finds a route whose serving counts the call of that
handler. -/
theorem Get_slash_registers_non_slash_witness :
    ∃ ref, (Router.New.GetHandle (str "/foo" ++ str "/") (counting 1)).FindRoute "GET"
        (str "/foo") = Except.ok ref ∧
      serveRoute (Router.New.GetHandle (str "/foo" ++ str "/") (counting 1)).heap
        ((Router.New.GetHandle (str "/foo" ++ str "/") (counting 1)).heap.length + 1) ref {} =
          Outcome.ok (({} : Conn).record 1) :=
  match Get_slash_registers_non_slash.1 Router.New (str "/foo") (str "/foo") (counting 1)
    (fun x hx => absurd hx (List.not_mem_nil x)) rfl rfl
    (fun x hx => absurd hx (List.not_mem_nil x)) (by decide) with
  | ⟨ref, hf, _, hs⟩ => ⟨ref, hf, hs {} _ rfl⟩

/-! ## Theorems: captures, substitution and totality of `Match` and `Tail` -/

section SubstLemmas

theorem tokensFrom_true (r : GoString) :
    tokensFrom true r = tokensFrom false (r.dropWhile isAlnum) := by
  induction r with
  | nil => rfl
  | cons d r ih =>
    by_cases h : isAlnum d = true
    · rw [List.dropWhile_cons, if_pos h, ← ih]
      simp [tokensFrom, h]
    · have hf : isAlnum d = false := by simpa using h
      rw [List.dropWhile_cons, if_neg h]
      simp [tokensFrom, hf]

theorem tokens_capture (r : GoString) :
    tokens (58 :: r) =
      Token.capture (r.takeWhile isAlnum) :: tokens (r.dropWhile isAlnum) := by
  unfold tokens
  rw [← tokensFrom_true]
  simp [tokensFrom]

theorem tokens_lit (d : Nat) (r : GoString) (hd : d ≠ 58) :
    tokens (d :: r) = Token.lit d :: tokens r := by
  unfold tokens
  simp [tokensFrom, hd]

theorem valuesOf_valuesAdd (p : Values) (key value k : GoString) :
    valuesOf (valuesAdd p key value) k =
      if k = key then valuesOf p k ++ [value] else valuesOf p k := by
  induction p with
  | nil =>
    by_cases hk : k = key
    · subst hk; simp [valuesOf, valuesAdd, List.lookup]
    · have hb : (k == key) = false := by simpa using hk
      simp [valuesOf, valuesAdd, List.lookup, hk, hb]
  | cons e rest ih =>
    obtain ⟨k1, vs⟩ := e
    unfold valuesOf at ih ⊢
    by_cases h1 : k1 = key
    · subst h1
      by_cases hk : k = k1
      · subst hk; simp [valuesAdd, List.lookup]
      · have hb : (k == k1) = false := by simpa using hk
        simp [valuesAdd, List.lookup, hk, hb]
    · by_cases hk1 : k = k1
      · subst hk1
        simp [valuesAdd, List.lookup, h1]
      · have hb : (k == k1) = false := by simpa using hk1
        simp only [valuesAdd, h1, if_false, List.lookup, hb]
        exact ih

theorem valuesOf_addCaptures (l : List (GoString × GoString)) (p : Values) (k : GoString) :
    valuesOf (addCaptures p l) k =
      valuesOf p k ++ (l.filter (fun e => decide (58 :: e.1 = k))).map Prod.snd := by
  induction l generalizing p with
  | nil => simp [addCaptures]
  | cons e rest ih =>
    have hstep : addCaptures p (e :: rest) = addCaptures (valuesAdd p (58 :: e.1) e.2) rest := rfl
    rw [hstep, ih, valuesOf_valuesAdd, List.filter_cons]
    by_cases hk : k = 58 :: e.1
    · subst hk; simp
    · have hk' : ¬ (58 :: e.1 = k) := fun h => hk h.symm
      simp [hk, hk']

theorem popValues_of_filter (names : List GoString) :
    ∀ (vals : List GoString) (look : GoString → List GoString),
      vals.length = names.length →
      (∀ k, look k = ((names.zip vals).filter (fun e => decide (e.1 = k))).map Prod.snd) →
      popValues names look = vals := by
  induction names with
  | nil =>
    intro vals look hlen _
    cases vals with
    | nil => rfl
    | cons v vs => simp at hlen
  | cons n ns ih =>
    intro vals look hlen hlook
    cases vals with
    | nil => simp at hlen
    | cons v vs =>
      have hn : look n = v :: ((ns.zip vs).filter (fun e => decide (e.1 = n))).map Prod.snd := by
        rw [hlook n]; simp
      simp only [popValues, hn, List.headD_cons]
      congr 1
      apply ih vs _ (by simpa using hlen)
      intro k
      by_cases hk : k = n
      · subst hk
        simp only [if_true, hn, List.tail_cons]
      · have hk' : ¬ (n = k) := fun h => hk h.symm
        simp only [hk, if_false]
        rw [hlook k]
        simp [hk']

theorem matchRest_subst (sl : Bool) (last : Option Nat) (fuel : Nat) :
    ∀ (pathR patR : GoString) (p caps : Values),
      matchRest sl fuel pathR patR p = some (some caps) →
      ∃ vals rest,
        vals.length = (captureNames (tokens patR)).length ∧
        caps = addCaptures p ((captureNames (tokens patR)).zip vals) ∧
        pathR = substitute (tokens patR) vals ++ rest ∧
        (rest ≠ [] → sl = true) ∧
        (last = some 47 → tailRest last fuel pathR patR = some (Except.ok rest)) := by
  induction fuel with
  | zero => intro pathR patR p caps h; simp [matchRest] at h
  | succ fuel ih =>
    intro pathR patR p caps h
    cases pathR with
    | nil =>
      by_cases hp : patR = []
      · subst hp
        simp [matchRest] at h
        subst h
        exact ⟨[], [], rfl, rfl, rfl, fun hne => absurd rfl hne, fun _ => rfl⟩
      · simp [matchRest, hp] at h
    | cons c pr =>
      cases patR with
      | nil =>
        cases sl with
        | false => simp [matchRest] at h
        | true =>
          simp [matchRest] at h
          subst h
          refine ⟨[], c :: pr, rfl, rfl, rfl, fun _ => rfl, ?_⟩
          intro hl
          subst hl
          simp [tailRest]
      | cons d r =>
        by_cases hd : d = 58
        · subst hd
          simp only [matchRest, if_true] at h
          obtain ⟨vals, rest, hlen, hcaps, hpath, hrest, htail⟩ := ih _ _ _ _ h
          refine ⟨(c :: pr).takeWhile (matchPart (((r.dropWhile isAlnum).head?).getD 0)) :: vals,
            rest, ?_, ?_, ?_, hrest, ?_⟩
          · rw [tokens_capture]
            simp [captureNames, hlen]
          · rw [tokens_capture]
            exact hcaps
          · rw [tokens_capture]
            simp only [substitute, List.append_assoc]
            rw [← hpath, List.takeWhile_append_dropWhile]
          · intro hl
            simp only [tailRest, if_true]
            exact htail hl
        · by_cases hcd : c = d
          · subst hcd
            simp only [matchRest, hd, if_false, if_true] at h
            obtain ⟨vals, rest, hlen, hcaps, hpath, hrest, htail⟩ := ih _ _ _ _ h
            refine ⟨vals, rest, ?_, ?_, ?_, hrest, ?_⟩
            · rw [tokens_lit c r hd]; exact hlen
            · rw [tokens_lit c r hd]; exact hcaps
            · rw [tokens_lit c r hd]
              simp only [substitute, List.cons_append]
              rw [← hpath]
            · intro hl
              simp only [tailRest, hd, if_false, if_true]
              exact htail hl
          · simp [matchRest, hd, hcd] at h

theorem getElem?_length_sub_one (pat : GoString) : pat[pat.length - 1]? = pat.getLast? := by
  rw [List.getLast?_eq_getElem?]

/-- What a successful `Match` returns, by the pieces of the pattern. -/
theorem Match_subst (pat path : GoString) (caps : Values) (h : Match pat path = some caps) :
    ∃ vals rest,
      vals.length = (captureNames (tokens pat)).length ∧
      caps = addCaptures [] ((captureNames (tokens pat)).zip vals) ∧
      path = substitute (tokens pat) vals ++ rest ∧
      (rest ≠ [] → pat.getLast? = some 47) ∧
      (pat.getLast? = some 47 → Tail pat path = Except.ok rest) := by
  rw [Match_eq_matchRest] at h
  cases hm : matchRest (trailingSlash pat) (pat.length + 1) path pat [] with
  | none => rw [hm] at h; cases h
  | some r =>
    rw [hm] at h
    simp only at h
    subst h
    obtain ⟨vals, rest, hlen, hcaps, hpath, hrest, htail⟩ :=
      matchRest_subst (trailingSlash pat) (pat[pat.length - 1]?) (pat.length + 1) path pat []
        caps hm
    refine ⟨vals, rest, hlen, hcaps, hpath, ?_, ?_⟩
    · intro hne
      exact ((trailingSlash_eq_true_iff pat).1 (hrest hne)).2
    · intro hl
      rw [Tail_eq_tailRest, htail (by rw [getElem?_length_sub_one]; exact hl)]

theorem fill_of_addCaptures (pat : GoString) (vals : List GoString)
    (hlen : vals.length = (captureNames (tokens pat)).length) :
    fill pat (addCaptures [] ((captureNames (tokens pat)).zip vals)) =
      substitute (tokens pat) vals := by
  unfold fill
  rw [popValues_of_filter (captureNames (tokens pat)) vals _ hlen]
  intro k
  rw [valuesOf_addCaptures]
  simp [valuesOf]

theorem matchRest_fuel (sl : Bool) (fuel : Nat) :
    ∀ (pathR patR : GoString) (p : Values), patR.length < fuel →
      ∃ r, matchRest sl fuel pathR patR p = some r := by
  induction fuel with
  | zero => intro pathR patR p h; omega
  | succ fuel ih =>
    intro pathR patR p h
    cases pathR with
    | nil =>
      by_cases hp : patR = []
      · exact ⟨some p, by simp [matchRest, hp]⟩
      · exact ⟨none, by simp [matchRest, hp]⟩
    | cons c pr =>
      cases patR with
      | nil =>
        cases sl with
        | false => exact ⟨none, by simp [matchRest]⟩
        | true => exact ⟨some p, by simp [matchRest]⟩
      | cons d r =>
        simp only [List.length_cons] at h
        by_cases hd : d = 58
        · simp only [matchRest, hd, if_true]
          apply ih
          have := length_dropWhile_le_length isAlnum r
          omega
        · by_cases hcd : c = d
          · simp only [matchRest, hd, hcd, if_true, if_false]
            exact ih _ _ _ (by omega)
          · exact ⟨none, by simp [matchRest, hd, hcd]⟩

theorem tailRest_ok (b : Nat) (fuel : Nat) :
    ∀ (pathR patR : GoString) (r : Except String GoString),
      tailRest (some b) fuel pathR patR = some r → ∃ s, r = Except.ok s := by
  induction fuel with
  | zero => intro pathR patR r h; simp [tailRest] at h
  | succ fuel ih =>
    intro pathR patR r h
    cases pathR with
    | nil =>
      simp only [tailRest, Option.some.injEq] at h
      exact ⟨[], h.symm⟩
    | cons c pr =>
      cases patR with
      | nil =>
        by_cases hb : b = 47
        · simp only [tailRest, hb, if_true, Option.some.injEq] at h
          exact ⟨c :: pr, h.symm⟩
        · simp only [tailRest, hb, if_false, Option.some.injEq] at h
          exact ⟨[], h.symm⟩
      | cons d rr =>
        by_cases hd : d = 58
        · simp only [tailRest, hd, if_true] at h
          exact ih _ _ _ h
        · by_cases hcd : c = d
          · simp only [tailRest, hd, hcd, if_true, if_false] at h
            exact ih _ _ _ h
          · simp only [tailRest, hd, hcd, if_false, Option.some.injEq] at h
            exact ⟨[], h.symm⟩

end SubstLemmas

/-- C21: captures are recorded under their colon-prefixed name and repeated
names accumulate in match order. Whenever Match succeeds there are values, one
for each capture token of the pattern from left to right, whose substitution
for the tokens gives the matched part of the path, such that the list stored
under ":" ++ name is the list of the values of the captures of that name in
the order of the pattern, and nothing is stored under a key that is not ":"
followed by a capture name of the pattern. The pattern "/foo/:name/baz/:name"
on "/foo/bar/baz/123" returns ":name" with ["bar", "123"]. -/
theorem Match_captures_accumulate :
    (∀ (pat path : GoString) (caps : Values),
      Match pat path = some caps →
      ∃ vals rest,
        vals.length = (captureNames (tokens pat)).length ∧
        path = substitute (tokens pat) vals ++ rest ∧
        (∀ name, valuesOf caps (str ":" ++ name) =
          (((captureNames (tokens pat)).zip vals).filter
            (fun e => decide (e.1 = name))).map Prod.snd) ∧
        ∀ k, valuesOf caps k ≠ [] →
          ∃ name, name ∈ captureNames (tokens pat) ∧ k = str ":" ++ name) ∧
    Match (str "/foo/:name/baz/:name") (str "/foo/bar/baz/123") =
      some [(str ":name", [str "bar", str "123"])] ∧
    Match (str "/foo/:name/baz/:id") (str "/foo/bar/baz/123") =
      some [(str ":name", [str "bar"]), (str ":id", [str "123"])] := by
  refine ⟨?_, by decide, by decide⟩
  intro pat path caps h
  obtain ⟨vals, rest, hlen, hcaps, hpath, _, _⟩ := Match_subst pat path caps h
  refine ⟨vals, rest, hlen, hpath, ?_, ?_⟩
  · intro name
    rw [hcaps, valuesOf_addCaptures]
    have hk : str ":" ++ name = 58 :: name := rfl
    simp [valuesOf, hk]
  · intro k hk
    rw [hcaps, valuesOf_addCaptures] at hk
    have hne : ((captureNames (tokens pat)).zip vals).filter
        (fun e => decide (58 :: e.1 = k)) ≠ [] := by
      intro hnil
      apply hk
      rw [hnil]
      simp [valuesOf]
    obtain ⟨e, he⟩ := List.exists_mem_of_ne_nil _ hne
    rw [List.mem_filter] at he
    refine ⟨e.1, ?_, ?_⟩
    · exact (List.of_mem_zip he.1).1
    · have := he.2
      simp only [decide_eq_true_eq] at this
      exact this.symm

/-- Witness for C21: the pattern "/foo/:name/baz/:name" on "/foo/bar/baz/123". -/
theorem Match_captures_accumulate_witness :
    ∃ vals rest,
      vals.length = (captureNames (tokens (str "/foo/:name/baz/:name"))).length ∧
      str "/foo/bar/baz/123" = substitute (tokens (str "/foo/:name/baz/:name")) vals ++ rest ∧
      (∀ name, valuesOf [(str ":name", [str "bar", str "123"])] (str ":" ++ name) =
        (((captureNames (tokens (str "/foo/:name/baz/:name"))).zip vals).filter
          (fun e => decide (e.1 = name))).map Prod.snd) ∧
      ∀ k, valuesOf [(str ":name", [str "bar", str "123"])] k ≠ [] →
        ∃ name, name ∈ captureNames (tokens (str "/foo/:name/baz/:name")) ∧
          k = str ":" ++ name :=
  Match_captures_accumulate.1 (str "/foo/:name/baz/:name") (str "/foo/bar/baz/123")
    [(str ":name", [str "bar", str "123"])] (by decide)

/-- C29: Match is sound with respect to substitution. When Match(pat, path)
succeeds with the values caps, replacing the capture tokens of pat, from left
to right, each by the next value recorded under its name, yields exactly path
when pat does not end in '/', and a prefix of path when pat ends in '/'; in
the latter case path is that prefix followed by Tail(pat, path). The pattern
"/foo/:name/bar/" on "/foo/keith/bar/baz" gives the prefix "/foo/keith/bar/"
and the tail "baz". -/
theorem Match_sound_for_substitution :
    (∀ (pat path : GoString) (caps : Values),
      Match pat path = some caps →
      (pat.getLast? ≠ some 47 → fill pat caps = path) ∧
      (pat.getLast? = some 47 →
        ∃ rest, path = fill pat caps ++ rest ∧ Tail pat path = Except.ok rest)) ∧
    Match (str "/foo/:name/bar/") (str "/foo/keith/bar/baz") =
      some [(str ":name", [str "keith"])] ∧
    fill (str "/foo/:name/bar/") [(str ":name", [str "keith"])] = str "/foo/keith/bar/" ∧
    Tail (str "/foo/:name/bar/") (str "/foo/keith/bar/baz") = Except.ok (str "baz") ∧
    fill (str "/foo/:name/baz/:name") [(str ":name", [str "bar", str "123"])] =
      str "/foo/bar/baz/123" := by
  refine ⟨?_, by decide, by decide, by rfl, by decide⟩
  intro pat path caps h
  obtain ⟨vals, rest, hlen, hcaps, hpath, hrest, htail⟩ := Match_subst pat path caps h
  have hfill : fill pat caps = substitute (tokens pat) vals := by
    rw [hcaps]
    exact fill_of_addCaptures pat vals hlen
  refine ⟨?_, ?_⟩
  · intro hl
    have hnil : rest = [] := by
      by_contra hne
      exact hl (hrest hne)
    rw [hfill, hpath, hnil, List.append_nil]
  · intro hl
    exact ⟨rest, by rw [hfill]; exact hpath, htail hl⟩

/-- Witness for C29: the pattern "/foo/:name/bar/" on "/foo/keith/bar/baz". -/
theorem Match_sound_for_substitution_witness :
    ∃ rest, str "/foo/keith/bar/baz" =
        fill (str "/foo/:name/bar/") [(str ":name", [str "keith"])] ++ rest ∧
      Tail (str "/foo/:name/bar/") (str "/foo/keith/bar/baz") = Except.ok rest :=
  (Match_sound_for_substitution.1 (str "/foo/:name/bar/") (str "/foo/keith/bar/baz")
    [(str ":name", [str "keith"])] (by decide)).2 (by decide)

/-- C30 (Tail indexes an empty pattern): the loop of Match ends within
len(pat) + 1 iterations for every pattern and path, and so does the loop of
Tail, which returns a string for every non-empty pattern; but for the empty
pattern and a non-empty path Tail evaluates pat[len(pat)-1] and panics with an
index out of range, where Match tests len(pat) > 0 first. -/
theorem Match_total_Tail_indexes_empty_pattern :
    (∀ (pat path : GoString), ∃ r, MatchLoop pat path (pat.length + 1) 0 0 [] = some r) ∧
    (∀ (pat path : GoString), ∃ r, TailLoop pat path (pat.length + 1) 0 0 = some r) ∧
    (∀ (pat path : GoString), pat ≠ [] → ∃ s, Tail pat path = Except.ok s) ∧
    (∀ (path : GoString), path ≠ [] → Tail [] path = Except.error ErrIndexOutOfRange) ∧
    Tail (str "") (str "") = Except.ok (str "") ∧
    Tail (str "") (str "x") = Except.error ErrIndexOutOfRange ∧
    Match (str "") (str "x") = none := by
  refine ⟨?_, ?_, ?_, ?_, by rfl, by rfl, by decide⟩
  · intro pat path
    rw [MatchLoop_eq_matchRest pat path _ 0 0 [] (Nat.zero_le _) (Nat.zero_le _)]
    exact matchRest_fuel _ _ _ _ _ (Nat.lt_succ_self _)
  · intro pat path
    rw [TailLoop_eq_tailRest pat path _ 0 0 (Nat.zero_le _) (Nat.zero_le _)]
    exact tailRest_fuel _ _ _ _ (Nat.lt_succ_self _)
  · intro pat path hne
    rw [Tail_eq_tailRest]
    have hpos : 0 < pat.length := List.length_pos.2 hne
    have hidx : pat[pat.length - 1]? = some (pat[pat.length - 1]) :=
      List.getElem?_eq_getElem (by omega)
    rw [hidx]
    obtain ⟨r, hr⟩ := tailRest_fuel (some (pat[pat.length - 1])) (pat.length + 1) path pat
      (Nat.lt_succ_self _)
    obtain ⟨s, hs⟩ := tailRest_ok _ _ _ _ _ hr
    exact ⟨s, by rw [hr, hs]⟩
  · intro path hne
    cases path with
    | nil => exact absurd rfl hne
    | cons c r =>
      rw [Tail_eq_tailRest]
      simp [tailRest]

/-- Witness for C30: Tail on the pattern "/:a/" returns a string. -/
theorem Match_total_Tail_indexes_empty_pattern_witness :
    ∃ s, Tail (str "/:a/") (str "/x/y/z") = Except.ok s :=
  Match_total_Tail_indexes_empty_pattern.2.2.1 (str "/:a/") (str "/x/y/z") (by decide)

/-! ## Theorems: Remove -/

section RemoveLemmas

theorem removeFirst_of_first (heap : List Route) (path : GoString) :
    ∀ (before : List Nat) (ref : Nat) (after : List Nat),
      routeMatches heap path ref = true →
      (∀ x ∈ before, routeMatches heap path x = false) →
      removeFirst heap path (before ++ ref :: after) = some (before ++ after) := by
  intro before
  induction before with
  | nil => intro ref after h _; simp [removeFirst, h]
  | cons b bs ih =>
    intro ref after h hb
    have hb0 : routeMatches heap path b = false := hb b (List.mem_cons_self _ _)
    rw [List.cons_append, removeFirst, hb0,
      ih ref after h (fun x hx => hb x (List.mem_cons_of_mem _ hx))]
    rfl

theorem removeFirst_eq_none (heap : List Route) (path : GoString) (routes : List Nat) :
    removeFirst heap path routes = none ↔ NoMatch heap routes path := by
  induction routes with
  | nil => simp [removeFirst, NoMatch]
  | cons b bs ih =>
    unfold NoMatch at ih ⊢
    cases hb : routeMatches heap path b with
    | true =>
      simp only [removeFirst, hb, if_true]
      constructor
      · intro h; cases h
      · intro h
        have := h b (List.mem_cons_self _ _)
        rw [hb] at this
        cases this
    | false =>
      simp only [removeFirst, hb, Bool.false_eq_true, if_false, Option.map_eq_none', ih]
      constructor
      · intro h x hx
        rcases List.mem_cons.mp hx with rfl | hx
        · exact hb
        · exact h x hx
      · intro h x hx
        exact h x (List.mem_cons_of_mem _ hx)

theorem lookup_map_set_ne (method m : String) (list : List Nat) (hm : m ≠ method) :
    ∀ (routes : List (String × List Nat)),
      (routes.map (fun e => if e.1 = method then (e.1, list) else e)).lookup m =
        routes.lookup m := by
  intro routes
  induction routes with
  | nil => rfl
  | cons e rest ih =>
    obtain ⟨k, v⟩ := e
    by_cases hk : k = method
    · subst hk
      have hbeq : (m == k) = false := by simpa using hm
      rw [List.map_cons, if_pos rfl, List.lookup_cons, List.lookup_cons, hbeq]
      exact ih
    · rw [List.map_cons, if_neg hk]
      by_cases hmk : m = k
      · subst hmk
        rw [List.lookup_cons_self, List.lookup_cons_self]
      · have hbeq : (m == k) = false := by simpa using hmk
        rw [List.lookup_cons, List.lookup_cons, hbeq]
        exact ih

theorem lookup_routesSet_ne (routes : List (String × List Nat)) (method m : String)
    (list : List Nat) (hm : m ≠ method) :
    (routesSet routes method list).lookup m = routes.lookup m := by
  unfold routesSet
  cases h : routes.lookup method with
  | none =>
    simp only
    rw [List.lookup_append]
    have hbeq : (m == method) = false := by simpa using hm
    cases routes.lookup m with
    | none => simp [List.lookup, hbeq]
    | some v => rfl
  | some old => exact lookup_map_set_ne method m list hm routes

end RemoveLemmas

/-- C22, as stated, fails: Remove is keyed by matching, not by the registered
pattern. With only "/foo/:name" registered under GET, Remove("GET", "/foo/bar")
returns true although no route with the pattern "/foo/bar" is registered, and
it removes the route of "/foo/:name"; with "/foo/:name" and then "/foo/bar"
registered, Remove("GET", "/foo/bar") removes the route of "/foo/:name" (index
0) and keeps the route whose pattern is "/foo/bar" (index 1). -/
theorem Remove_matches_by_path :
    (Router.New.Get (str "/foo/:name")).1.findPattern "GET" (str "/foo/bar") = none ∧
    ((Router.New.Get (str "/foo/:name")).1.Remove "GET" (str "/foo/bar")).1 = true ∧
    ((Router.New.Get (str "/foo/:name")).1.Remove "GET" (str "/foo/bar")).2.routesOf "GET" = [] ∧
    captureThenLiteral.routesOf "GET" = [0, 1] ∧
    captureThenLiteral.findPattern "GET" (str "/foo/bar") = some 1 ∧
    (captureThenLiteral.Remove "GET" (str "/foo/bar")).2.routesOf "GET" = [1] := by
  refine ⟨by rfl, by rfl, by rfl, by rfl, by rfl, by rfl⟩

/-- C22, amended: Remove(method, path) is keyed by matching. It returns true
if and only if some route of the method's list has a pattern that matches
path; then the first such route, in the order of the list, is removed from the
list, every other route keeps its place and order, and the lists of the other
methods and the routes themselves are unchanged; when it returns false the
router is unchanged. After Get("/foo") and All("/bar"), Remove("GET", "/foo")
and Remove("*", "/bar") return true and leave both lists empty, and
Remove("*", "/baz") returns false. -/
theorem Remove_first_matching_route :
    (∀ (r : Router) (method : String) (path : GoString),
      ((r.Remove method path).1 = true ↔
        ∃ ref, IsFirstMatch r.heap (r.routesOf method) path ref) ∧
      ((r.Remove method path).1 = false → (r.Remove method path).2 = r)) ∧
    (∀ (r : Router) (method : String) (path : GoString) (before after : List Nat) (ref : Nat),
      r.routesOf method = before ++ ref :: after →
      routeMatches r.heap path ref = true →
      (∀ x ∈ before, routeMatches r.heap path x = false) →
      (r.Remove method path).1 = true ∧
      (r.Remove method path).2.routesOf method = before ++ after ∧
      (∀ m, m ≠ method → (r.Remove method path).2.routesOf m = r.routesOf m) ∧
      (r.Remove method path).2.heap = r.heap) ∧
    (testRouterRemoveRoute.routesOf "GET" = [0] ∧ testRouterRemoveRoute.routesOf "*" = [1]) ∧
    (testRouterRemoveRoute.Remove "GET" (str "/foo")).1 = true ∧
    (testRouterRemoveRoute.Remove "GET" (str "/foo")).2.routesOf "GET" = [] ∧
    ((testRouterRemoveRoute.Remove "GET" (str "/foo")).2.Remove "*" (str "/bar")).1 = true ∧
    ((testRouterRemoveRoute.Remove "GET" (str "/foo")).2.Remove "*" (str "/bar")).2.routesOf "*" =
      [] ∧
    (((testRouterRemoveRoute.Remove "GET" (str "/foo")).2.Remove "*" (str "/bar")).2.Remove "*"
      (str "/baz")).1 = false := by
  refine ⟨?_, ?_, ⟨by rfl, by rfl⟩, by rfl, by rfl, by rfl, by rfl, by rfl⟩
  · intro r method path
    unfold Router.Remove
    cases hrm : removeFirst r.heap path (r.routesOf method) with
    | none =>
      have hno := (removeFirst_eq_none _ _ _).1 hrm
      refine ⟨⟨fun h => (by cases h), ?_⟩, fun _ => rfl⟩
      rintro ⟨ref, before, after, hl, hm, _⟩
      have := hno ref (by rw [hl]; simp)
      rw [hm] at this
      cases this
    | some l =>
      refine ⟨⟨fun _ => ?_, fun _ => rfl⟩, fun h => by cases h⟩
      have hne : ¬ NoMatch r.heap (r.routesOf method) path := by
        intro hno
        rw [(removeFirst_eq_none _ _ _).2 hno] at hrm
        cases hrm
      cases hf : (r.routesOf method).find? (routeMatches r.heap path) with
      | none => exact absurd ((find?_eq_none_iff_noMatch _ _ _).1 hf) hne
      | some ref => exact ⟨ref, (find?_eq_some_iff_first _ _ _ _).1 hf⟩
  · intro r method path before after ref hl hm hb
    unfold Router.Remove
    rw [hl, removeFirst_of_first r.heap path before ref after hm hb]
    refine ⟨rfl, ?_, ?_, rfl⟩
    · show Router.routesOf _ method = before ++ after
      unfold Router.routesOf
      simp only [lookup_routesSet]
      rfl
    · intro m hmne
      show Router.routesOf _ m = r.routesOf m
      unfold Router.routesOf
      simp only [lookup_routesSet_ne _ _ _ _ hmne]

/-- Witness for C22: the router with "/foo/:name" and "/foo/bar" under GET and
the call Remove("GET", "/foo/bar"). -/
theorem Remove_first_matching_route_witness :
    (captureThenLiteral.Remove "GET" (str "/foo/bar")).1 = true ∧
    (captureThenLiteral.Remove "GET" (str "/foo/bar")).2.routesOf "GET" = [] ++ [1] ∧
    (∀ m, m ≠ "GET" →
      (captureThenLiteral.Remove "GET" (str "/foo/bar")).2.routesOf m =
        captureThenLiteral.routesOf m) ∧
    (captureThenLiteral.Remove "GET" (str "/foo/bar")).2.heap = captureThenLiteral.heap :=
  Remove_first_matching_route.2.1 captureThenLiteral "GET" (str "/foo/bar") [] [1] 0
    (by rfl) (by rfl) (fun x hx => absurd hx (List.not_mem_nil x))

/-! ## Theorems: Flush, the final handler, the adapter and Route.Forward -/

section FinalHandlerLemmas

theorem run_useFinalHandler_some (s : Layer) (f : Option Handler) (phase : String)
    (h : Handler) : (s.UseFinalHandler f).run phase (some h) = s.run phase (some h) := rfl

theorem Run_useFinalHandler_some (s : Layer) (f : Option Handler) (phase : String)
    (h : Handler) (c : Conn) :
    (s.UseFinalHandler f).Run phase (some h) c = s.Run phase (some h) c := by
  rw [Run_eq, Run_eq]
  have hbody : (s.UseFinalHandler f).runBody phase (some h) c = s.runBody phase (some h) c := rfl
  rw [hbody]
  cases s.runBody phase (some h) c with
  | ok c1 => rfl
  | panic c1 re => rfl

theorem register_preserves (Q : Option Handler → Prop) (l l1 : Layer) (phase : String)
    (priority : Priority) (h : AnyHandler) (hQ : Q l.finalHandler) (hh : h.Preserves Q)
    (hr : register l phase priority h = Except.ok l1) : Q l1.finalHandler := by
  unfold AnyHandler.Preserves at hh
  unfold register at hr
  cases hreg : h.methods.Register with
  | some f =>
    rw [hreg] at hr hh
    simp only [Except.ok.injEq] at hr
    subst hr
    exact hh _ hQ
  | none =>
    rw [hreg] at hr
    cases hmw : AdaptFunc h with
    | none => rw [hmw] at hr; simp at hr
    | some mw =>
      rw [hmw] at hr
      cases l with
      | mk fh par pool =>
        simp only at hr
        cases hp : poolGet pool phase with
        | none => rw [hp] at hr; simp only [Except.ok.injEq] at hr; subst hr; exact hQ
        | some st => rw [hp] at hr; simp only [Except.ok.injEq] at hr; subst hr; exact hQ

theorem registerAll_preserves (Q : Option Handler → Prop) (phase : String)
    (priority : Priority) :
    ∀ (hs : List AnyHandler) (l l1 : Layer), Q l.finalHandler →
      (∀ h ∈ hs, h.Preserves Q) →
      l.registerAll phase priority hs = Except.ok l1 → Q l1.finalHandler := by
  intro hs
  induction hs with
  | nil =>
    intro l l1 hQ _ hr
    simp only [Layer.registerAll, Except.ok.injEq] at hr
    subst hr
    exact hQ
  | cons h rest ih =>
    intro l l1 hQ hall hr
    rw [Layer.registerAll] at hr
    cases hreg : register l phase priority h with
    | error e => rw [hreg] at hr; cases hr
    | ok l2 =>
      rw [hreg] at hr
      exact ih l2 l1
        (register_preserves Q l l2 phase priority h hQ (hall h (List.mem_cons_self _ _)) hreg)
        (fun x hx => hall x (List.mem_cons_of_mem _ hx)) hr

theorem use_preserves (Q : Option Handler → Prop) (l l1 : Layer) (phase : String)
    (priority : Priority) (hs : List AnyHandler) (hQ : Q l.finalHandler)
    (hall : ∀ h ∈ hs, h.Preserves Q) (hr : l.use phase priority hs = Except.ok l1) :
    Q l1.finalHandler := by
  cases l with
  | mk fh par pool =>
    cases hp : poolGet pool phase with
    | none =>
      simp only [Layer.use, hp] at hr
      exact registerAll_preserves Q phase priority hs
        (Layer.mk fh par (poolSet pool phase {})) l1 hQ hall hr
    | some st =>
      simp only [Layer.use, hp] at hr
      exact registerAll_preserves Q phase priority hs (Layer.mk fh par pool) l1 hQ hall hr

theorem step_keeps_finalHandler (l l1 : Layer) (op : LayerOp) (hl : l.finalHandler ≠ none)
    (hop : op.KeepsFinalHandler) (hs : l.step op = Except.ok l1) : l1.finalHandler ≠ none := by
  cases op with
  | use phase handler =>
    exact use_preserves (fun fh => fh ≠ none) l l1 phase Priority.Normal handler hl hop hs
  | usePriority phase priority handler =>
    exact use_preserves (fun fh => fh ≠ none) l l1 phase priority handler hl hop hs
  | useFinalHandler fn =>
    simp only [Layer.step, Except.ok.injEq] at hs
    subst hs
    exact hop
  | setParent parent =>
    simp only [Layer.step, Except.ok.injEq] at hs
    subst hs
    exact hl
  | flush =>
    simp only [Layer.step, Except.ok.injEq] at hs
    subst hs
    exact hl

theorem steps_keep_finalHandler :
    ∀ (ops : List LayerOp) (l l1 : Layer), l.finalHandler ≠ none →
      (∀ op ∈ ops, op.KeepsFinalHandler) →
      l.steps ops = Except.ok l1 → l1.finalHandler ≠ none := by
  intro ops
  induction ops with
  | nil =>
    intro l l1 hl _ hs
    simp only [Layer.steps, Except.ok.injEq] at hs
    subst hs
    exact hl
  | cons op rest ih =>
    intro l l1 hl hall hs
    rw [Layer.steps] at hs
    cases hstep : l.step op with
    | error e => rw [hstep] at hs; cases hs
    | ok l2 =>
      rw [hstep] at hs
      exact ih l2 l1
        (step_keeps_finalHandler l l2 op hl (hall op (List.mem_cons_self _ _)) hstep)
        (fun x hx => hall x (List.mem_cons_of_mem _ hx)) hs

theorem usePhase_preserves (Q : Option Handler → Prop) (rt rt1 : Route) (phase : String)
    (h : AnyHandler) (hQ : Q rt.Layer.finalHandler) (hh : h.Preserves Q)
    (hr : rt.UsePhase phase h = Except.ok rt1) :
    rt1.Handler = rt.Handler ∧ Q rt1.Layer.finalHandler := by
  obtain ⟨pat, l, hd⟩ := rt
  simp only [Route.UsePhase] at hr
  cases hu : l.Use phase [h] with
  | error e => rw [hu] at hr; cases hr
  | ok l1 =>
    rw [hu] at hr
    simp only [Except.ok.injEq] at hr
    subst hr
    refine ⟨rfl, ?_⟩
    exact use_preserves Q l l1 phase Priority.Normal [h] hQ
      (fun x hx => by rw [List.mem_singleton] at hx; rw [hx]; exact hh) hu

theorem usePhase_Handler (rt rt1 : Route) (phase : String) (h : AnyHandler)
    (hr : rt.UsePhase phase h = Except.ok rt1) : rt1.Handler = rt.Handler := by
  obtain ⟨pat, l, hd⟩ := rt
  simp only [Route.UsePhase] at hr
  cases hu : l.Use phase [h] with
  | error e => rw [hu] at hr; cases hr
  | ok l1 =>
    rw [hu] at hr
    simp only [Except.ok.injEq] at hr
    subst hr
    rfl

theorem usePhases_Handler :
    ∀ (ops : List (String × AnyHandler)) (rt rt1 : Route),
      rt.usePhases ops = Except.ok rt1 → rt1.Handler = rt.Handler := by
  intro ops
  induction ops with
  | nil =>
    intro rt rt1 hr
    simp only [Route.usePhases, Except.ok.injEq] at hr
    subst hr
    rfl
  | cons op rest ih =>
    intro rt rt1 hr
    obtain ⟨phase, h⟩ := op
    rw [Route.usePhases] at hr
    cases hu : rt.UsePhase phase h with
    | error e => rw [hu] at hr; cases hr
    | ok rt2 =>
      rw [hu] at hr
      rw [ih rt2 rt1 hr, usePhase_Handler rt rt2 phase h hu]

theorem usePhases_preserves (Q : Option Handler → Prop) :
    ∀ (ops : List (String × AnyHandler)) (rt rt1 : Route), Q rt.Layer.finalHandler →
      (∀ e ∈ ops, e.2.Preserves Q) →
      rt.usePhases ops = Except.ok rt1 → Q rt1.Layer.finalHandler := by
  intro ops
  induction ops with
  | nil =>
    intro rt rt1 hQ _ hr
    simp only [Route.usePhases, Except.ok.injEq] at hr
    subst hr
    exact hQ
  | cons op rest ih =>
    intro rt rt1 hQ hall hr
    obtain ⟨phase, h⟩ := op
    rw [Route.usePhases] at hr
    cases hu : rt.UsePhase phase h with
    | error e => rw [hu] at hr; cases hr
    | ok rt2 =>
      rw [hu] at hr
      exact ih rt2 rt1
        (usePhase_preserves Q rt rt2 phase h hQ (hall (phase, h) (List.mem_cons_self _ _)) hu).2
        (fun x hx => hall x (List.mem_cons_of_mem _ hx)) hr

end FinalHandlerLemmas

/-- C28, as stated, fails for a layer with a parent: after Flush of the child
of the example its pool is empty, and yet Run("foo") does not go straight to
the terminal handler: the middleware of the parent for "foo" runs first and
sets its header. -/
theorem Flush_child_runs_parent_chain :
    requestLocalExample.Flush.Pool.length = 0 ∧
    responseOfRun (Except.ok requestLocalExample.Flush) "foo" {} =
      some (200, "", [("parent", "foo")]) ∧
    responseOf (requestLocalExample.terminal none {}) = some (200, "", [], []) := by
  refine ⟨by rfl, by rfl, by rfl⟩

/-- C28, amended: Flush clears every phase and nothing else. For every layer,
after Flush the pool is empty, no phase has a stack and the layer's own chain
for any phase is the terminal handler alone, while the final handler and the
parent are unchanged. Run goes straight to the terminal handler (under the
guard of the run) when the layer has no parent or the phase is "request", and
serves the parent's run for the phase, with the terminal handler as its
downstream, otherwise. In TestFlush the pool holds one stack before Flush and
none after. -/
theorem Flush_clears_pool :
    (∀ (s : Layer),
      s.Flush.Pool = [] ∧ s.Flush.finalHandler = s.finalHandler ∧ s.Flush.parent = s.parent ∧
      (∀ phase, poolGet s.Flush.Pool phase = none) ∧
      (∀ phase h, s.Flush.run phase h = s.terminal h) ∧
      (∀ phase h c, (s.parent = none ∨ phase = "request") →
        s.Flush.Run phase h c = s.Flush.recovered phase (s.terminal h c)) ∧
      (∀ P phase h c, s.parent = some P → phase ≠ "request" →
        s.Flush.Run phase h c =
          s.Flush.recovered phase (P.Run phase (some (s.terminal h)) c))) ∧
    (Layer.New.Use "request" [AnyHandler.middleware (fun h => h)]).toOption.map
      (fun l => l.Pool.length) = some 1 ∧
    (Layer.New.Use "request" [AnyHandler.middleware (fun h => h)]).toOption.map
      (fun l => l.Flush.Pool.length) = some 0 := by
  refine ⟨?_, by rfl, by rfl⟩
  intro s
  have hrun : ∀ phase h, s.Flush.run phase h = s.terminal h := by
    intro phase h
    cases h <;> rfl
  refine ⟨rfl, rfl, rfl, fun _ => rfl, hrun, ?_, ?_⟩
  · intro phase h c hcase
    rw [Run_eq]
    rcases hcase with hp | hp
    · have hp2 : s.Flush.parent = none := hp
      rw [runBody_of_no_parent _ _ _ _ hp2, hrun]
    · subst hp
      rw [runBody_request, hrun]
  · intro P phase h c hpar hph
    have hp2 : s.Flush.parent = some P := hpar
    rw [Run_eq, runBody_of_parent _ P phase h c hp2 hph, hrun]

/-- Witness for C28: the flushed child of the example in the phase "foo", with
its parent. -/
theorem Flush_clears_pool_witness :
    requestLocalExample.Flush.Run "foo" none {} =
      requestLocalExample.Flush.recovered "foo"
        ((Layer.mk (some FinalHandler) none
          [("request", { Stack := [setHeaderThenNext "parent" "request"] }),
           ("foo", { Stack := [setHeaderThenNext "parent" "foo"] })]).Run "foo"
          (some (requestLocalExample.terminal none)) {}) :=
  (Flush_clears_pool.1 requestLocalExample).2.2.2.2.2.2 _ "foo" none {} rfl (by decide)

/-- C24, as stated, fails: UseFinalHandler accepts a nil handler. After
UseFinalHandler(nil) on a new layer the final handler is nil and the chain of
a run with a nil downstream panics with a nil dereference. -/
theorem UseFinalHandler_accepts_nil :
    (Layer.New.steps [LayerOp.useFinalHandler none]).toOption.map
      (fun l => l.finalHandler.isNone) = some true ∧
    (Layer.New.UseFinalHandler none).run "request" none {} =
      Outcome.panic {} "runtime error: invalid memory address or nil pointer dereference" := by
  refine ⟨by rfl, by rfl⟩

/-- C24, amended: the final handler of a layer is never nil as long as no nil
handler is passed to UseFinalHandler. For every layer reached from New by any
sequence of Use, UsePriority, SetParent and Flush calls with arbitrary
arguments and UseFinalHandler calls with a non-nil handler (those made by the
Register method of a registered plugin included), the final handler is
non-nil, and a run with a nil downstream ends its chain in it. -/
theorem finalHandler_non_nil :
    ∀ (ops : List LayerOp) (l : Layer),
      (∀ op ∈ ops, op.KeepsFinalHandler) →
      Layer.New.steps ops = Except.ok l →
      ∃ f, l.finalHandler = some f ∧ l.terminal none = f := by
  intro ops l hall hs
  have hne : l.finalHandler ≠ none :=
    steps_keep_finalHandler ops Layer.New l (by simp [Layer.New, Layer.finalHandler]) hall hs
  cases hf : l.finalHandler with
  | none => exact absurd hf hne
  | some f =>
    refine ⟨f, rfl, ?_⟩
    simp [Layer.terminal, hf, serve]

/-- Witness for C24: Use, UseFinalHandler with a handler, Flush and SetParent
on a new layer. -/
theorem finalHandler_non_nil_witness :
    ∃ f, (((Layer.New.UseFinalHandler (some noop)).Flush).SetParent none).finalHandler = some f ∧
      (((Layer.New.UseFinalHandler (some noop)).Flush).SetParent none).terminal none = f :=
  finalHandler_non_nil
    [LayerOp.useFinalHandler (some noop), LayerOp.flush, LayerOp.setParent none]
    (((Layer.New.UseFinalHandler (some noop)).Flush).SetParent none)
    (fun op hop => by
      simp only [List.mem_cons, List.mem_singleton, List.not_mem_nil, or_false] at hop
      rcases hop with rfl | rfl | rfl
      · exact fun h => by cases h
      · exact trivial
      · exact trivial)
    rfl

theorem AdaptFunc_eq_none_iff (h : AnyHandler) :
    AdaptFunc h = none ↔
      h.assertFunc = none ∧ h.methods.ServeHTTP = none ∧ h.methods.HandleHTTP = none := by
  unfold AdaptFunc
  cases h with
  | func f => cases f <;> simp [AnyHandler.assertFunc]
  | defined u ms =>
    simp only [AnyHandler.assertFunc, AnyHandler.methods, true_and]
    cases hs : ms.ServeHTTP with
    | some fn => simp
    | none =>
      cases hh : ms.HandleHTTP with
      | none => simp
      | some m => cases m <;> simp

/-- C25 (a function of the named type layer.HandlerFunc is not adapted): for
a function of the unnamed type func(writer, request), and for every value
whose type has the method ServeHTTP, such as http.HandlerFunc(f), AdaptFunc
returns a transformer that yields the function itself for every downstream, so
the downstream is never invoked. But the type assertions of AdaptFunc name the
unnamed function types only: for a function of a defined function type that
has neither ServeHTTP nor HandleHTTP, such as layer.HandlerFunc(f), AdaptFunc
returns nil, and registering it panics with "vinxi: unsupported middleware
interface"; AdaptFunc returns nil exactly when the value is of none of the
four unnamed function types and its type has neither method, so also for
values of the named types HandlerFuncNext, MiddlewareHandlerFunc and
MiddlewareFunc, the last being the type of what AdaptFunc returns. For the
transformer shape the adapted transformer is the function itself, and for the
(writer, request, downstream) shapes, as a function or as the HandleHTTP
method, the adapted handler calls the wrapped function with the downstream.
Adapted over the 502 responder, the (writer, request) function of the adapter
tests that sets a header leaves the status untouched, as a function literal
and as an http.HandlerFunc, while the forwarding shapes end with 502; as a
layer.HandlerFunc the same function is not adapted at all. -/
theorem AdaptFunc_terminal_shapes :
    (∀ fn : Handler, ∃ m, AdaptFunc (AnyHandler.func (FuncValue.handlerFunc fn)) = some m ∧
      (∀ d, m d = fn) ∧ IgnoresDownstream m) ∧
    (∀ (u : Option FuncValue) (reg : Option (Layer → Layer)) (hh : Option HandleHTTPMethod)
        (fn : Handler),
      ∃ m, AdaptFunc (AnyHandler.defined u ⟨reg, some fn, hh⟩) = some m ∧
        (∀ d, m d = fn) ∧ IgnoresDownstream m) ∧
    (∀ (f : FuncValue) (reg : Option (Layer → Layer)),
      AdaptFunc (AnyHandler.defined (some f) ⟨reg, none, none⟩) = none) ∧
    (∀ h : AnyHandler, AdaptFunc h = none ↔
      h.assertFunc = none ∧ h.methods.ServeHTTP = none ∧ h.methods.HandleHTTP = none) ∧
    (∀ (fn : Handler) (l : Layer) (phase : String) (priority : Priority),
      AdaptFunc (AnyHandler.ofHandlerFunc fn) = none ∧
      l.UsePriority phase priority [AnyHandler.ofHandlerFunc fn] =
        Except.error "vinxi: unsupported middleware interface") ∧
    (∀ fn : Handler → Handler,
      AdaptFunc (AnyHandler.ofHandlerFuncNext fn) = none ∧
      AdaptFunc (AnyHandler.ofMiddlewareHandlerFunc fn) = none ∧
      AdaptFunc (AnyHandler.ofMiddlewareFunc fn) = none) ∧
    (∀ mw : Handler → Handler, ∃ m, AdaptFunc (AnyHandler.middleware mw) = some m ∧
      ∀ d, m d = mw d) ∧
    (∀ fn : Handler → Handler, ∃ m, AdaptFunc (AnyHandler.handlerFuncNext fn) = some m ∧
      ∀ d c, m d c = fn d c) ∧
    (∀ (u : Option FuncValue) (reg : Option (Layer → Layer)) (fn : Handler → Handler),
      ∃ m, AdaptFunc (AnyHandler.defined u ⟨reg, none, some (HandleHTTPMethod.handler fn)⟩) =
        some m ∧ ∀ d c, m d c = fn d c) ∧
    responseOfAdapted (AnyHandler.handlerFunc (fun c => Outcome.ok (c.HeaderSet "foo" "bar")))
      FinalHandler = some (0, "", [("foo", "bar")]) ∧
    responseOfAdapted (AnyHandler.httpHandlerFunc (fun c => Outcome.ok (c.HeaderSet "foo" "bar")))
      FinalHandler = some (0, "", [("foo", "bar")]) ∧
    responseOfAdapted (AnyHandler.middleware (setHeaderThenNext "foo" "bar"))
      FinalHandler = some (502, "Bad Gateway", [("foo", "bar")]) ∧
    responseOfAdapted (AnyHandler.handlerFuncNext (setHeaderThenNext "foo" "bar"))
      FinalHandler = some (502, "Bad Gateway", [("foo", "bar")]) ∧
    responseOfAdapted (AnyHandler.handler (setHeaderThenNext "foo" "bar"))
      FinalHandler = some (502, "Bad Gateway", [("foo", "bar")]) ∧
    responseOfAdapted (AnyHandler.ofHandlerFunc (fun c => Outcome.ok (c.HeaderSet "foo" "bar")))
      FinalHandler = none ∧
    Layer.New.Use "request"
        [AnyHandler.ofHandlerFunc (fun c => Outcome.ok (c.HeaderSet "foo" "bar"))] =
      Except.error "vinxi: unsupported middleware interface" := by
  refine ⟨?_, ?_, ?_, AdaptFunc_eq_none_iff, ?_, fun _ => ⟨rfl, rfl, rfl⟩, ?_, ?_, ?_,
    by rfl, by rfl, by rfl, by rfl, by rfl, by rfl, by rfl⟩
  · intro fn
    exact ⟨adaptHandlerFunc fn, rfl, fun _ => rfl, fun _ _ => rfl⟩
  · intro u reg hh fn
    exact ⟨adaptNativeHandler fn, rfl, fun _ => rfl, fun _ _ => rfl⟩
  · intro f reg
    rfl
  · intro fn l phase priority
    refine ⟨rfl, ?_⟩
    cases l with
    | mk fh par pool =>
      simp only [Layer.UsePriority, Layer.use]
      cases poolGet pool phase <;> rfl
  · intro mw
    exact ⟨mw, rfl, fun _ => rfl⟩
  · intro fn
    exact ⟨adaptHandlerFuncNext fn, rfl, fun _ _ => rfl⟩
  · intro u reg fn
    exact ⟨adaptHandler fn, rfl, fun _ _ => rfl⟩

/-- C23 (Use makes Forward ineffective): on a route whose Handler is nil,
after any UsePhase calls, Forward(uri), and further UsePhase calls whose
plugins leave the final handler alone, ServeHTTP runs the request phase of the
route's layer with a nil downstream and the final handler of the layer is the
forwarder bound to uri. But Use sets the Handler of the route to
DefaultForwarder, which Run takes as the terminal handler in place of the
final handler: after Use, serving the route is the same with and without
Forward(uri), and it ends in DefaultForwarder. In the example the route with
Use and Forward ends in the default forwarder (event 9), the route with
UsePhase("request") and Forward in the forwarder bound to the uri (event 7). -/
theorem Route_Forward_terminal_handler :
    (∀ (fwdTo : GoString → Handler) (heap : List Route) (rt rt1 rt2 : Route)
      (ops1 ops2 : List (String × AnyHandler)) (uri : GoString),
      rt.Handler = RouteHandler.unset →
      rt.usePhases ops1 = Except.ok rt1 →
      (∀ e ∈ ops2, e.2.Preserves (fun fh => fh = some (fwdTo uri))) →
      (rt1.Forward fwdTo uri).usePhases ops2 = Except.ok rt2 →
      rt2.ServeHTTP heap = rt2.Layer.Run "request" none ∧
        rt2.Layer.finalHandler = some (fwdTo uri)) ∧
    (∀ (fwdTo : GoString → Handler) (defaultForwarder : Handler) (heap : List Route)
      (rt rt1 : Route) (h : AnyHandler) (uri : GoString),
      rt.Handler = RouteHandler.unset →
      rt.Use defaultForwarder h = Except.ok rt1 →
      (rt1.Forward fwdTo uri).ServeHTTP heap =
          (rt1.Forward fwdTo uri).Layer.Run "request" (some defaultForwarder) ∧
        ∀ c, (rt1.Forward fwdTo uri).ServeHTTP heap c = rt1.ServeHTTP heap c) ∧
    eventsOfRoute useThenForward = some [1, 9, 2] ∧
    eventsOfRoute usePhaseThenForward = some [1, 7, 2] := by
  refine ⟨?_, ?_, by rfl, by rfl⟩
  · intro fwdTo heap rt rt1 rt2 ops1 ops2 uri hunset h1 hpres h2
    have hH1 : rt1.Handler = RouteHandler.unset := by
      rw [usePhases_Handler ops1 rt rt1 h1, hunset]
    have hF : (rt1.Forward fwdTo uri).Handler = rt1.Handler := by
      obtain ⟨pat, l, hd⟩ := rt1
      rfl
    have hFl : (rt1.Forward fwdTo uri).Layer.finalHandler = some (fwdTo uri) := by
      obtain ⟨pat, l, hd⟩ := rt1
      rfl
    have hH2 : rt2.Handler = RouteHandler.unset := by
      rw [usePhases_Handler ops2 _ rt2 h2, hF, hH1]
    refine ⟨?_, usePhases_preserves (fun fh => fh = some (fwdTo uri)) ops2 _ rt2 hFl hpres h2⟩
    unfold Route.ServeHTTP
    rw [hH2]
    rfl
  · intro fwdTo defaultForwarder heap rt rt1 h uri hunset hu
    obtain ⟨pat, l, hd⟩ := rt
    simp only at hunset
    subst hunset
    simp only [Route.Use] at hu
    cases hl : l.Use RequestPhase [h] with
    | error e => rw [hl] at hu; cases hu
    | ok l1 =>
      rw [hl] at hu
      simp only [Except.ok.injEq] at hu
      subst hu
      refine ⟨rfl, ?_⟩
      intro c
      exact Run_useFinalHandler_some l1 (some (fwdTo uri)) "request" defaultForwarder c

/-- Witness for C23: a new route, Use with a forwarding middleware, then
Forward. -/
theorem Route_Forward_terminal_handler_witness :
    ((⟨str "/x", Layer.mk (some FinalHandler) none
          [("request", { Stack := [recording 1 2] })],
          RouteHandler.fn (counting 9)⟩ : Route).Forward (fun _ => counting 7)
          (str "http://127.0.0.1:3200")).ServeHTTP [] {} =
      (⟨str "/x", Layer.mk (some FinalHandler) none
          [("request", { Stack := [recording 1 2] })],
          RouteHandler.fn (counting 9)⟩ : Route).ServeHTTP [] {} :=
  (Route_Forward_terminal_handler.2.1 (fun _ => counting 7) (counting 9) []
    (NewRoute (str "/x")) _ (AnyHandler.middleware (recording 1 2))
    (str "http://127.0.0.1:3200") rfl rfl).2 {}

/-! ## Theorems: the forwarding core -/

section ForwardLemmas

theorem containsItem_iff (toLower trimSpace : GoString → GoString) (value : GoString)
    (items : List GoString) :
    containsItem toLower trimSpace value items = true ↔
      ∃ item ∈ items, toLower (trimSpace item) = value := by
  induction items with
  | nil => simp [containsItem]
  | cons item rest ih =>
    by_cases h : value = toLower (trimSpace item)
    · simp only [containsItem, if_pos h]
      exact ⟨fun _ => ⟨item, List.mem_cons_self _ _, h.symm⟩, fun _ => trivial⟩
    · simp only [containsItem, if_neg h, ih]
      constructor
      · rintro ⟨x, hx, hv⟩
        exact ⟨x, List.mem_cons_of_mem _ hx, hv⟩
      · rintro ⟨x, hx, hv⟩
        rcases List.mem_cons.mp hx with rfl | hx
        · exact absurd hv.symm h
        · exact ⟨x, hx, hv⟩

end ForwardLemmas

/-- C26: isWebsocketRequest returns true if and only if some comma-separated
item of the value of the Connection header, trimmed of surrounding white space
and lower-cased, equals "upgrade", and some comma-separated item of the value
of the Upgrade header, treated the same way, equals "websocket". So
"keep-alive, Upgrade" with "websocket" is classified as WebSocket, in any
letter case, and a request that lacks either header is classified as HTTP. -/
theorem isWebsocketRequest_iff :
    (∀ (toLower trimSpace : GoString → GoString) (st : Store) (req : Request),
      isWebsocketRequest toLower trimSpace st req = true ↔
        ((∃ item ∈ (headerGet ((st.headers[req.Header]?).getD []) "Connection").splitOn 44,
            toLower (trimSpace item) = str "upgrade") ∧
          ∃ item ∈ (headerGet ((st.headers[req.Header]?).getD []) "Upgrade").splitOn 44,
            toLower (trimSpace item) = str "websocket")) ∧
    classify (some "keep-alive, Upgrade") (some "websocket") = true ∧
    classify (some "Keep-Alive, UPGRADE") (some "WebSocket") = true ∧
    classify (some "keep-alive") (some "websocket") = false ∧
    classify none (some "websocket") = false ∧
    classify (some "keep-alive, Upgrade") none = false ∧
    classify none none = false := by
  refine ⟨?_, by decide, by decide, by decide, by decide, by decide, by decide⟩
  intro toLower trimSpace st req
  unfold isWebsocketRequest containsHeader
  rw [Bool.and_eq_true, containsItem_iff, containsItem_iff]

/-- C27: for an inbound request and a target URL u that are not nil, the
outbound request that copyRequest builds before the rewriter runs has protocol
"HTTP/1.1" with major 1 and minor 1, Close = false, a URL of its own with host
u.Host and scheme u.Scheme, or "http" when u.Scheme is empty, and Host equal
to u.Host when passHost is false and to the Host of the inbound request when
passHost is true. The URL and the header map of the outbound request are newly
allocated: the objects that existed before, the URL and the header map of the
inbound request among them, are unchanged, and the header map of the outbound
request holds the values of the inbound one. Without a rewriter copyRequest
returns that request. -/
theorem copyRequest_outbound :
    (∀ (passHost : Bool) (st : Store) (req : Request) (u : Nat) (reqURL target : URL),
      st.urls[req.URL]? = some reqURL →
      st.urls[u]? = some target →
      ∃ st1 out outURL,
        copyRequestBody passHost st req u = some (st1, out) ∧
        copyRequest passHost none st req u = some (st1, out) ∧
        (out.Proto = str "HTTP/1.1" ∧ out.ProtoMajor = 1 ∧ out.ProtoMinor = 1 ∧
          out.Close = false) ∧
        st1.urls[out.URL]? = some outURL ∧
        outURL.Host = target.Host ∧
        outURL.Scheme = (if target.Scheme = [] then str "http" else target.Scheme) ∧
        out.Host = (if passHost then req.Host else target.Host) ∧
        (out.URL ≠ req.URL ∧ out.URL ≠ u) ∧
        (∀ i, i < st.urls.length → st1.urls[i]? = st.urls[i]?) ∧
        (∀ i, i < st.headers.length → st1.headers[i]? = st.headers[i]?) ∧
        st1.urls[req.URL]? = some reqURL ∧
        st1.headers[out.Header]? = some ((st.headers[req.Header]?).getD [])) ∧
    (∀ (passHost : Bool) (rw : Store → Request → Store) (st : Store) (req : Request) (u : Nat),
      copyRequest passHost (some rw) st req u =
        (copyRequestBody passHost st req u).map (fun res => (rw res.1 res.2, res.2))) := by
  refine ⟨?_, ?_⟩
  · intro passHost st req u reqURL target hreq hu
    have hlt1 : req.URL < st.urls.length := by
      by_contra hge
      rw [List.getElem?_eq_none (Nat.le_of_not_lt hge)] at hreq
      cases hreq
    have hlt2 : u < st.urls.length := by
      by_contra hge
      rw [List.getElem?_eq_none (Nat.le_of_not_lt hge)] at hu
      cases hu
    have hbody : copyRequestBody passHost st req u =
        some ({ urls := st.urls ++
                  [{ reqURL with
                      Host := target.Host,
                      Opaque := req.RequestURI,
                      Scheme := if target.Scheme = [] then str "http" else target.Scheme,
                      RawQuery := [] }],
                headers := st.headers ++ [(st.headers[req.Header]?).getD []] },
              { req with
                URL := st.urls.length,
                Host := if passHost then req.Host else target.Host,
                Proto := str "HTTP/1.1",
                ProtoMajor := 1,
                ProtoMinor := 1,
                Close := false,
                Header := st.headers.length }) := by
      unfold copyRequestBody
      rw [hreq, hu]
    refine ⟨_, _,
      { reqURL with
        Host := target.Host,
        Opaque := req.RequestURI,
        Scheme := if target.Scheme = [] then str "http" else target.Scheme,
        RawQuery := [] },
      hbody, ?_, ⟨rfl, rfl, rfl, rfl⟩, ?_, rfl, rfl, rfl, ?_, ?_, ?_, ?_, ?_⟩
    · unfold copyRequest
      rw [hbody]
    · show (st.urls ++ [_])[st.urls.length]? = some _
      rw [List.getElem?_append_right (Nat.le_refl _), Nat.sub_self]
      simp
    · exact ⟨fun h => by
        have : st.urls.length = req.URL := h
        omega, fun h => by
        have : st.urls.length = u := h
        omega⟩
    · intro i hi
      exact List.getElem?_append_left hi
    · intro i hi
      exact List.getElem?_append_left hi
    · show (st.urls ++ [_])[req.URL]? = some reqURL
      rw [List.getElem?_append_left hlt1, hreq]
    · show (st.headers ++ [_])[st.headers.length]? = some _
      rw [List.getElem?_append_right (Nat.le_refl _), Nat.sub_self]
      simp
  · intro passHost rw st req u
    unfold copyRequest
    cases copyRequestBody passHost st req u with
    | none => rfl
    | some res => rfl

/-- Witness for C27: an inbound request for "/x" on example.com without close
and with HTTP/1.0, copied for the target http://127.0.0.1:3200, with passHost
false. -/
theorem copyRequest_outbound_witness :
    ∃ st1 out outURL,
      copyRequestBody false
          { urls := [{ Host := str "example.com", Path := str "/x" },
                     { Host := str "127.0.0.1:3200" }],
            headers := [[("Accept", [str "*/*"])]] }
          { URL := 0, Proto := str "HTTP/1.0", ProtoMajor := 1, Host := str "example.com",
            Close := true, RequestURI := str "/x?a=b" } 1 = some (st1, out) ∧
      out.Proto = str "HTTP/1.1" ∧ out.Close = false ∧
      st1.urls[out.URL]? = some outURL ∧
      outURL.Host = str "127.0.0.1:3200" ∧ outURL.Scheme = str "http" ∧
      out.Host = str "127.0.0.1:3200" :=
  match copyRequest_outbound.1 false
    { urls := [{ Host := str "example.com", Path := str "/x" },
               { Host := str "127.0.0.1:3200" }],
      headers := [[("Accept", [str "*/*"])]] }
    { URL := 0, Proto := str "HTTP/1.0", ProtoMajor := 1, Host := str "example.com",
      Close := true, RequestURI := str "/x?a=b" } 1
    { Host := str "example.com", Path := str "/x" } { Host := str "127.0.0.1:3200" }
    rfl rfl with
  | ⟨st1, out, outURL, hb, _, hp, hurl, hh, hs, hhost, _⟩ =>
    ⟨st1, out, outURL, hb, hp.1, hp.2.2.2, hurl, hh, hs, hhost⟩

end Vinxi
